import Mathlib

/-!
# MiniC front end: the CST to AST visitor and the IR values

A shallow embedding of `frontend/antlr4/Antlr4CSTVisitor.cpp` (the visitor that
turns the ANTLR parse tree into the AST), of `ir/Values/GlobalVariable.h` and of
`ir/Instructions/BinaryInstruction.cpp`, together with the properties the
specification states about them.

Conventions of the embedding:

* `uint32_t` values are natural numbers; every arithmetic result is reduced
  modulo `2^32` explicitly (`wrap_u32`).
* A pointer to a node is the node itself; a pointer that may be null is an
  `Option`.
* A visitor function returns `Option ast_node`: `none` stands for an execution
  that leaves defined behaviour (an index past the end of a `std::vector`).
  On parse trees of the grammar this never happens.
* The AST is a tree, so the in-place update `dim_node->sons[0] = literal_node`
  is the construction of the updated node.
* An object of the IR is the record of its members; a method that changes the
  object returns the changed record, and a method that writes to a string
  argument returns the string written.
-/

namespace MiniC

/-! ## Types (`Type.h`, `ArrayType.h`, `PointerType.h`) -/

/-- Modelled from the spec: the four type variants of section 3.1 (`Type`,
`IntegerType`, `VoidType`, `PointerType`, `ArrayType` are declared in headers
that are missing from the sources). Types are interned, so identity of
types is structural equality. -/
inductive Ty where
  | Void
  | Int32
  | Pointer (pointee : Ty)
  | Array (element : Ty) (count : Nat)
  deriving DecidableEq

/-- Modelled from the spec: `ArrayType::get(elem, n)` is `array_of(T, n)`. -/
def ArrayType.get (elem : Ty) (numElements : Nat) : Ty := Ty.Array elem numElements

/-- Modelled from the spec: `PointerType::get(T)` is `pointer_of(T)`. -/
def PointerType.get (pointee : Ty) : Ty := Ty.Pointer pointee

/-- Number of `Array` layers at the top of a type. -/
def Ty.arrayLayers : Ty → Nat
  | Ty.Array e _ => e.arrayLayers + 1
  | _ => 0

/-! ## AST (`AST.h`) -/

/-- Modelled from the spec: the closed enumeration of operator tags of section
3.2 (`ast_operator_type` is declared in `AST.h`, which is missing from the
sources). The names are the ones the visitor uses. -/
inductive ast_operator_type where
  | AST_OP_COMPILE_UNIT
  | AST_OP_FUNC_DEF
  | AST_OP_FUNC_FORMAL_PARAMS
  | AST_OP_FUNC_FORMAL_PARAM
  | AST_OP_BLOCK
  | AST_OP_DECL_STMT
  | AST_OP_VAR_DECL
  | AST_OP_LEAF_TYPE
  | AST_OP_IF
  | AST_OP_WHILE
  | AST_OP_BREAK
  | AST_OP_CONTINUE
  | AST_OP_RETURN
  | AST_OP_ASSIGN
  | AST_OP_EXPR_STMT
  | AST_OP_ARRAY_INIT
  | AST_OP_ARRAY_DIM
  | AST_OP_ARRAY_INDEX
  | AST_OP_FUNC_CALL
  | AST_OP_FUNC_REAL_PARAMS
  | AST_OP_LEAF_VAR_ID
  | AST_OP_LEAF_LITERAL_UINT
  | AST_OP_ADD
  | AST_OP_SUB
  | AST_OP_MUL
  | AST_OP_DIV
  | AST_OP_MOD
  | AST_OP_LT
  | AST_OP_GT
  | AST_OP_LE
  | AST_OP_GE
  | AST_OP_EQ
  | AST_OP_NE
  | AST_OP_AND
  | AST_OP_OR
  | AST_OP_NEG
  | AST_OP_NOT
  deriving DecidableEq

open ast_operator_type

/-- Modelled from the spec: the single node variant of section 3.2 (`ast_node`
is declared in `AST.h`, which is missing from the sources): operator tag, source
line, optional attached type, integer value (`uint32_t`, meaningful for literal
leaves), identifier name (meaningful for identifier leaves) and the ordered
child list `sons`. -/
inductive ast_node where
  | mk (node_type : ast_operator_type) (line_no : Int) (type : Option Ty)
      (integer_val : Nat) (name : String) (sons : List ast_node)

namespace ast_node

/-- Field `node_type`. -/
def node_type : ast_node → ast_operator_type
  | mk t _ _ _ _ _ => t

/-- Field `line_no`. -/
def line_no : ast_node → Int
  | mk _ l _ _ _ _ => l

/-- Field `type`. -/
def type : ast_node → Option Ty
  | mk _ _ ty _ _ _ => ty

/-- Field `integer_val`. -/
def integer_val : ast_node → Nat
  | mk _ _ _ v _ _ => v

/-- Field `name`. -/
def name : ast_node → String
  | mk _ _ _ _ n _ => n

/-- Field `sons`. -/
def sons : ast_node → List ast_node
  | mk _ _ _ _ _ s => s

/-- Assignment `node->type = ty`. -/
def set_type : ast_node → Ty → ast_node
  | mk t l _ v n s, ty => mk t l (some ty) v n s

/-- Assignment `node->sons[0] = son`; `none` when there is no element 0. -/
def set_son0 : ast_node → ast_node → Option ast_node
  | mk _ _ _ _ _ [], _ => none
  | mk t l ty v n (_ :: rest), son => some (mk t l ty v n (son :: rest))

/-- Modelled from the spec: `insert_son(parent, child)` appends in order. The
callers rely on a null child being skipped (comments at lines 734 and 1061 of
the visitor). -/
def insert_son_node : ast_node → Option ast_node → ast_node
  | parent, none => parent
  | mk t l ty v n s, some child => mk t l ty v n (s ++ [child])

/-- Modelled from the spec: `new_op(tag, children...)`, the variadic
`ast_node::New(op, first, ..., nullptr)`; the source passes no line, which is
recorded as `-1`. -/
def New (op : ast_operator_type) (children : List ast_node) : ast_node :=
  mk op (-1) none 0 "" children

/-- Modelled from the spec: `new_leaf_id(name, line)`, the overload
`ast_node::New(std::string id, int64_t lineno)`. -/
def New_id (id : String) (lineno : Int) : ast_node :=
  mk AST_OP_LEAF_VAR_ID lineno none 0 id []

/-- Modelled from the spec: `new_leaf_int(value, line)`, the overload
`ast_node::New(digit_int_attr attr)`. -/
def New_digit (val : Nat) (lineno : Int) : ast_node :=
  mk AST_OP_LEAF_LITERAL_UINT lineno none val "" []

end ast_node

/-- Modelled from the spec: `create_contain_node(tag, children...)` creates an
inner node and inserts the given children in order (`AST.cpp` is missing from
the sources). -/
def create_contain_node (node_type : ast_operator_type)
    (children : List (Option ast_node)) : ast_node :=
  children.foldl ast_node.insert_son_node (ast_node.New node_type [])

/-! ## Constant folding of dimension expressions -/

/-- Reduction of an integer to the `uint32_t` value congruent to it. -/
def wrap_u32 (z : Int) : Nat := (z % 4294967296).toNat

/-- The inner `switch` of `calculate_const_dim_size` (lines 1102-1113): the
value of `left_val op right_val` in `uint32_t` arithmetic. -/
def fold_binary (op : ast_operator_type) (left_val right_val : Nat) : Option Nat :=
  match op with
  | AST_OP_ADD => some (wrap_u32 ((left_val : Int) + (right_val : Int)))
  | AST_OP_SUB => some (wrap_u32 ((left_val : Int) - (right_val : Int)))
  | AST_OP_MUL => some (wrap_u32 ((left_val : Int) * (right_val : Int)))
  | AST_OP_DIV => if right_val = 0 then none else some (left_val / right_val)
  | AST_OP_MOD => if right_val = 0 then none else some (left_val % right_val)
  | _ => none

/-- Source `MiniCCSTVisitor::calculate_const_dim_size` (lines 1067-1127) on a
non-null node. -/
def calculate_const_dim_size : ast_node → Option Nat
  | ast_node.mk op _ _ integer_val _ sons =>
    match op with
    | AST_OP_LEAF_LITERAL_UINT => some integer_val
    | AST_OP_ADD | AST_OP_SUB | AST_OP_MUL | AST_OP_DIV | AST_OP_MOD =>
      match sons with
      | [l, r] =>
        match calculate_const_dim_size l, calculate_const_dim_size r with
        | some left_val, some right_val => fold_binary op left_val right_val
        | _, _ => none
      | _ => none
    | _ => none

/-- Source `MiniCCSTVisitor::calculate_const_dim_size` on a pointer that may be
null (line 1070). -/
def calculate_const_dim_size_ptr : Option ast_node → Option Nat
  | none => none
  | some node => calculate_const_dim_size node

/-! ## Concrete syntax tree (`MiniCParser.h`, generated by ANTLR) -/

/-- Modelled from the spec: a terminal of the parse tree with its text and the
line of its symbol (`getText()`, `getSymbol()->getLine()`). -/
structure Token where
  text : String
  line : Nat
  deriving DecidableEq

/-- Modelled from the spec: the terminal `T_DIGIT`; `value` is the number its
text denotes, in the base that `stoull(getText(), nullptr, 0)` detects. The text
of a literal is not bounded, so neither is `value`. -/
structure DigitToken where
  value : Nat
  line : Nat
  deriving DecidableEq

/-- The call `stoull(ctx->T_DIGIT()->getText(), nullptr, 0)` of line 861: the
number when an `unsigned long long` of 64 bits holds it. For a larger number
`std::stoull` throws `std::out_of_range`, which nothing in the visitor catches:
`none`, the call does not return. -/
def stoull (T_DIGIT : DigitToken) : Option Nat :=
  if T_DIGIT.value < 18446744073709551616 then some T_DIGIT.value else none

/-- Modelled from the spec: `mulOp : '*' | '/' | '%'`. -/
inductive MulOpContext where
  | T_MUL
  | T_DIV
  | T_MOD
  deriving DecidableEq

/-- Modelled from the spec: `addOp : '+' | '-'`. -/
inductive AddOpContext where
  | T_ADD
  | T_SUB
  deriving DecidableEq

/-- Modelled from the spec: `relOp : '<' | '>' | '<=' | '>='`. -/
inductive RelOpContext where
  | T_LT
  | T_GT
  | T_LE
  | T_GE
  deriving DecidableEq

/-- Modelled from the spec: `eqOp : '==' | '!='`. -/
inductive EqOpContext where
  | T_EQ
  | T_NE
  deriving DecidableEq

/-- Modelled from the spec: `lAndOp : '&&'`. -/
inductive LAndOpContext where
  | T_AND
  deriving DecidableEq

/-- Modelled from the spec: `lOrOp : '||'`. -/
inductive LOrOpContext where
  | T_OR
  deriving DecidableEq

/-- Modelled from the spec: `unaryOp : '!' | '-'`. -/
inductive UnaryOpContext where
  | T_NOT
  | T_SUB
  deriving DecidableEq

mutual
/-- Modelled from the spec: `expr : lOrExp`. -/
inductive ExprContext where
  | mk (lOrExp : LOrExpContext)
/-- Modelled from the spec: `lOrExp : lAndExp ('||' lAndExp)*`, with the
accessors `lAndExp()` and `lOrOp()` of the generated context. -/
inductive LOrExpContext where
  | mk (lAndExp : List LAndExpContext) (lOrOp : List LOrOpContext)
/-- Modelled from the spec: `lAndExp : eqExp ('&&' eqExp)*`. -/
inductive LAndExpContext where
  | mk (eqExp : List EqExpContext) (lAndOp : List LAndOpContext)
/-- Modelled from the spec: `eqExp : relExp (('=='|'!=') relExp)*`. -/
inductive EqExpContext where
  | mk (relExp : List RelExpContext) (eqOp : List EqOpContext)
/-- Modelled from the spec: `relExp : addExp (('<'|'>'|'<='|'>=') addExp)*`. -/
inductive RelExpContext where
  | mk (addExp : List AddExpContext) (relOp : List RelOpContext)
/-- Modelled from the spec: `addExp : mulExp (('+'|'-') mulExp)*`. -/
inductive AddExpContext where
  | mk (mulExp : List MulExpContext) (addOp : List AddOpContext)
/-- Modelled from the spec: `mulExp : unaryExp (('*'|'/'|'%') unaryExp)*`. -/
inductive MulExpContext where
  | mk (unaryExp : List UnaryExpContext) (mulOp : List MulOpContext)
/-- Modelled from the spec:
`unaryExp : primaryExp | ID '(' realParamList? ')' | unaryOp unaryExp`. -/
inductive UnaryExpContext where
  | primary (primaryExp : PrimaryExpContext)
  | call (T_ID : Token) (realParamList : Option RealParamListContext)
  | unary (unaryOp : UnaryOpContext) (unaryExp : UnaryExpContext)
/-- Modelled from the spec: `primaryExp : '(' expr ')' | DIGIT | lVal`. -/
inductive PrimaryExpContext where
  | paren (expr : ExprContext)
  | digit (T_DIGIT : DigitToken)
  | lval (lVal : LValContext)
/-- Modelled from the spec: `lVal : ID ('[' expr ']')*`. -/
inductive LValContext where
  | mk (T_ID : Token) (expr : List ExprContext)
/-- Modelled from the spec: `realParamList : expr (',' expr)*`. -/
inductive RealParamListContext where
  | mk (expr : List ExprContext)
end

/-- Modelled from the spec: `initVal : expr | '{' initVal (',' initVal)* '}'`. -/
inductive InitValContext where
  | expr (e : ExprContext)
  | braces (initVal : List InitValContext)

/-- Modelled from the spec: `varDef : ID ('[' expr ']')* ('=' initVal)?`; the
terminal `T_ASSIGN` is present exactly when `initVal` is. -/
structure VarDefContext where
  T_ID : Token
  expr : List ExprContext
  initVal : Option InitValContext

/-- Modelled from the spec: `basicType : 'int'`. -/
structure BasicTypeContext where
  T_INT : Option Token

/-- Modelled from the spec: `varDecl : basicType varDef (',' varDef)* ';'`. -/
structure VarDeclContext where
  basicType : BasicTypeContext
  varDef : List VarDefContext

/-- Modelled from the spec:
`funcFParam : basicType ID ('[' expr? ']' ('[' expr ']')*)?`. `T_L_BRACKET`
tells whether `T_L_BRACKET(0)` is present, `expr0` is the optional expression
of the first bracket pair (the visitor never reads it) and `dims` are the
expressions of the further bracket pairs. -/
structure FuncFParamContext where
  basicType : BasicTypeContext
  T_ID : Token
  T_L_BRACKET : Bool
  expr0 : Option ExprContext
  dims : List ExprContext

/-! ## Attributes (`AttrType.h`) -/

/-- Modelled from the spec: the basic types a `type_attr` can name. -/
inductive BasicType where
  | TYPE_VOID
  | TYPE_INT
  deriving DecidableEq

/-- Modelled from the spec: `type_attr`, a basic type with its line. -/
structure type_attr where
  type : BasicType
  lineno : Int
  deriving DecidableEq

/-- Modelled from the spec: `create_type_node(attr)` is the type leaf of the
AST, carrying `i32` for `int` and `void` otherwise (`AST.cpp` is missing from
the sources). -/
def create_type_node (attr : type_attr) : ast_node :=
  ast_node.mk AST_OP_LEAF_TYPE attr.lineno
    (some (match attr.type with
      | BasicType.TYPE_INT => Ty.Int32
      | BasicType.TYPE_VOID => Ty.Void)) 0 "" []

/-- Modelled from the spec: `create_func_call(name, params)` is the call node
whose children are the function name and, iff there are real parameters, the
parameter list (`AST.cpp` is missing from the sources). -/
def create_func_call (funcname_node : ast_node) (params_node : Option ast_node) : ast_node :=
  create_contain_node AST_OP_FUNC_CALL [some funcname_node, params_node]

/-- Structure `VarDefInfo` (lines 36-40). -/
structure VarDefInfo where
  id_node : ast_node
  dim_nodes : List ast_node
  init_node : Option ast_node

/-! ## The visitor (`Antlr4CSTVisitor.cpp`) -/

/-- Source `MiniCCSTVisitor::visitMulOp` (lines 440-450). -/
def visitMulOp : MulOpContext → ast_operator_type
  | MulOpContext.T_MUL => AST_OP_MUL
  | MulOpContext.T_DIV => AST_OP_DIV
  | MulOpContext.T_MOD => AST_OP_MOD

/-- Source `MiniCCSTVisitor::visitAddOp` (lines 494-503). -/
def visitAddOp : AddOpContext → ast_operator_type
  | AddOpContext.T_ADD => AST_OP_ADD
  | AddOpContext.T_SUB => AST_OP_SUB

/-- Source `MiniCCSTVisitor::visitRelOp` (lines 544-555). -/
def visitRelOp : RelOpContext → ast_operator_type
  | RelOpContext.T_LT => AST_OP_LT
  | RelOpContext.T_GT => AST_OP_GT
  | RelOpContext.T_LE => AST_OP_LE
  | RelOpContext.T_GE => AST_OP_GE

/-- Source `MiniCCSTVisitor::visitEqOp` (lines 596-603). -/
def visitEqOp : EqOpContext → ast_operator_type
  | EqOpContext.T_EQ => AST_OP_EQ
  | EqOpContext.T_NE => AST_OP_NE

/-- Source `MiniCCSTVisitor::visitLAndOp` (lines 644-651); the context of the
grammar always holds `T_AND`. -/
def visitLAndOp : LAndOpContext → ast_operator_type
  | LAndOpContext.T_AND => AST_OP_AND

/-- Source `MiniCCSTVisitor::visitLOrOp` (lines 692-699); the context of the
grammar always holds `T_OR`. -/
def visitLOrOp : LOrOpContext → ast_operator_type
  | LOrOpContext.T_OR => AST_OP_OR

/-- Source `MiniCCSTVisitor::visitUnaryOp` (lines 839-848). -/
def visitUnaryOp : UnaryOpContext → ast_operator_type
  | UnaryOpContext.T_NOT => AST_OP_NOT
  | UnaryOpContext.T_SUB => AST_OP_SUB

/-- Element `k` of the vector of visited operands: `none` past the end. -/
def operand_at (operands : List (Option ast_node)) (k : Nat) : Option ast_node :=
  (operands.get? k).join

/-- The loop `for (int k = 0; k < (int) opsCtxVec.size(); k++)` shared, word
for word, by `visitMulExp`, `visitAddExp`, `visitRelExp`, `visitEqExp`,
`visitLAndExp` and `visitLOrExp` (lines 417-433 for `visitMulExp`). `operands`
holds the visit of every operand context, the list argument the operators
from index `k` on, and `left` the variable `left`, which is unset before the
first iteration. -/
def flatten_loop (operands : List (Option ast_node)) :
    List ast_operator_type → Nat → Option ast_node → Option ast_node
  | [], _, left => left
  | op :: ops, k, left =>
    match (if k = 0 then operand_at operands k else left), operand_at operands (k + 1) with
    | some l, some right =>
      flatten_loop operands ops (k + 1) (some (ast_node.New op [l, right]))
    | _, _ => none

/-- The body shared by the six visitors of a binary precedence level: without
operator the visit of operand 0 is returned, otherwise the loop runs. -/
def visit_binary_level (operands : List (Option ast_node))
    (ops : List ast_operator_type) : Option ast_node :=
  if ops.isEmpty then operand_at operands 0
  else flatten_loop operands ops 0 none

/-- The loop of `visitLVal` (lines 892-915) over the visited index
expressions; `base_node` is the accumulator. -/
def visitLVal_loop (id_node : ast_node) : List (Option ast_node) → ast_node → Option ast_node
  | [], base_node => some base_node
  | none :: _, _ => none
  | some expr_node :: rest, base_node =>
    visitLVal_loop id_node rest
      (if base_node.node_type = AST_OP_ARRAY_INDEX then
        create_contain_node AST_OP_ARRAY_INDEX [some base_node, some expr_node]
      else
        create_contain_node AST_OP_ARRAY_INDEX [some id_node, some expr_node])

/-- A loop `for (ctx : ...) parent->insert_son_node(visit(ctx))` over the
visited children. -/
def insert_visited (parent : ast_node) : List (Option ast_node) → Option ast_node
  | [] => some parent
  | none :: _ => none
  | some node :: rest => insert_visited (parent.insert_son_node (some node)) rest

mutual
/-- Source `MiniCCSTVisitor::visitExpr` (lines 358-363). -/
def visitExpr : ExprContext → Option ast_node
  | ExprContext.mk lOrExp => visitLOrExp lOrExp
/-- Source `MiniCCSTVisitor::visitLOrExp` (lines 655-688). -/
def visitLOrExp : LOrExpContext → Option ast_node
  | LOrExpContext.mk lAndExp lOrOp =>
    visit_binary_level (visitLAndExp_each lAndExp) (lOrOp.map visitLOrOp)
/-- The visits `visitLAndExp(ctx->lAndExp()[i])`. -/
def visitLAndExp_each : List LAndExpContext → List (Option ast_node)
  | [] => []
  | ctx :: rest => visitLAndExp ctx :: visitLAndExp_each rest
/-- Source `MiniCCSTVisitor::visitLAndExp` (lines 607-640). -/
def visitLAndExp : LAndExpContext → Option ast_node
  | LAndExpContext.mk eqExp lAndOp =>
    visit_binary_level (visitEqExp_each eqExp) (lAndOp.map visitLAndOp)
/-- The visits `visitEqExp(ctx->eqExp()[i])`. -/
def visitEqExp_each : List EqExpContext → List (Option ast_node)
  | [] => []
  | ctx :: rest => visitEqExp ctx :: visitEqExp_each rest
/-- Source `MiniCCSTVisitor::visitEqExp` (lines 559-592). -/
def visitEqExp : EqExpContext → Option ast_node
  | EqExpContext.mk relExp eqOp =>
    visit_binary_level (visitRelExp_each relExp) (eqOp.map visitEqOp)
/-- The visits `visitRelExp(ctx->relExp()[i])`. -/
def visitRelExp_each : List RelExpContext → List (Option ast_node)
  | [] => []
  | ctx :: rest => visitRelExp ctx :: visitRelExp_each rest
/-- Source `MiniCCSTVisitor::visitRelExp` (lines 507-540). -/
def visitRelExp : RelExpContext → Option ast_node
  | RelExpContext.mk addExp relOp =>
    visit_binary_level (visitAddExp_each addExp) (relOp.map visitRelOp)
/-- The visits `visitAddExp(ctx->addExp()[i])`. -/
def visitAddExp_each : List AddExpContext → List (Option ast_node)
  | [] => []
  | ctx :: rest => visitAddExp ctx :: visitAddExp_each rest
/-- Source `MiniCCSTVisitor::visitAddExp` (lines 454-490). -/
def visitAddExp : AddExpContext → Option ast_node
  | AddExpContext.mk mulExp addOp =>
    visit_binary_level (visitMulExp_each mulExp) (addOp.map visitAddOp)
/-- The visits `visitMulExp(ctx->mulExp()[i])`. -/
def visitMulExp_each : List MulExpContext → List (Option ast_node)
  | [] => []
  | ctx :: rest => visitMulExp ctx :: visitMulExp_each rest
/-- Source `MiniCCSTVisitor::visitMulExp` (lines 401-436). -/
def visitMulExp : MulExpContext → Option ast_node
  | MulExpContext.mk unaryExp mulOp =>
    visit_binary_level (visitUnaryExp_each unaryExp) (mulOp.map visitMulOp)
/-- The visits `visitUnaryExp(ctx->unaryExp()[i])`. -/
def visitUnaryExp_each : List UnaryExpContext → List (Option ast_node)
  | [] => []
  | ctx :: rest => visitUnaryExp ctx :: visitUnaryExp_each rest
/-- Source `MiniCCSTVisitor::visitUnaryExp` (lines 796-835). A visit that
returns at all returns a node, so the test `!operandNode` never fires. -/
def visitUnaryExp : UnaryExpContext → Option ast_node
  | UnaryExpContext.primary primaryExp => visitPrimaryExp primaryExp
  | UnaryExpContext.call T_ID none =>
    some (create_func_call (ast_node.New_id T_ID.text (T_ID.line : Int)) none)
  | UnaryExpContext.call T_ID (some realParamList) =>
    match visitRealParamList realParamList with
    | some paramListNode =>
      some (create_func_call (ast_node.New_id T_ID.text (T_ID.line : Int)) (some paramListNode))
    | none => none
  | UnaryExpContext.unary unaryOp unaryExp =>
    match visitUnaryExp unaryExp with
    | some operandNode => some (ast_node.New (visitUnaryOp unaryOp) [operandNode])
    | none => none
/-- Source `MiniCCSTVisitor::visitPrimaryExp` (lines 852-875). The cast
`(uint32_t)` keeps the value modulo `2^32`; when `stoull` throws, the visit
returns no node. -/
def visitPrimaryExp : PrimaryExpContext → Option ast_node
  | PrimaryExpContext.digit T_DIGIT =>
    match stoull T_DIGIT with
    | some val => some (ast_node.New_digit (val % 4294967296) (T_DIGIT.line : Int))
    | none => none
  | PrimaryExpContext.lval lVal => visitLVal lVal
  | PrimaryExpContext.paren expr => visitExpr expr
/-- Source `MiniCCSTVisitor::visitLVal` (lines 879-918). -/
def visitLVal : LValContext → Option ast_node
  | LValContext.mk T_ID expr =>
    visitLVal_loop (ast_node.New_id T_ID.text (T_ID.line : Int)) (visitExpr_each expr)
      (ast_node.New_id T_ID.text (T_ID.line : Int))
/-- The visits `visitExpr(ctx)` of a vector of expression contexts. -/
def visitExpr_each : List ExprContext → List (Option ast_node)
  | [] => []
  | ctx :: rest => visitExpr ctx :: visitExpr_each rest
/-- Source `MiniCCSTVisitor::visitRealParamList` (lines 1032-1046). -/
def visitRealParamList : RealParamListContext → Option ast_node
  | RealParamListContext.mk expr =>
    insert_visited (create_contain_node AST_OP_FUNC_REAL_PARAMS []) (visitExpr_each expr)
end

mutual
/-- Source `MiniCCSTVisitor::visitInitVal` (lines 703-722). -/
def visitInitVal : InitValContext → Option ast_node
  | InitValContext.expr e => visitExpr e
  | InitValContext.braces initVal =>
    insert_visited (create_contain_node AST_OP_ARRAY_INIT []) (visitInitVal_each initVal)
/-- The visits `visitInitVal(valCtx)` of the sub-initializers. -/
def visitInitVal_each : List InitValContext → List (Option ast_node)
  | [] => []
  | ctx :: rest => visitInitVal ctx :: visitInitVal_each rest
end

/-- Source `MiniCCSTVisitor::visitBasicType` (lines 1018-1028). -/
def visitBasicType (ctx : BasicTypeContext) : type_attr :=
  match ctx.T_INT with
  | some T_INT => { type := BasicType.TYPE_INT, lineno := (T_INT.line : Int) }
  | none => { type := BasicType.TYPE_VOID, lineno := -1 }

/-- The loop of `visitVarDef` (lines 1002-1008) over the visited dimension
expressions: each becomes the only child of a fresh `ArrayDim` node. -/
def visitVarDef_dims : List (Option ast_node) → Option (List ast_node)
  | [] => some []
  | none :: _ => none
  | some expr_node :: rest =>
    match visitVarDef_dims rest with
    | some dim_nodes =>
      some (((create_contain_node AST_OP_ARRAY_DIM []).insert_son_node (some expr_node))
        :: dim_nodes)
    | none => none

/-- Source `MiniCCSTVisitor::visitVarDef` (lines 988-1014). -/
def visitVarDef (ctx : VarDefContext) : Option VarDefInfo :=
  match visitVarDef_dims (visitExpr_each ctx.expr) with
  | none => none
  | some dim_nodes =>
    match ctx.initVal with
    | none =>
      some { id_node := ast_node.New_id ctx.T_ID.text (ctx.T_ID.line : Int),
             dim_nodes := dim_nodes, init_node := none }
    | some initVal =>
      match visitInitVal initVal with
      | none => none
      | some init_node =>
        some { id_node := ast_node.New_id ctx.T_ID.text (ctx.T_ID.line : Int),
               dim_nodes := dim_nodes, init_node := some init_node }

/-- The loop of `visitVarDecl` over the dimension nodes (lines 945-960). The
list argument is the part of `info.dim_nodes` still to visit, in the order of
the reverse iterator; the result is the final `completeType` with the
dimension nodes as the loop leaves them, in the same order. -/
def visitVarDecl_dims (line_no : Int) : List ast_node → Ty → Option (Ty × List ast_node)
  | [], completeType => some (completeType, [])
  | dim_node :: rest, completeType =>
    match dim_node.sons with
    | [] => none
    | expr_node :: _ =>
      match calculate_const_dim_size expr_node with
      | some numElements =>
        match dim_node.set_son0 (ast_node.New_digit numElements line_no),
          visitVarDecl_dims line_no rest
            (if numElements ≠ 0 then ArrayType.get completeType numElements
             else completeType) with
        | some literal_dim, some (ty, dims) => some (ty, literal_dim :: dims)
        | _, _ => none
      | none =>
        match visitVarDecl_dims line_no rest completeType with
        | some (ty, dims) => some (ty, dim_node :: dims)
        | none => none

/-- The body of the loop of `visitVarDecl` over the declarators (lines
932-981): the `VarDecl` node of one `varDef`. -/
def visitVarDecl_varDef (typeAttr : type_attr) (varCtx : VarDefContext) : Option ast_node :=
  match visitVarDef varCtx with
  | none => none
  | some info =>
    match (create_type_node typeAttr).type with
    | none => none
    | some baseType =>
      match visitVarDecl_dims info.id_node.line_no info.dim_nodes.reverse baseType with
      | none => none
      | some (completeType, dims) =>
        some
          ((dims.reverse.foldl (fun decl_node dim_node => decl_node.insert_son_node (some dim_node))
            ((((create_contain_node AST_OP_VAR_DECL []).set_type completeType).insert_son_node
              (some (create_type_node typeAttr))).insert_son_node (some info.id_node))).insert_son_node
            info.init_node)

/-- Source `MiniCCSTVisitor::visitVarDecl` (lines 922-984). -/
def visitVarDecl (ctx : VarDeclContext) : Option ast_node :=
  insert_visited (create_contain_node AST_OP_DECL_STMT [])
    (ctx.varDef.map (visitVarDecl_varDef (visitBasicType ctx.basicType)))

/-- The first loop of `visitFuncFParam` (lines 185-191): every visited
dimension expression becomes the child of a fresh `ArrayDim` node. -/
def visitFuncFParam_dims : List (Option ast_node) → Option (List ast_node)
  | [] => some []
  | none :: _ => none
  | some expr_node :: rest =>
    match visitFuncFParam_dims rest with
    | some dim_nodes => some (create_contain_node AST_OP_ARRAY_DIM [some expr_node] :: dim_nodes)
    | none => none

/-- The second loop of `visitFuncFParam` (lines 193-200); the list argument is
`dim_nodes` in the order of the reverse iterator. -/
def visitFuncFParam_type : List ast_node → Ty → Ty
  | [], completeType => completeType
  | dim_node :: rest, completeType =>
    visitFuncFParam_type rest
      (ArrayType.get completeType
        ((calculate_const_dim_size_ptr dim_node.sons.head?).getD 0))

/-- Source `MiniCCSTVisitor::visitFuncFParam` (lines 160-211). -/
def visitFuncFParam (ctx : FuncFParamContext) : Option ast_node :=
  let typeAttr := visitBasicType ctx.basicType
  let lineNo : Int := (ctx.T_ID.line : Int)
  let type_node := create_type_node typeAttr
  let id_node := ast_node.New_id ctx.T_ID.text lineNo
  let param_node := ast_node.New AST_OP_FUNC_FORMAL_PARAM [type_node, id_node]
  match type_node.type with
  | none => none
  | some baseType =>
    if ctx.T_L_BRACKET then
      match visitFuncFParam_dims (visitExpr_each ctx.dims) with
      | none => none
      | some dim_nodes =>
        some
          ((dim_nodes.foldl (fun p dim_node => p.insert_son_node (some dim_node))
            (param_node.insert_son_node
              (some (create_contain_node AST_OP_ARRAY_DIM
                [some (ast_node.New_digit 0 lineNo)])))).set_type
            (PointerType.get
              (ArrayType.get (visitFuncFParam_type dim_nodes.reverse baseType) 0)))
    else
      some (param_node.set_type baseType)
/-! ## Specification-side notions for dimension folding -/

/-- The five operators `+ - * / %` of a foldable dimension expression. -/
def is_arith_op : ast_operator_type → Bool
  | AST_OP_ADD | AST_OP_SUB | AST_OP_MUL | AST_OP_DIV | AST_OP_MOD => true
  | _ => false

/-- An AST built only from unsigned-integer literal leaves and two-child
`+ - * / %` nodes. -/
def arith_only : ast_node → Bool
  | ast_node.mk op _ _ _ _ sons =>
    match op, sons with
    | AST_OP_LEAF_LITERAL_UINT, [] => true
    | _, [l, r] => is_arith_op op && arith_only l && arith_only r
    | _, _ => false

/-- The expression evaluated in unsigned 32-bit arithmetic: `+ - *` modulo
`2^32`, `/` truncating unsigned division, `%` unsigned remainder. -/
def eval_u32 : ast_node → Nat
  | ast_node.mk op _ _ integer_val _ sons =>
    match op, sons with
    | AST_OP_LEAF_LITERAL_UINT, _ => integer_val
    | AST_OP_ADD, [l, r] => (eval_u32 l + eval_u32 r) % 2 ^ 32
    | AST_OP_SUB, [l, r] => (((eval_u32 l : Int) - (eval_u32 r : Int)) % 2 ^ 32).toNat
    | AST_OP_MUL, [l, r] => (eval_u32 l * eval_u32 r) % 2 ^ 32
    | AST_OP_DIV, [l, r] => eval_u32 l / eval_u32 r
    | AST_OP_MOD, [l, r] => eval_u32 l % eval_u32 r
    | _, _ => 0

/-- No division or modulus in the tree has a right operand evaluating to 0. -/
def no_zero_divisor : ast_node → Bool
  | ast_node.mk op _ _ _ _ sons =>
    match sons with
    | [l, r] =>
      no_zero_divisor l && no_zero_divisor r &&
        (if op = AST_OP_DIV ∨ op = AST_OP_MOD then decide (eval_u32 r ≠ 0) else true)
    | _ => true

mutual
/-- Every node tagged as a literal leaf in the tree is a leaf: it has no
children (the visitor creates literal nodes only through `New_digit`). -/
def literal_leaves : ast_node → Bool
  | ast_node.mk op _ _ _ _ sons =>
    (decide (op ≠ AST_OP_LEAF_LITERAL_UINT) || sons.isEmpty) && literal_leaves_list sons
/-- The predicate `literal_leaves` on every tree of a list. -/
def literal_leaves_list : List ast_node → Bool
  | [] => true
  | s :: rest => literal_leaves s && literal_leaves_list rest
end

mutual
/-- The node itself followed by all its descendants. -/
def subtrees : ast_node → List ast_node
  | ast_node.mk op line ty v n sons => ast_node.mk op line ty v n sons :: subtrees_list sons
/-- The subtrees of every tree of a list. -/
def subtrees_list : List ast_node → List ast_node
  | [] => []
  | s :: rest => subtrees s ++ subtrees_list rest
end

/-- A tag other than the literal leaf and the five arithmetic operators:
identifier, function call, comparison, logical operator, array index and every
other non-arithmetic tag. -/
def unfoldable_tag (op : ast_operator_type) : Bool :=
  !(decide (op = AST_OP_LEAF_LITERAL_UINT) || is_arith_op op)

/-- A division or modulus node whose right operand folds to 0. -/
def divides_by_zero : ast_node → Bool
  | ast_node.mk op _ _ _ _ sons =>
    match sons with
    | [_, r] =>
      decide (op = AST_OP_DIV ∨ op = AST_OP_MOD) && decide (calculate_const_dim_size r = some 0)
    | _ => false

/-! ## Specification-side notions for the expression levels -/

/-- The node `op(l, right)` when both children are defined. -/
def wrap_left (acc : Option ast_node) (p : ast_operator_type × Option ast_node) :
    Option ast_node :=
  match acc, p.2 with
  | some l, some right => some (ast_node.New p.1 [l, right])
  | _, _ => none

/-- The left fold `node(opn, node(... node(op1, v0, v1) ..., v(n-1)), vn)` of
the operand ASTs `v0`, `v1..vn` under the operators `op1..opn`. -/
def left_fold (v0 : ast_node) (rest : List (ast_operator_type × ast_node)) : ast_node :=
  rest.foldl (fun acc p => ast_node.New p.1 [acc, p.2]) v0

/-- Precedence at a binary level: without operator the operand passes
through; with a last operator `op` and last operand `e` the result is the node
`opOf op` whose left child is the visit, at the same level, of what precedes
and whose right child is the visit `V e` of the next-tighter level; the tags
of the level are among `tags`. -/
def precedence_level {C O : Type} (visit : List C → List O → Option ast_node)
    (V : C → Option ast_node) (opOf : O → ast_operator_type)
    (tags : List ast_operator_type) : Prop :=
  (∀ e : C, visit [e] [] = V e) ∧
  (∀ (operands : List C) (ops : List O) (e : C) (op : O),
    operands.length = ops.length + 1 →
    visit (operands ++ [e]) (ops ++ [op]) = wrap_left (visit operands ops) (opOf op, V e)) ∧
  (∀ op : O, opOf op ∈ tags)

/-! ### Parse trees of small expressions -/

/-- The parse tree of the identifier `x` as a `unaryExp`. -/
def cst_id (x : String) : UnaryExpContext :=
  UnaryExpContext.primary (PrimaryExpContext.lval (LValContext.mk { text := x, line := 1 } []))

/-- The parse tree of the literal `n` as a `unaryExp`. -/
def cst_digit (n : Nat) : UnaryExpContext :=
  UnaryExpContext.primary (PrimaryExpContext.digit { value := n, line := 1 })

/-- The parse tree of a single `unaryExp` as a `mulExp`. -/
def cst_mul1 (u : UnaryExpContext) : MulExpContext := MulExpContext.mk [u] []

/-- The parse tree of a single `mulExp` as an `addExp`. -/
def cst_add1 (m : MulExpContext) : AddExpContext := AddExpContext.mk [m] []

/-- The parse tree of an `addExp` as an `expr`. -/
def cst_expr (a : AddExpContext) : ExprContext :=
  ExprContext.mk (LOrExpContext.mk [LAndExpContext.mk [EqExpContext.mk
    [RelExpContext.mk [a] []] []] []] [])

/-- The parse tree of `( e )` as a `unaryExp`. -/
def cst_paren (e : ExprContext) : UnaryExpContext :=
  UnaryExpContext.primary (PrimaryExpContext.paren e)

/-- The identifier leaf of the examples. -/
def ast_id (x : String) : ast_node := ast_node.New_id x 1

/-! ## Parse trees of the grammar

The generated contexts hold the operands and the operators of a level in two
vectors. In a parse tree of the grammar `A : B (op B)*` there is one operand
more than there are operators; `well_formed_*` says so for every level of a
tree, and it says that every integer literal of the tree is below `2^64`, the
range in which `stoull` returns. -/

mutual
/-- An `expr` all of whose levels have one operand more than operators and all
of whose integer literals are below `2^64`. -/
def well_formed_expr : ExprContext → Bool
  | ExprContext.mk lOrExp => well_formed_lOrExp lOrExp
/-- See `well_formed_expr`. -/
def well_formed_lOrExp : LOrExpContext → Bool
  | LOrExpContext.mk lAndExp lOrOp =>
    decide (lAndExp.length = lOrOp.length + 1) && well_formed_lAndExps lAndExp
/-- See `well_formed_expr`. -/
def well_formed_lAndExps : List LAndExpContext → Bool
  | [] => true
  | ctx :: rest => well_formed_lAndExp ctx && well_formed_lAndExps rest
/-- See `well_formed_expr`. -/
def well_formed_lAndExp : LAndExpContext → Bool
  | LAndExpContext.mk eqExp lAndOp =>
    decide (eqExp.length = lAndOp.length + 1) && well_formed_eqExps eqExp
/-- See `well_formed_expr`. -/
def well_formed_eqExps : List EqExpContext → Bool
  | [] => true
  | ctx :: rest => well_formed_eqExp ctx && well_formed_eqExps rest
/-- See `well_formed_expr`. -/
def well_formed_eqExp : EqExpContext → Bool
  | EqExpContext.mk relExp eqOp =>
    decide (relExp.length = eqOp.length + 1) && well_formed_relExps relExp
/-- See `well_formed_expr`. -/
def well_formed_relExps : List RelExpContext → Bool
  | [] => true
  | ctx :: rest => well_formed_relExp ctx && well_formed_relExps rest
/-- See `well_formed_expr`. -/
def well_formed_relExp : RelExpContext → Bool
  | RelExpContext.mk addExp relOp =>
    decide (addExp.length = relOp.length + 1) && well_formed_addExps addExp
/-- See `well_formed_expr`. -/
def well_formed_addExps : List AddExpContext → Bool
  | [] => true
  | ctx :: rest => well_formed_addExp ctx && well_formed_addExps rest
/-- See `well_formed_expr`. -/
def well_formed_addExp : AddExpContext → Bool
  | AddExpContext.mk mulExp addOp =>
    decide (mulExp.length = addOp.length + 1) && well_formed_mulExps mulExp
/-- See `well_formed_expr`. -/
def well_formed_mulExps : List MulExpContext → Bool
  | [] => true
  | ctx :: rest => well_formed_mulExp ctx && well_formed_mulExps rest
/-- See `well_formed_expr`. -/
def well_formed_mulExp : MulExpContext → Bool
  | MulExpContext.mk unaryExp mulOp =>
    decide (unaryExp.length = mulOp.length + 1) && well_formed_unaryExps unaryExp
/-- See `well_formed_expr`. -/
def well_formed_unaryExps : List UnaryExpContext → Bool
  | [] => true
  | ctx :: rest => well_formed_unaryExp ctx && well_formed_unaryExps rest
/-- See `well_formed_expr`. -/
def well_formed_unaryExp : UnaryExpContext → Bool
  | UnaryExpContext.primary primaryExp => well_formed_primaryExp primaryExp
  | UnaryExpContext.call _ none => true
  | UnaryExpContext.call _ (some realParamList) => well_formed_realParamList realParamList
  | UnaryExpContext.unary _ unaryExp => well_formed_unaryExp unaryExp
/-- See `well_formed_expr`. -/
def well_formed_primaryExp : PrimaryExpContext → Bool
  | PrimaryExpContext.digit T_DIGIT => decide (T_DIGIT.value < 18446744073709551616)
  | PrimaryExpContext.lval lVal => well_formed_lVal lVal
  | PrimaryExpContext.paren expr => well_formed_expr expr
/-- See `well_formed_expr`. -/
def well_formed_lVal : LValContext → Bool
  | LValContext.mk _ expr => well_formed_exprs expr
/-- See `well_formed_expr`. -/
def well_formed_exprs : List ExprContext → Bool
  | [] => true
  | ctx :: rest => well_formed_expr ctx && well_formed_exprs rest
/-- See `well_formed_expr`. -/
def well_formed_realParamList : RealParamListContext → Bool
  | RealParamListContext.mk expr => well_formed_exprs expr
end

mutual
/-- An initializer all of whose expressions are well formed. -/
def well_formed_initVal : InitValContext → Bool
  | InitValContext.expr e => well_formed_expr e
  | InitValContext.braces initVal => well_formed_initVals initVal
/-- See `well_formed_initVal`. -/
def well_formed_initVals : List InitValContext → Bool
  | [] => true
  | ctx :: rest => well_formed_initVal ctx && well_formed_initVals rest
end

/-- A declarator all of whose expressions are well formed. -/
def well_formed_varDef (ctx : VarDefContext) : Bool :=
  well_formed_exprs ctx.expr &&
    (match ctx.initVal with
     | none => true
     | some initVal => well_formed_initVal initVal)

/-- A declaration all of whose declarators are well formed. -/
def well_formed_varDecl (ctx : VarDeclContext) : Bool :=
  ctx.varDef.all well_formed_varDef

/-- A formal parameter all of whose dimension expressions are well formed. -/
def well_formed_funcFParam (ctx : FuncFParamContext) : Bool :=
  well_formed_exprs ctx.dims

/-! ## Specification-side notions for declarations and lvalues -/

/-- The `ArrayDim` node whose only child is `child`. -/
def array_dim (child : ast_node) : ast_node := ast_node.New AST_OP_ARRAY_DIM [child]

/-- The type `Array(...Array(Array(base, n(k-1)), n(k-2))..., n0)` of the sizes
`n0..n(k-1)`, outermost first: starting from the base type, each size in
reverse order wraps the current type. -/
def array_type_of (base : Ty) (ns : List Nat) : Ty :=
  ns.foldr (fun n current => Ty.Array current n) base

/-- The base type named by a `type_attr`: the type of the node that
`create_type_node` builds. -/
def base_type (attr : type_attr) : Ty :=
  match attr.type with
  | BasicType.TYPE_INT => Ty.Int32
  | BasicType.TYPE_VOID => Ty.Void

/-- The size a dimension contributes to the type of a variable: its folded
value when that is not zero. -/
def layer_size (v : ast_node) : Option Nat :=
  match calculate_const_dim_size v with
  | some n => if n ≠ 0 then some n else none
  | none => none

/-- The `ArrayDim` node of a dimension after `visitVarDecl`: its child is the
literal of the folded value on line `line_no` when the dimension folds, and the
expression itself otherwise. -/
def folded_dim (line_no : Int) (v : ast_node) : ast_node :=
  match calculate_const_dim_size v with
  | some n => array_dim (ast_node.New_digit n line_no)
  | none => array_dim v

/-- The `VarDecl` node of a declarator named `T_ID` whose dimension
expressions visit to `vs` and whose initializer visits to `init_node`. -/
def var_decl_node (attr : type_attr) (T_ID : Token) (vs : List ast_node)
    (init_node : Option ast_node) : ast_node :=
  ast_node.mk AST_OP_VAR_DECL (-1)
    (some (array_type_of (base_type attr) (vs.filterMap layer_size))) 0 ""
    (create_type_node attr :: ast_node.New_id T_ID.text (T_ID.line : Int) ::
      (vs.map (folded_dim (T_ID.line : Int)) ++ init_node.toList))

/-- The chain `ArrayIndex(...ArrayIndex(ArrayIndex(id, v1), v2)..., vn)`. -/
def index_chain (id_node : ast_node) (vs : List ast_node) : ast_node :=
  vs.foldl (fun acc index => ast_node.New AST_OP_ARRAY_INDEX [acc, index]) id_node

/-- The number of `ArrayIndex` nodes met when descending through first
children from the root. -/
def index_depth : ast_node → Nat
  | ast_node.mk op _ _ _ _ sons =>
    match sons with
    | acc :: _ => if op = AST_OP_ARRAY_INDEX then index_depth acc + 1 else 0
    | [] => 0

/-- The leftmost-deepest descendant of a node. -/
def leftmost_leaf : ast_node → ast_node
  | ast_node.mk op line ty v n sons =>
    match sons with
    | first :: _ => leftmost_leaf first
    | [] => ast_node.mk op line ty v n []

/-! ### Parse trees of small declarations -/

/-- The parse tree of a `unaryExp` as an `expr`. -/
def cst_expr_of_unary (u : UnaryExpContext) : ExprContext := cst_expr (cst_add1 (cst_mul1 u))

/-- The terminal `int` of a `basicType`. -/
def cst_int : BasicTypeContext := { T_INT := some { text := "int", line := 1 } }

/-- The parse tree of `int a[2+3][4];`. -/
def decl_a_2_plus_3_4 : VarDeclContext :=
  { basicType := cst_int,
    varDef := [{ T_ID := { text := "a", line := 1 },
                 expr := [cst_expr (AddExpContext.mk [cst_mul1 (cst_digit 2),
                            cst_mul1 (cst_digit 3)] [AddOpContext.T_ADD]),
                          cst_expr_of_unary (cst_digit 4)],
                 initVal := none }] }

/-- The parse tree of `int a[0];`. -/
def decl_a_0 : VarDeclContext :=
  { basicType := cst_int,
    varDef := [{ T_ID := { text := "a", line := 1 },
                 expr := [cst_expr_of_unary (cst_digit 0)],
                 initVal := none }] }

/-- The parse tree of `int a[n];`. -/
def decl_a_n : VarDeclContext :=
  { basicType := cst_int,
    varDef := [{ T_ID := { text := "a", line := 1 },
                 expr := [cst_expr_of_unary (cst_id "n")],
                 initVal := none }] }

/-- The parse tree of `int a[n][2*3];`. -/
def decl_a_n_2_times_3 : VarDeclContext :=
  { basicType := cst_int,
    varDef := [{ T_ID := { text := "a", line := 1 },
                 expr := [cst_expr_of_unary (cst_id "n"),
                          cst_expr (cst_add1 (MulExpContext.mk [cst_digit 2, cst_digit 3]
                            [MulOpContext.T_MUL]))],
                 initVal := none }] }

/-- The parse tree of the formal parameter `int a[][3]`. -/
def param_a_3 : FuncFParamContext :=
  { basicType := cst_int, T_ID := { text := "a", line := 1 }, T_L_BRACKET := true,
    expr0 := none, dims := [cst_expr_of_unary (cst_digit 3)] }

/-- The parse tree of the lvalue `a[i][j][k]`. -/
def lval_a_i_j_k : LValContext :=
  LValContext.mk { text := "a", line := 1 }
    [cst_expr_of_unary (cst_id "i"), cst_expr_of_unary (cst_id "j"),
      cst_expr_of_unary (cst_id "k")]

/-! ## IR values (`ir/Values/GlobalVariable.h`) -/

/-- Modelled from the spec: `ConstInt(i32)`, a constant integer (`ConstInt.h` is
missing from the sources); `val` is the signed 32-bit value `getVal()` returns. -/
structure ConstInt where
  val : Int
  deriving DecidableEq

/-- Modelled from the spec: `is_pointer` of a type (`Type::isPointerType`). -/
def Ty.isPointerType : Ty → Bool
  | Ty.Pointer _ => true
  | _ => false

/-- Modelled from the spec: `pointee` of a pointer type
(`PointerType::getPointeeType`); `none` on a type that is not a pointer. -/
def Ty.getPointeeType : Ty → Option Ty
  | Ty.Pointer pointee => some pointee
  | _ => none

/-- The decimal rendering `std::to_string` of a signed integer. -/
def std_to_string : Int → String
  | Int.ofNat m => Nat.repr m
  | Int.negSucc m => "-" ++ Nat.repr (m + 1)

/-- Class `GlobalVariable` (lines 29-153): its members `loadRegNo`,
`inBSSSection` and `initVal` and, modelled from the spec, the members it
inherits from `GlobalValue` and `Value` (headers missing from the sources):
type, name, IR name and alignment. -/
structure GlobalVariable where
  type : Ty
  name : String
  IRName : String
  alignment : Nat
  loadRegNo : Int
  inBSSSection : Bool
  initVal : Option ConstInt
  deriving DecidableEq

/-- Source constructor `GlobalVariable::GlobalVariable` (lines 37-42) with the
default member initializers of lines 142-152; `_init` is `none` for the default
argument `nullptr`. Modelled from the spec: the base constructor
`GlobalValue(_type, _name)` records type and name and names the value
`@<source_name>`. -/
def GlobalVariable.ctor (_type : Ty) (_name : String)
    (_init : Option ConstInt) : GlobalVariable :=
  { type := _type, name := _name, IRName := "@" ++ _name, alignment := 4,
    loadRegNo := -1, inBSSSection := true, initVal := _init }

/-- Source `GlobalVariable::isInBSSSection` (lines 59-62). -/
def GlobalVariable.isInBSSSection (g : GlobalVariable) : Bool := g.inBSSSection

/-- Source `GlobalVariable::hasInitVal` (lines 67-70). -/
def GlobalVariable.hasInitVal (g : GlobalVariable) : Bool := g.initVal.isSome

/-- Source `GlobalVariable::getInitVal` (lines 74-77). -/
def GlobalVariable.getInitVal (g : GlobalVariable) : Option ConstInt := g.initVal

/-- Source `GlobalVariable::setInitVal` (lines 81-87); `init` is not null. -/
def GlobalVariable.setInitVal (g : GlobalVariable) (init : ConstInt) : GlobalVariable :=
  if init.val ≠ 0 then { g with initVal := some init, inBSSSection := false } else g

/-- Source `GlobalVariable::getLoadRegId` (lines 102-105). -/
def GlobalVariable.getLoadRegId (g : GlobalVariable) : Int := g.loadRegNo

/-- Source `GlobalVariable::setLoadRegId` (lines 111-114). -/
def GlobalVariable.setLoadRegId (g : GlobalVariable) (regId : Int) : GlobalVariable :=
  { g with loadRegNo := regId }

/-- Source `GlobalVariable::toDeclareString` (lines 120-136): the content of
`str` after the call. `Type_toString` and `Type_getDimString` stand for
`Type::toString` and `Type::getDimString`, whose code is missing from the
sources. -/
def GlobalVariable.toDeclareString (Type_toString Type_getDimString : Ty → String)
    (g : GlobalVariable) (str : String) : Option String :=
  if g.type.isPointerType then
    match g.type.getPointeeType with
    | some allocatedType =>
      some (str ++ ("declare " ++ Type_toString allocatedType ++ " " ++ g.IRName
        ++ Type_getDimString allocatedType))
    | none => none
  else
    if g.hasInitVal then
      match g.initVal with
      | some init =>
        some ("declare " ++ Type_toString g.type ++ " " ++ g.IRName ++ " = "
          ++ std_to_string init.val)
      | none => none
    else
      some ("declare " ++ Type_toString g.type ++ " " ++ g.IRName)

/-- A call on a global variable after its construction. -/
inductive GlobalVariableCall where
  | setInitVal (init : ConstInt)
  | setLoadRegId (regId : Int)

/-- The state of a global variable after one call. -/
def GlobalVariable.call (g : GlobalVariable) : GlobalVariableCall → GlobalVariable
  | GlobalVariableCall.setInitVal init => g.setInitVal init
  | GlobalVariableCall.setLoadRegId regId => g.setLoadRegId regId

/-- The state of a global variable after a sequence of calls. -/
def GlobalVariable.calls (g : GlobalVariable) (cs : List GlobalVariableCall) : GlobalVariable :=
  cs.foldl GlobalVariable.call g

/-- The BSS rule of the documentation (lines 55 and 145): no initializer, or an
initializer of value 0. -/
def GlobalVariable.bss_rule (g : GlobalVariable) : Bool :=
  match g.initVal with
  | none => true
  | some init => decide (init.val = 0)

/-- The names the printed IR gives to the two scalar types. -/
def scalar_type_name : Ty → String
  | Ty.Int32 => "i32"
  | Ty.Void => "void"
  | _ => ""

/-! ## Binary instructions (`ir/Instructions/BinaryInstruction.cpp`) -/

/-- Modelled from the spec: the closed set of instruction kinds of section 4.5
(`IRInstOperator` is declared in `Instruction.h`, which is missing from the
sources). The eleven binary kinds carry the names `BinaryInstruction.cpp` uses;
the other kinds are named after the table of the spec. -/
inductive IRInstOperator where
  | IRINST_OP_ADD_I
  | IRINST_OP_SUB_I
  | IRINST_OP_MUL_I
  | IRINST_OP_DIV_I
  | IRINST_OP_MOD_I
  | IRINST_OP_LT_I
  | IRINST_OP_GT_I
  | IRINST_OP_LE_I
  | IRINST_OP_GE_I
  | IRINST_OP_EQ_I
  | IRINST_OP_NE_I
  | IRINST_OP_LOAD
  | IRINST_OP_STORE
  | IRINST_OP_GEP
  | IRINST_OP_CALL
  | IRINST_OP_BR
  | IRINST_OP_COND_BR
  | IRINST_OP_LABEL
  | IRINST_OP_RET
  deriving DecidableEq

open IRInstOperator

/-- Modelled from the spec: a `Value` always has a type and an IR name
(`Value.h` is missing from the sources). -/
structure Value where
  type : Ty
  IRName : String
  deriving DecidableEq

/-- Modelled from the spec: the function that owns an instruction
(`Function.h` is missing from the sources). -/
structure Function where
  name : String
  deriving DecidableEq

/-- Class `BinaryInstruction` with, modelled from the spec, the members it
inherits from `Instruction`, `User` and `Value` (headers missing from the
sources): parent function, operator kind, result type, IR name of the result
and the ordered operand list. -/
structure BinaryInstruction where
  func : Function
  op : IRInstOperator
  type : Ty
  IRName : String
  operands : List Value
  deriving DecidableEq

/-- Modelled from the spec: the base constructor `Instruction(_func, _op, _type)`
records the parent function, the operator and the result type; the instruction
has no operand and no IR name yet. -/
def Instruction.ctor (_func : Function) (_op : IRInstOperator) (_type : Ty) :
    BinaryInstruction :=
  { func := _func, op := _op, type := _type, IRName := "", operands := [] }

/-- Modelled from the spec: `addOperand(v)` appends to the ordered operand list
(`User.h` is missing from the sources). -/
def BinaryInstruction.addOperand (inst : BinaryInstruction) (v : Value) : BinaryInstruction :=
  { inst with operands := inst.operands ++ [v] }

/-- Modelled from the spec: `getOperand(pos)`, the operand at position `pos` of
the ordered operand list; `none` when there is none. -/
def BinaryInstruction.getOperand (inst : BinaryInstruction) (pos : Nat) : Option Value :=
  inst.operands.get? pos

/-- Modelled from the spec: `setIRName`, by which the owning function names the
result (`Value.h` is missing from the sources). -/
def BinaryInstruction.setIRName (inst : BinaryInstruction) (irName : String) :
    BinaryInstruction :=
  { inst with IRName := irName }

/-- Source constructor `BinaryInstruction::BinaryInstruction` (lines 25-34). -/
def BinaryInstruction.ctor (_func : Function) (_op : IRInstOperator)
    (_srcVal1 _srcVal2 : Value) (_type : Ty) : BinaryInstruction :=
  ((Instruction.ctor _func _op _type).addOperand _srcVal1).addOperand _srcVal2

/-- Source `BinaryInstruction::toString` (lines 38-114): the content of `str`
after the call, `none` when an operand it reads is missing.
`Instruction_toString` stands for `Instruction::toString`, whose code is
missing from the sources. -/
def BinaryInstruction.toString (Instruction_toString : BinaryInstruction → String → String)
    (inst : BinaryInstruction) (str : String) : Option String :=
  let src1 := inst.getOperand 0
  let src2 := inst.getOperand 1
  let binary (mnemonic : String) : Option String :=
    match src1, src2 with
    | some s1, some s2 => some (inst.IRName ++ mnemonic ++ s1.IRName ++ ", " ++ s2.IRName)
    | _, _ => none
  match inst.op with
  | IRINST_OP_ADD_I => binary " = add "
  | IRINST_OP_SUB_I => binary " = sub "
  | IRINST_OP_MUL_I => binary " = mul "
  | IRINST_OP_DIV_I => binary " = div "
  | IRINST_OP_MOD_I => binary " = mod "
  | IRINST_OP_LT_I => binary " = icmp lt "
  | IRINST_OP_GT_I => binary " = icmp gt "
  | IRINST_OP_LE_I => binary " = icmp le "
  | IRINST_OP_GE_I => binary " = icmp ge "
  | IRINST_OP_EQ_I => binary " = icmp eq "
  | IRINST_OP_NE_I => binary " = icmp ne "
  | _ => some (Instruction_toString inst str)

/-- The mnemonic the printed IR gives to a binary operator: `add`, `sub`, `mul`,
`div`, `mod` for the arithmetic kinds and `icmp <cc>` for the comparisons;
`none` for a kind that is not binary. -/
def binary_mnemonic : IRInstOperator → Option String
  | IRINST_OP_ADD_I => some "add"
  | IRINST_OP_SUB_I => some "sub"
  | IRINST_OP_MUL_I => some "mul"
  | IRINST_OP_DIV_I => some "div"
  | IRINST_OP_MOD_I => some "mod"
  | IRINST_OP_LT_I => some "icmp lt"
  | IRINST_OP_GT_I => some "icmp gt"
  | IRINST_OP_LE_I => some "icmp le"
  | IRINST_OP_GE_I => some "icmp ge"
  | IRINST_OP_EQ_I => some "icmp eq"
  | IRINST_OP_NE_I => some "icmp ne"
  | _ => none

/-- The five arithmetic kinds `AddI`, `SubI`, `MulI`, `DivI`, `ModI`. -/
def is_arith_inst : IRInstOperator → Bool
  | IRINST_OP_ADD_I | IRINST_OP_SUB_I | IRINST_OP_MUL_I | IRINST_OP_DIV_I
  | IRINST_OP_MOD_I => true
  | _ => false

/-! ## Specification-side notions for initializers and node tags -/

/-- The tags of the nodes an expression can have at its root: the leaves, the
array index, the function call, the thirteen binary operators and the logical
not (the unary minus carries the tag of the subtraction). -/
def is_expr_tag : ast_operator_type → Bool
  | AST_OP_LEAF_VAR_ID | AST_OP_LEAF_LITERAL_UINT | AST_OP_ARRAY_INDEX | AST_OP_FUNC_CALL
  | AST_OP_ADD | AST_OP_SUB | AST_OP_MUL | AST_OP_DIV | AST_OP_MOD
  | AST_OP_LT | AST_OP_GT | AST_OP_LE | AST_OP_GE | AST_OP_EQ | AST_OP_NE
  | AST_OP_AND | AST_OP_OR | AST_OP_NOT => true
  | _ => false

mutual
/-- The nesting depth of the braces of an initializer: 0 for an expression. -/
def brace_depth : InitValContext → Nat
  | InitValContext.expr _ => 0
  | InitValContext.braces initVal => brace_depth_max initVal + 1
/-- The largest `brace_depth` of a list of initializers. -/
def brace_depth_max : List InitValContext → Nat
  | [] => 0
  | ctx :: rest => max (brace_depth ctx) (brace_depth_max rest)
end

mutual
/-- The nesting depth of the `ArrayInit` nodes at the root of a tree: 0 for a
node that is not an `ArrayInit`. -/
def array_init_depth : ast_node → Nat
  | ast_node.mk op _ _ _ _ sons =>
    if op = AST_OP_ARRAY_INIT then array_init_depth_max sons + 1 else 0
/-- The largest `array_init_depth` of a list of trees. -/
def array_init_depth_max : List ast_node → Nat
  | [] => 0
  | s :: rest => max (array_init_depth s) (array_init_depth_max rest)
end

/-- The parse tree of `{ {1, 2}, 3 }`. -/
def init_1_2_3 : InitValContext :=
  InitValContext.braces
    [InitValContext.braces [InitValContext.expr (cst_expr_of_unary (cst_digit 1)),
        InitValContext.expr (cst_expr_of_unary (cst_digit 2))],
      InitValContext.expr (cst_expr_of_unary (cst_digit 3))]

/-- Modelled from the spec: `cond : lOrExp`. -/
structure CondContext where
  lOrExp : LOrExpContext

mutual
/-- Modelled from the spec: the labelled alternatives of `stmt`, which are
`lVal '=' expr ';'`, `'return' expr? ';'`, `block`, `expr? ';'`, `ifStmt`,
`whileStmt`, `'break' ';'` and `'continue' ';'`. -/
inductive StmtContext where
  | assignStatement (lVal : LValContext) (expr : ExprContext)
  | returnStatement (expr : Option ExprContext)
  | blockStatement (block : BlockContext)
  | expressionStatement (expr : Option ExprContext)
  | ifStatement (ifStmt : IfStmtContext)
  | whileStatement (whileStmt : WhileStmtContext)
  | breakStatement
  | continueStatement
/-- Modelled from the spec: `block : '{' blockItemList? '}'`. -/
inductive BlockContext where
  | mk (blockItemList : Option BlockItemListContext)
/-- Modelled from the spec: `blockItemList : blockItem+`. -/
inductive BlockItemListContext where
  | mk (blockItem : List BlockItemContext)
/-- Modelled from the spec: `blockItem : stmt | varDecl`. -/
inductive BlockItemContext where
  | stmt (s : StmtContext)
  | varDecl (v : VarDeclContext)
/-- Modelled from the spec: `ifStmt : 'if' '(' cond ')' stmt ('else' stmt)?`,
with the accessor `stmt()` of the generated context and the presence of the
terminal `T_ELSE`. -/
inductive IfStmtContext where
  | mk (cond : CondContext) (stmt : List StmtContext) (T_ELSE : Bool)
/-- Modelled from the spec: `whileStmt : 'while' '(' cond ')' stmt`. -/
inductive WhileStmtContext where
  | mk (cond : CondContext) (stmt : StmtContext)
end

/-- Modelled from the spec: `funcType : 'int' | 'void'`, with the accessors
`T_INT()` and `T_VOID()` of the generated context. -/
structure FuncTypeContext where
  T_INT : Option Token
  T_VOID : Option Token

/-- Modelled from the spec: `funcFParams : funcFParam (',' funcFParam)*`. -/
structure FuncFParamsContext where
  funcFParam : List FuncFParamContext

/-- Modelled from the spec: `funcDef : funcType ID '(' funcFParams? ')' block`. -/
structure FuncDefContext where
  funcType : FuncTypeContext
  T_ID : Token
  funcFParams : Option FuncFParamsContext
  block : BlockContext

/-- A child of the compile unit: a function definition or a global variable
declaration. -/
inductive CompileUnitItem where
  | funcDef (f : FuncDefContext)
  | varDecl (v : VarDeclContext)

/-- Modelled from the spec: `compileUnit : (funcDef | varDecl)* EOF`; `items`
are the children in source order. -/
structure CompileUnitContext where
  items : List CompileUnitItem

/-- Accessor `varDecl()` of the generated context: the variable declarations
among the children, in source order. -/
def CompileUnitContext.varDecl (ctx : CompileUnitContext) : List VarDeclContext :=
  ctx.items.filterMap (fun item =>
    match item with
    | CompileUnitItem.varDecl v => some v
    | CompileUnitItem.funcDef _ => none)

/-- Accessor `funcDef()` of the generated context: the function definitions
among the children, in source order. -/
def CompileUnitContext.funcDef (ctx : CompileUnitContext) : List FuncDefContext :=
  ctx.items.filterMap (fun item =>
    match item with
    | CompileUnitItem.funcDef f => some f
    | CompileUnitItem.varDecl _ => none)

/-- Modelled from the spec: `var_id_attr`, an identifier with its line. -/
structure var_id_attr where
  id : String
  lineno : Int

/-- Source `MiniCCSTVisitor::visitCond` (lines 367-372). -/
def visitCond (ctx : CondContext) : Option ast_node := visitLOrExp ctx.lOrExp

/-- Source `MiniCCSTVisitor::visitAssignStatement` (lines 376-388). -/
def visitAssignStatement (lVal : LValContext) (expr : ExprContext) : Option ast_node :=
  match visitLVal lVal, visitExpr expr with
  | some lvalNode, some exprNode => some (ast_node.New AST_OP_ASSIGN [lvalNode, exprNode])
  | _, _ => none

/-- Source `MiniCCSTVisitor::visitReturnStatement` (lines 306-318). -/
def visitReturnStatement (expr : Option ExprContext) : Option ast_node :=
  match expr with
  | none => some (create_contain_node AST_OP_RETURN [none])
  | some e =>
    match visitExpr e with
    | some exprNode => some (create_contain_node AST_OP_RETURN [some exprNode])
    | none => none

/-- Source `MiniCCSTVisitor::visitExpressionStatement` (lines 1050-1065): the
null pointer for the empty statement. -/
def visitExpressionStatement (expr : Option ExprContext) : Option (Option ast_node) :=
  match expr with
  | some e =>
    match visitExpr e with
    | some node => some (some node)
    | none => none
  | none => some none

/-- Source `MiniCCSTVisitor::visitBreakStmt` (lines 778-783). -/
def visitBreakStmt : ast_node := create_contain_node AST_OP_BREAK []

/-- Source `MiniCCSTVisitor::visitContinueStmt` (lines 787-792). -/
def visitContinueStmt : ast_node := create_contain_node AST_OP_CONTINUE []

/-- A loop `for (ctx : ...) parent->insert_son_node(visit(ctx))` over visits
that may return the null pointer. -/
def insert_visited_ptr (parent : ast_node) : List (Option (Option ast_node)) → Option ast_node
  | [] => some parent
  | none :: _ => none
  | some node :: rest => insert_visited_ptr (parent.insert_son_node node) rest

/-- The nodes `condNode`, `thenNode`, `elseNode` of `visitIfStmt` (lines
731-745) from the visited condition and the visited statements: `stmt(0)` must
exist, and `stmt(1)` is visited when `T_ELSE` is present and there is a second
statement. -/
def visitIfStmt_node (condNode : Option ast_node) (stmts : List (Option (Option ast_node)))
    (T_ELSE : Bool) : Option (Option ast_node) :=
  match condNode, stmts.get? 0 with
  | some cond, some (some thenNode) =>
    if T_ELSE then
      if stmts.length > 1 then
        match stmts.get? 1 with
        | some (some elseNode) =>
          some (some (create_contain_node AST_OP_IF [some cond, thenNode, elseNode]))
        | _ => none
      else some (some (create_contain_node AST_OP_IF [some cond, thenNode, none]))
    else some (some (create_contain_node AST_OP_IF [some cond, thenNode, none]))
  | _, _ => none

mutual
/-- Source `MiniCCSTVisitor::visitStmt` (lines 271-300) with the visitors of
the labelled alternatives it dispatches to. The result is a pointer that may
be null; `none` at the outside stands for an execution without result. -/
def visitStmt : StmtContext → Option (Option ast_node)
  | StmtContext.assignStatement lVal expr =>
    match visitAssignStatement lVal expr with
    | some node => some (some node)
    | none => none
  | StmtContext.returnStatement expr =>
    match visitReturnStatement expr with
    | some node => some (some node)
    | none => none
  | StmtContext.blockStatement block => visitBlock block
  | StmtContext.expressionStatement expr => visitExpressionStatement expr
  | StmtContext.ifStatement ifStmt => visitIfStmt ifStmt
  | StmtContext.whileStatement whileStmt => visitWhileStmt whileStmt
  | StmtContext.breakStatement => some (some visitBreakStmt)
  | StmtContext.continueStatement => some (some visitContinueStmt)
/-- The visits `visitStmt(ctx->stmt(i))`. -/
def visitStmt_each : List StmtContext → List (Option (Option ast_node))
  | [] => []
  | ctx :: rest => visitStmt ctx :: visitStmt_each rest
/-- Source `MiniCCSTVisitor::visitBlock` (lines 215-229). -/
def visitBlock : BlockContext → Option (Option ast_node)
  | BlockContext.mk none => some (some (create_contain_node AST_OP_BLOCK []))
  | BlockContext.mk (some blockItemList) => visitBlockItemList blockItemList
/-- Source `MiniCCSTVisitor::visitBlockItemList` (lines 233-249). -/
def visitBlockItemList : BlockItemListContext → Option (Option ast_node)
  | BlockItemListContext.mk blockItem =>
    match insert_visited_ptr (create_contain_node AST_OP_BLOCK [])
        (visitBlockItem_each blockItem) with
    | some block_node => some (some block_node)
    | none => none
/-- The visits `visitBlockItem(blockItemCtx)`. -/
def visitBlockItem_each : List BlockItemContext → List (Option (Option ast_node))
  | [] => []
  | ctx :: rest => visitBlockItem ctx :: visitBlockItem_each rest
/-- Source `MiniCCSTVisitor::visitBlockItem` (lines 255-267). -/
def visitBlockItem : BlockItemContext → Option (Option ast_node)
  | BlockItemContext.stmt s => visitStmt s
  | BlockItemContext.varDecl v =>
    match visitVarDecl v with
    | some node => some (some node)
    | none => none
/-- Source `MiniCCSTVisitor::visitIfStmt` (lines 726-754). -/
def visitIfStmt : IfStmtContext → Option (Option ast_node)
  | IfStmtContext.mk cond stmt T_ELSE =>
    visitIfStmt_node (visitCond cond) (visitStmt_each stmt) T_ELSE
/-- Source `MiniCCSTVisitor::visitWhileStmt` (lines 758-774). -/
def visitWhileStmt : WhileStmtContext → Option (Option ast_node)
  | WhileStmtContext.mk cond stmt =>
    match visitCond cond, visitStmt stmt with
    | some condNode, some loopNode =>
      some (some (create_contain_node AST_OP_WHILE [some condNode, loopNode]))
    | _, _ => none
end

/-- Source `MiniCCSTVisitor::visitFuncType` (lines 121-138). -/
def visitFuncType (ctx : FuncTypeContext) : type_attr :=
  match ctx.T_INT with
  | some T_INT => { type := BasicType.TYPE_INT, lineno := (T_INT.line : Int) }
  | none =>
    match ctx.T_VOID with
    | some T_VOID => { type := BasicType.TYPE_VOID, lineno := (T_VOID.line : Int) }
    | none => { type := BasicType.TYPE_VOID, lineno := -1 }

/-- Source `MiniCCSTVisitor::visitFuncFParams` (lines 142-156). -/
def visitFuncFParams (ctx : FuncFParamsContext) : Option ast_node :=
  insert_visited (create_contain_node AST_OP_FUNC_FORMAL_PARAMS [])
    (ctx.funcFParam.map visitFuncFParam)

/-- Source `MiniCCSTVisitor::visitFuncDef` (lines 93-117). `create_func_def`
stands for the function of that name, whose code (`AST.cpp`) is missing from
the sources. -/
def visitFuncDef
    (create_func_def : type_attr → var_id_attr → ast_node → Option ast_node → ast_node)
    (ctx : FuncDefContext) : Option ast_node :=
  let funcReturnType := visitFuncType ctx.funcType
  let funcId : var_id_attr := { id := ctx.T_ID.text, lineno := (ctx.T_ID.line : Int) }
  match ctx.funcFParams with
  | none =>
    match visitBlock ctx.block with
    | some (some blockNode) => some (create_func_def funcReturnType funcId blockNode none)
    | _ => none
  | some funcFParams =>
    match visitFuncFParams funcFParams, visitBlock ctx.block with
    | some formalParamsNode, some (some blockNode) =>
      some (create_func_def funcReturnType funcId blockNode (some formalParamsNode))
    | _, _ => none

/-- Source `MiniCCSTVisitor::visitCompileUnit` (lines 60-89): first the loop
over `ctx->varDecl()`, then the loop over `ctx->funcDef()`. -/
def visitCompileUnit
    (create_func_def : type_attr → var_id_attr → ast_node → Option ast_node → ast_node)
    (ctx : CompileUnitContext) : Option ast_node :=
  match insert_visited (create_contain_node AST_OP_COMPILE_UNIT [])
      (ctx.varDecl.map visitVarDecl) with
  | none => none
  | some compileUnitNode =>
    insert_visited compileUnitNode (ctx.funcDef.map (visitFuncDef create_func_def))

/-! ## Parse trees of statements and compile units -/

/-- A condition whose expression is well formed. -/
def well_formed_cond (ctx : CondContext) : Bool := well_formed_lOrExp ctx.lOrExp

/-- An optional expression that is well formed when present. -/
def well_formed_expr_opt : Option ExprContext → Bool
  | none => true
  | some e => well_formed_expr e

mutual
/-- A statement of the grammar of the specification, where the then-branch of
an `if` is not optional: its expressions are well formed, an `if` has one
statement without `else` and two with it, and a block item list is not
empty. -/
def well_formed_stmt : StmtContext → Bool
  | StmtContext.assignStatement lVal expr => well_formed_lVal lVal && well_formed_expr expr
  | StmtContext.returnStatement expr => well_formed_expr_opt expr
  | StmtContext.blockStatement block => well_formed_block block
  | StmtContext.expressionStatement expr => well_formed_expr_opt expr
  | StmtContext.ifStatement ifStmt => well_formed_ifStmt ifStmt
  | StmtContext.whileStatement whileStmt => well_formed_whileStmt whileStmt
  | StmtContext.breakStatement => true
  | StmtContext.continueStatement => true
/-- See `well_formed_stmt`. -/
def well_formed_stmts : List StmtContext → Bool
  | [] => true
  | ctx :: rest => well_formed_stmt ctx && well_formed_stmts rest
/-- See `well_formed_stmt`. -/
def well_formed_block : BlockContext → Bool
  | BlockContext.mk none => true
  | BlockContext.mk (some blockItemList) => well_formed_blockItemList blockItemList
/-- See `well_formed_stmt`. -/
def well_formed_blockItemList : BlockItemListContext → Bool
  | BlockItemListContext.mk blockItem =>
    !blockItem.isEmpty && well_formed_blockItems blockItem
/-- See `well_formed_stmt`. -/
def well_formed_blockItems : List BlockItemContext → Bool
  | [] => true
  | ctx :: rest => well_formed_blockItem ctx && well_formed_blockItems rest
/-- See `well_formed_stmt`. -/
def well_formed_blockItem : BlockItemContext → Bool
  | BlockItemContext.stmt s => well_formed_stmt s
  | BlockItemContext.varDecl v => well_formed_varDecl v
/-- See `well_formed_stmt`. -/
def well_formed_ifStmt : IfStmtContext → Bool
  | IfStmtContext.mk cond stmt T_ELSE =>
    well_formed_cond cond && decide (stmt.length = if T_ELSE then 2 else 1) &&
      well_formed_stmts stmt
/-- See `well_formed_stmt`. -/
def well_formed_whileStmt : WhileStmtContext → Bool
  | WhileStmtContext.mk cond stmt => well_formed_cond cond && well_formed_stmt stmt
end

/-- A function definition of the grammar: a parameter list, when present, is
not empty and has well-formed parameters, and the body is well formed. -/
def well_formed_funcDef (ctx : FuncDefContext) : Bool :=
  (match ctx.funcFParams with
   | none => true
   | some funcFParams =>
     !funcFParams.funcFParam.isEmpty && funcFParams.funcFParam.all well_formed_funcFParam) &&
    well_formed_block ctx.block

/-- A compile unit of the grammar: every child is well formed. -/
def well_formed_compileUnit (ctx : CompileUnitContext) : Bool :=
  ctx.items.all (fun item =>
    match item with
    | CompileUnitItem.funcDef f => well_formed_funcDef f
    | CompileUnitItem.varDecl v => well_formed_varDecl v)

/-! ## Undefined behaviour in dimension folding -/

/-- The element `v[i]` of a `std::vector`: no value past the end. -/
def vector_at {α : Type} (v : List α) (i : Nat) : Option α := v.get? i

/-- The `uint32_t` operation `left_val op right_val` of lines 1103-1111 as the
machine performs it: `/` and `%` have no value for a zero divisor. -/
def machine_binary (op : ast_operator_type) (left_val right_val : Nat) : Option Nat :=
  match op with
  | AST_OP_ADD => some (wrap_u32 ((left_val : Int) + (right_val : Int)))
  | AST_OP_SUB => some (wrap_u32 ((left_val : Int) - (right_val : Int)))
  | AST_OP_MUL => some (wrap_u32 ((left_val : Int) * (right_val : Int)))
  | AST_OP_DIV => if right_val = 0 then none else some (left_val / right_val)
  | AST_OP_MOD => if right_val = 0 then none else some (left_val % right_val)
  | _ => none

/-- The inner `switch` of `calculate_const_dim_size` (lines 1102-1113) with its
guards `if (right_val == 0) return std::nullopt;` and the operation left to the
machine: the outer `none` is an operation without value. -/
def fold_binary_checked (op : ast_operator_type) (left_val right_val : Nat) :
    Option (Option Nat) :=
  match op with
  | AST_OP_ADD | AST_OP_SUB | AST_OP_MUL =>
    (machine_binary op left_val right_val).map some
  | AST_OP_DIV | AST_OP_MOD =>
    if right_val = 0 then some none
    else (machine_binary op left_val right_val).map some
  | _ => some none

mutual
/-- Source `MiniCCSTVisitor::calculate_const_dim_size` (lines 1067-1127) on a
non-null node, with the operations that can lack a value made explicit: `sons[0]`
and `sons[1]` are reads of the vector `sons` (`vector_at`), and the division
and the remainder are those of the machine (`machine_binary`). The outer
`none` is an execution that reads past the end of `sons` or divides by zero;
`some r` is the return of the value `r`. -/
def calculate_const_dim_size_checked : ast_node → Option (Option Nat)
  | ast_node.mk op _ _ integer_val _ sons =>
    match op with
    | AST_OP_LEAF_LITERAL_UINT => some (some integer_val)
    | AST_OP_ADD | AST_OP_SUB | AST_OP_MUL | AST_OP_DIV | AST_OP_MOD =>
      if sons.length ≠ 2 then some none
      else
        match vector_at (calculate_const_dim_size_checked_sons sons) 0,
            vector_at (calculate_const_dim_size_checked_sons sons) 1 with
        | some (some left_opt), some (some right_opt) =>
          match left_opt, right_opt with
          | some left_val, some right_val => fold_binary_checked op left_val right_val
          | _, _ => some none
        | _, _ => none
    | _ => some none
/-- The calls `calculate_const_dim_size(node->sons[i])`, by position. -/
def calculate_const_dim_size_checked_sons : List ast_node → List (Option (Option Nat))
  | [] => []
  | s :: rest => calculate_const_dim_size_checked s :: calculate_const_dim_size_checked_sons rest
end

/-- Source `MiniCCSTVisitor::calculate_const_dim_size` with the operations that
can lack a value made explicit, on a pointer that may be null (line 1070). -/
def calculate_const_dim_size_checked_ptr : Option ast_node → Option (Option Nat)
  | none => some none
  | some node => calculate_const_dim_size_checked node

/-! ## Specification-side notions for formal parameters and statements -/

/-- The children of the node of a formal parameter named `T_ID` whose further
dimension expressions visit to `vs`: type node and identifier leaf, and with a
first bracket pair the `ArrayDim` of the literal 0 followed by one `ArrayDim`
per further dimension, holding the visited expression. -/
def formal_param_sons (attr : type_attr) (T_ID : Token) (bracket : Bool)
    (vs : List ast_node) : List ast_node :=
  create_type_node attr :: ast_node.New_id T_ID.text (T_ID.line : Int) ::
    (if bracket then
      array_dim (ast_node.New_digit 0 (T_ID.line : Int)) :: vs.map array_dim
    else [])

/-- A dimension whose expression folds to a value other than 0. -/
def folds_to_nonzero (v : ast_node) : Bool :=
  match calculate_const_dim_size v with
  | some n => decide (n ≠ 0)
  | none => false

/-- The empty statement `;`: an expression statement without expression. -/
def is_empty_statement : StmtContext → Bool
  | StmtContext.expressionStatement none => true
  | _ => false

/-! ### Parse trees of small statements and compile units -/

/-- The parse tree of the formal parameter `int a[][2+1]`. -/
def param_a_2_plus_1 : FuncFParamContext :=
  { basicType := cst_int, T_ID := { text := "a", line := 1 }, T_L_BRACKET := true,
    expr0 := none,
    dims := [cst_expr (AddExpContext.mk [cst_mul1 (cst_digit 2), cst_mul1 (cst_digit 1)]
      [AddOpContext.T_ADD])] }

/-- The parse tree of the formal parameter `int a`. -/
def param_a : FuncFParamContext :=
  { basicType := cst_int, T_ID := { text := "a", line := 1 }, T_L_BRACKET := false,
    expr0 := none, dims := [] }

/-- The parse tree of `int a[3-3][4];`. -/
def decl_a_3_minus_3_4 : VarDeclContext :=
  { basicType := cst_int,
    varDef := [{ T_ID := { text := "a", line := 1 },
                 expr := [cst_expr (AddExpContext.mk [cst_mul1 (cst_digit 3),
                            cst_mul1 (cst_digit 3)] [AddOpContext.T_SUB]),
                          cst_expr_of_unary (cst_digit 4)],
                 initVal := none }] }

/-- The parse tree of `int x;`. -/
def decl_x : VarDeclContext :=
  { basicType := cst_int,
    varDef := [{ T_ID := { text := "x", line := 1 }, expr := [], initVal := none }] }

/-- The parse tree of `int y;`. -/
def decl_y : VarDeclContext :=
  { basicType := cst_int,
    varDef := [{ T_ID := { text := "y", line := 1 }, expr := [], initVal := none }] }

/-- The parse tree of `4 + -1`. -/
def expr_4_plus_neg_1 : ExprContext :=
  cst_expr (AddExpContext.mk [cst_mul1 (cst_digit 4),
    cst_mul1 (UnaryExpContext.unary UnaryOpContext.T_SUB (cst_digit 1))] [AddOpContext.T_ADD])

/-- The parse tree of `-(-4)`. -/
def expr_neg_neg_4 : ExprContext :=
  cst_expr_of_unary (UnaryExpContext.unary UnaryOpContext.T_SUB
    (cst_paren (cst_expr_of_unary (UnaryExpContext.unary UnaryOpContext.T_SUB (cst_digit 4)))))

/-- The parse tree of the condition `c`. -/
def cond_c : CondContext :=
  { lOrExp := LOrExpContext.mk [LAndExpContext.mk [EqExpContext.mk
      [RelExpContext.mk [cst_add1 (cst_mul1 (cst_id "c"))] []] []] []] [] }

/-- The parse tree of the statement `x = n;`. -/
def stmt_assign (x : String) (n : Nat) : StmtContext :=
  StmtContext.assignStatement (LValContext.mk { text := x, line := 1 } [])
    (cst_expr_of_unary (cst_digit n))

/-- The parse tree of the empty statement `;`. -/
def stmt_empty : StmtContext := StmtContext.expressionStatement none

/-- The parse tree of `if (c) x = 1;`. -/
def if_c_then : IfStmtContext := IfStmtContext.mk cond_c [stmt_assign "x" 1] false

/-- The parse tree of `if (c) x = 1; else y = 2;`. -/
def if_c_then_else : IfStmtContext :=
  IfStmtContext.mk cond_c [stmt_assign "x" 1, stmt_assign "y" 2] true

/-- The parse tree of `if (c) ; else y = 2;`. -/
def if_c_empty_else : IfStmtContext :=
  IfStmtContext.mk cond_c [stmt_empty, stmt_assign "y" 2] true

/-- The parse tree of `if (c) else y = 2;`: `else` with a single statement, as
the production `ifStmt: T_IF T_L_PAREN cond T_R_PAREN stmt? (T_ELSE stmt)?`
named at line 728 admits. -/
def if_c_else : IfStmtContext := IfStmtContext.mk cond_c [stmt_assign "y" 2] true

/-- The parse tree of `while (c) x = 1;`. -/
def while_c_assign : WhileStmtContext := WhileStmtContext.mk cond_c (stmt_assign "x" 1)

/-- The parse tree of `int f() { return 0; }`. -/
def func_f : FuncDefContext :=
  { funcType := { T_INT := some { text := "int", line := 1 }, T_VOID := none },
    T_ID := { text := "f", line := 1 },
    funcFParams := none,
    block := BlockContext.mk (some (BlockItemListContext.mk
      [BlockItemContext.stmt
        (StmtContext.returnStatement (some (cst_expr_of_unary (cst_digit 0))))])) }

/-- The parse tree of `void g(int a[][3]) { }`. -/
def func_g : FuncDefContext :=
  { funcType := { T_INT := none, T_VOID := some { text := "void", line := 1 } },
    T_ID := { text := "g", line := 1 },
    funcFParams := some { funcFParam := [param_a_3] },
    block := BlockContext.mk none }

/-- The parse tree of the compile unit
`int f() { return 0; } int x; void g(int a[][3]) { } int y;`. -/
def unit_f_x_g_y : CompileUnitContext :=
  { items := [CompileUnitItem.funcDef func_f, CompileUnitItem.varDecl decl_x,
      CompileUnitItem.funcDef func_g, CompileUnitItem.varDecl decl_y] }

/-- A function-definition node with children
`[type, name, formal parameters, body]`, an empty parameter list standing in
when the function has no parameters: one possible `create_func_def`. -/
def func_def_node (type : type_attr) (id : var_id_attr) (block : ast_node)
    (params : Option ast_node) : ast_node :=
  ast_node.mk AST_OP_FUNC_DEF id.lineno none 0 id.id
    [create_type_node type, ast_node.New_id id.id id.lineno,
      params.getD (create_contain_node AST_OP_FUNC_FORMAL_PARAMS []), block]

/-! ## Specification-side notions for printed mnemonics -/

/-- The binary operator a printed mnemonic stands for: the reading of the
mnemonic table from right to left; `none` for any other text. -/
def operator_of_mnemonic (m : String) : Option IRInstOperator :=
  if m = "add" then some IRINST_OP_ADD_I
  else if m = "sub" then some IRINST_OP_SUB_I
  else if m = "mul" then some IRINST_OP_MUL_I
  else if m = "div" then some IRINST_OP_DIV_I
  else if m = "mod" then some IRINST_OP_MOD_I
  else if m = "icmp lt" then some IRINST_OP_LT_I
  else if m = "icmp gt" then some IRINST_OP_GT_I
  else if m = "icmp le" then some IRINST_OP_LE_I
  else if m = "icmp ge" then some IRINST_OP_GE_I
  else if m = "icmp eq" then some IRINST_OP_EQ_I
  else if m = "icmp ne" then some IRINST_OP_NE_I
  else none

/-- The instruction `r = op a, b` of the examples, in function `main`. -/
def inst_t3 (op : IRInstOperator) : BinaryInstruction :=
  (BinaryInstruction.ctor { name := "main" } op { type := Ty.Int32, IRName := "%l1" }
    { type := Ty.Int32, IRName := "10" } Ty.Int32).setIRName "%t3"

/-! ## Identity of the type nodes of a declaration

An `ast_node` of this development is a tree of values: two nodes with the same
content are equal, whether or not the visitor made them by one `new`. To speak
of sharing, the loop of `visitVarDecl` is given once more with every node that
`create_type_node` allocates identified by the number of the call that made
it. -/

/-! ## Lemmas -/
theorem wrap_u32_add (a b : Nat) : wrap_u32 ((a : Int) + (b : Int)) = (a + b) % 2 ^ 32 := by
  unfold wrap_u32; omega

theorem wrap_u32_mul (a b : Nat) : wrap_u32 ((a : Int) * (b : Int)) = (a * b) % 2 ^ 32 := by
  unfold wrap_u32
  have h : ((a : Int) * (b : Int)) = ((a * b : Nat) : Int) := by push_cast; ring
  rw [h]; omega

theorem calculate_of_arith_only : ∀ (t : ast_node), arith_only t = true → no_zero_divisor t = true →
    calculate_const_dim_size t = some (eval_u32 t)
  | ast_node.mk op line ty v n sons => by
    intro ha hz
    match sons, ha, hz with
    | [], ha, hz =>
      cases op <;> simp [arith_only] at ha
      simp [calculate_const_dim_size, eval_u32]
    | [l, r], ha, hz =>
      have ha2 : is_arith_op op = true ∧ arith_only l = true ∧ arith_only r = true := by
        cases op <;> simp_all [arith_only, is_arith_op]
      simp only [no_zero_divisor, Bool.and_eq_true] at hz
      have hl := calculate_of_arith_only l ha2.2.1 hz.1.1
      have hr := calculate_of_arith_only r ha2.2.2 hz.1.2
      have hd := hz.2
      cases op <;> simp [is_arith_op] at ha2 <;>
        simp [calculate_const_dim_size, hl, hr, fold_binary, eval_u32, wrap_u32_add, wrap_u32_mul] <;>
        simp_all [wrap_u32]
    | [_], ha, hz => cases op <;> simp [arith_only] at ha
    | _ :: _ :: _ :: _, ha, hz => cases op <;> simp [arith_only] at ha
theorem arith_only_of_calculate : ∀ (t : ast_node) (v : Nat), literal_leaves t = true →
    calculate_const_dim_size t = some v → arith_only t = true ∧ no_zero_divisor t = true
  | ast_node.mk op line ty iv n sons => by
    intro v hl hc
    match sons, hl, hc with
    | [], hl, hc =>
      cases op <;> simp [calculate_const_dim_size] at hc
      simp [arith_only, no_zero_divisor]
    | [l, r], hl, hc =>
      have hop : is_arith_op op = true := by
        cases op <;> simp [calculate_const_dim_size, literal_leaves] at hc hl <;> rfl
      have hll : literal_leaves l = true ∧ literal_leaves r = true := by
        simp [literal_leaves, literal_leaves_list] at hl
        exact ⟨hl.2.1, hl.2.2⟩
      have hsub : ∃ a b, calculate_const_dim_size l = some a ∧ calculate_const_dim_size r = some b ∧
          fold_binary op a b = some v := by
        cases hcl : calculate_const_dim_size l <;> cases hcr : calculate_const_dim_size r <;>
          cases op <;> simp [calculate_const_dim_size, hcl, hcr, is_arith_op] at hc hop <;>
          exact ⟨_, _, rfl, rfl, hc⟩
      obtain ⟨a, b, hca, hcb, hf⟩ := hsub
      have ihl := arith_only_of_calculate l a hll.1 hca
      have ihr := arith_only_of_calculate r b hll.2 hcb
      have hev := calculate_of_arith_only r ihr.1 ihr.2
      rw [hcb] at hev
      have hb : b = eval_u32 r := by simpa using hev
      refine ⟨?_, ?_⟩
      · cases op <;> simp [is_arith_op] at hop <;> simp [arith_only, is_arith_op, ihl.1, ihr.1]
      · simp only [no_zero_divisor, ihl.2, ihr.2, Bool.and_eq_true, true_and]
        cases op <;> simp [is_arith_op] at hop <;> simp [fold_binary] at hf <;> simp [← hb] <;>
          exact hf.1
    | [_], hl, hc =>
      cases op <;> simp [calculate_const_dim_size, literal_leaves] at hc hl
    | _ :: _ :: _ :: _, hl, hc =>
      cases op <;> simp [calculate_const_dim_size, literal_leaves] at hc hl

theorem calculate_binary_inv (op : ast_operator_type) (line : Int) (ty : Option Ty) (iv : Nat)
    (n : String) (l r : ast_node) (v : Nat) (hlit : op ≠ AST_OP_LEAF_LITERAL_UINT)
    (hc : calculate_const_dim_size (ast_node.mk op line ty iv n [l, r]) = some v) :
    is_arith_op op = true ∧ ∃ a b, calculate_const_dim_size l = some a ∧
      calculate_const_dim_size r = some b ∧ fold_binary op a b = some v := by
  cases hcl : calculate_const_dim_size l <;> cases hcr : calculate_const_dim_size r <;>
    cases op <;> simp [calculate_const_dim_size, hcl, hcr, is_arith_op] at hc hlit ⊢ <;>
    exact hc

theorem subtrees_of_calculate : ∀ (t : ast_node) (v : Nat), literal_leaves t = true →
    calculate_const_dim_size t = some v →
    ∀ s ∈ subtrees t, unfoldable_tag s.node_type = false ∧ divides_by_zero s = false
  | ast_node.mk op line ty iv n sons => by
    intro v hl hc s hs
    match sons, hl, hc, hs with
    | [], hl, hc, hs =>
      simp only [subtrees, subtrees_list, List.mem_singleton] at hs
      subst hs
      cases op <;> simp [calculate_const_dim_size] at hc
      simp [unfoldable_tag, ast_node.node_type, divides_by_zero, is_arith_op]
    | [l, r], hl, hc, hs =>
      have hlit : op ≠ AST_OP_LEAF_LITERAL_UINT := by
        intro h; subst h; simp [literal_leaves] at hl
      have hll : literal_leaves l = true ∧ literal_leaves r = true := by
        simp [literal_leaves, literal_leaves_list] at hl
        exact ⟨hl.2.1, hl.2.2⟩
      obtain ⟨hop, a, b, hca, hcb, hf⟩ := calculate_binary_inv op line ty iv n l r v hlit hc
      simp only [subtrees, subtrees_list, List.append_nil, List.mem_cons, List.mem_append] at hs
      rcases hs with hs | hs | hs
      · subst hs
        refine ⟨by simp [unfoldable_tag, ast_node.node_type, hop], ?_⟩
        simp only [divides_by_zero, hcb, Bool.and_eq_false_imp, decide_eq_true_eq,
          decide_eq_false_iff_not]
        intro hdiv hb
        have hb0 : b = 0 := by simpa using hb
        subst hb0
        rcases hdiv with h | h <;> subst h <;> simp [fold_binary] at hf
      · exact subtrees_of_calculate l a hll.1 hca s hs
      · exact subtrees_of_calculate r b hll.2 hcb s hs
    | [_], hl, hc, hs =>
      cases op <;> simp [calculate_const_dim_size, literal_leaves] at hc hl
    | _ :: _ :: _ :: _, hl, hc, hs =>
      cases op <;> simp [calculate_const_dim_size, literal_leaves] at hc hl

/-! ## Lemmas on the visitor -/

theorem visitLAndExp_each_eq (l : List LAndExpContext) :
    visitLAndExp_each l = l.map visitLAndExp := by
  induction l with
  | nil => simp [visitLAndExp_each]
  | cons a t ih => simp [visitLAndExp_each, ih]

theorem visitEqExp_each_eq (l : List EqExpContext) :
    visitEqExp_each l = l.map visitEqExp := by
  induction l with
  | nil => simp [visitEqExp_each]
  | cons a t ih => simp [visitEqExp_each, ih]

theorem visitRelExp_each_eq (l : List RelExpContext) :
    visitRelExp_each l = l.map visitRelExp := by
  induction l with
  | nil => simp [visitRelExp_each]
  | cons a t ih => simp [visitRelExp_each, ih]

theorem visitAddExp_each_eq (l : List AddExpContext) :
    visitAddExp_each l = l.map visitAddExp := by
  induction l with
  | nil => simp [visitAddExp_each]
  | cons a t ih => simp [visitAddExp_each, ih]

theorem visitMulExp_each_eq (l : List MulExpContext) :
    visitMulExp_each l = l.map visitMulExp := by
  induction l with
  | nil => simp [visitMulExp_each]
  | cons a t ih => simp [visitMulExp_each, ih]

theorem visitUnaryExp_each_eq (l : List UnaryExpContext) :
    visitUnaryExp_each l = l.map visitUnaryExp := by
  induction l with
  | nil => simp [visitUnaryExp_each]
  | cons a t ih => simp [visitUnaryExp_each, ih]

theorem visitExpr_each_eq (l : List ExprContext) :
    visitExpr_each l = l.map visitExpr := by
  induction l with
  | nil => simp [visitExpr_each]
  | cons a t ih => simp [visitExpr_each, ih]

theorem visitInitVal_each_eq (l : List InitValContext) :
    visitInitVal_each l = l.map visitInitVal := by
  induction l with
  | nil => simp [visitInitVal_each]
  | cons a t ih => simp [visitInitVal_each, ih]

theorem foldl_wrap_left_none (ps : List (ast_operator_type × Option ast_node)) :
    ps.foldl wrap_left none = none := by
  induction ps with
  | nil => rfl
  | cons p t ih => simpa [List.foldl, wrap_left] using ih

theorem foldl_wrap_left_some : ∀ (ops : List ast_operator_type) (vs : List ast_node)
    (v0 : ast_node),
    (ops.zip (vs.map some)).foldl wrap_left (some v0) = some (left_fold v0 (ops.zip vs))
  | [], _, _ => by simp [left_fold]
  | _ :: _, [], _ => by simp [left_fold]
  | op :: ops, v :: vs, v0 => by
    have ih := foldl_wrap_left_some ops vs (ast_node.New op [v0, v])
    simpa [left_fold, wrap_left] using ih
theorem operand_at_drop (operands : List (Option ast_node)) (k : Nat) (x : Option ast_node)
    (rest : List (Option ast_node)) (h : operands.drop k = x :: rest) :
    operand_at operands k = x ∧ operands.drop (k + 1) = rest := by
  constructor
  · unfold operand_at
    have : operands.get? k = (operands.drop k).head? := by
      simp [List.head?_drop]
    rw [this, h]; simp
  · have : operands.drop (k + 1) = (operands.drop k).drop 1 := by
      simp [List.drop_drop, Nat.add_comm]
    rw [this, h]; rfl

theorem flatten_loop_succ (operands : List (Option ast_node)) :
    ∀ (ops : List ast_operator_type) (k : Nat) (left : Option ast_node),
      0 < k → k + ops.length + 1 ≤ operands.length →
      flatten_loop operands ops k left = (ops.zip (operands.drop (k + 1))).foldl wrap_left left
  | [], _, _, _, _ => by simp [flatten_loop]
  | op :: ops, k, left, hk, hlen => by
    have hlt : k + 1 < operands.length := by simp at hlen; omega
    obtain ⟨x, rest, hd⟩ : ∃ x rest, operands.drop (k + 1) = x :: rest := by
      cases hdr : operands.drop (k + 1) with
      | nil =>
        have := congrArg List.length hdr
        simp at this; omega
      | cons x rest => exact ⟨x, rest, rfl⟩
    obtain ⟨hx, hrest⟩ := operand_at_drop operands (k + 1) x rest hd
    have hk0 : k ≠ 0 := by omega
    rw [hd]
    simp only [List.zip_cons_cons, List.foldl_cons]
    rw [flatten_loop]
    simp only [hk0, if_false, hx]
    cases left with
    | none => simp [wrap_left, foldl_wrap_left_none]
    | some l =>
      cases x with
      | none => simp [wrap_left, foldl_wrap_left_none]
      | some right =>
        have ih := flatten_loop_succ operands ops (k + 1)
          (some (ast_node.New op [l, right])) (by omega) (by simp at hlen ⊢; omega)
        simp only [ih, hrest, wrap_left]

theorem visit_binary_level_eq (operands : List (Option ast_node))
    (ops : List ast_operator_type) (h : operands.length = ops.length + 1) :
    visit_binary_level operands ops =
      (ops.zip (operands.drop 1)).foldl wrap_left (operand_at operands 0) := by
  cases ops with
  | nil => simp [visit_binary_level]
  | cons op ops =>
    simp only [visit_binary_level, List.isEmpty_cons, Bool.false_eq_true, if_false]
    obtain ⟨x, rest, hd⟩ : ∃ x rest, operands.drop 1 = x :: rest := by
      cases hdr : operands.drop 1 with
      | nil =>
        have := congrArg List.length hdr
        simp at this h; omega
      | cons x rest => exact ⟨x, rest, rfl⟩
    obtain ⟨hx, hrest⟩ := operand_at_drop operands 1 x rest hd
    rw [hd]
    simp only [List.zip_cons_cons, List.foldl_cons]
    rw [flatten_loop]
    simp only [if_true, hx]
    cases h0 : operand_at operands 0 with
    | none => simp [wrap_left, foldl_wrap_left_none]
    | some l =>
      cases x with
      | none => simp [wrap_left, foldl_wrap_left_none]
      | some right =>
        have ih := flatten_loop_succ operands ops 1
          (some (ast_node.New op [l, right])) (by omega) (by simp at h ⊢; omega)
        simp only [ih, hrest, wrap_left]

theorem precedence_level_of_eq {C O : Type} (visit : List C → List O → Option ast_node)
    (V : C → Option ast_node) (opOf : O → ast_operator_type) (tags : List ast_operator_type)
    (h : ∀ operands ops, visit operands ops =
      visit_binary_level (operands.map V) (ops.map opOf))
    (htags : ∀ op : O, opOf op ∈ tags) :
    precedence_level visit V opOf tags := by
  refine ⟨?_, ?_, htags⟩
  · intro e
    rw [h]
    simp [visit_binary_level, operand_at]
  · intro operands ops e op hlen
    cases operands with
    | nil => simp at hlen
    | cons c0 cs =>
      have hcs : cs.length = ops.length := by simpa using hlen
      rw [h, h, visit_binary_level_eq _ _ (by simp [hcs]),
        visit_binary_level_eq _ _ (by simp [hcs])]
      simp only [List.cons_append, List.map_cons, List.drop_succ_cons, List.drop_zero,
        List.map_append, List.map_nil]
      have h0 : ∀ t : List (Option ast_node), operand_at (V c0 :: t) 0 = V c0 := by
        intro t; simp [operand_at]
      rw [h0, h0, List.zip_append (by simp [hcs]), List.foldl_append]
      simp

theorem visit_binary_level_some (operands : List (Option ast_node))
    (ops : List ast_operator_type) (vs : List ast_node)
    (hlen : vs.length = ops.length + 1) (hmap : operands = vs.map some) :
    ∃ v, visit_binary_level operands ops = some v := by
  cases vs with
  | nil => simp at hlen
  | cons v0 vs =>
    rw [hmap, visit_binary_level_eq _ _ (by simpa using hlen)]
    simp only [List.map_cons, List.drop_succ_cons, List.drop_zero]
    have h0 : operand_at (some v0 :: vs.map some) 0 = some v0 := by
      simp [operand_at]
    rw [h0, foldl_wrap_left_some]
    exact ⟨_, rfl⟩

theorem insert_visited_some (vs : List ast_node) : ∀ (parent : ast_node),
    ∃ v, insert_visited parent (vs.map some) = some v := by
  induction vs with
  | nil => intro parent; exact ⟨parent, rfl⟩
  | cons a t ih => intro parent; simpa [insert_visited] using ih _

theorem visitLVal_loop_some (id_node : ast_node) (vs : List ast_node) : ∀ (base : ast_node),
    ∃ v, visitLVal_loop id_node (vs.map some) base = some v := by
  induction vs with
  | nil => intro base; exact ⟨base, rfl⟩
  | cons a t ih => intro base; simpa [visitLVal_loop] using ih _

mutual
theorem visitExpr_total : ∀ (e : ExprContext), well_formed_expr e = true →
    ∃ v, visitExpr e = some v
  | ExprContext.mk l, h => by
    rw [visitExpr]
    exact visitLOrExp_total l (by simpa [well_formed_expr] using h)
theorem visitLOrExp_total : ∀ (e : LOrExpContext), well_formed_lOrExp e = true →
    ∃ v, visitLOrExp e = some v
  | LOrExpContext.mk operands ops, h => by
    simp only [well_formed_lOrExp, Bool.and_eq_true, decide_eq_true_eq] at h
    obtain ⟨vs, hvs⟩ := visitLAndExp_each_total operands h.2
    rw [visitLOrExp]
    have hl : vs.length = (ops.map visitLOrOp).length + 1 := by
      have := congrArg List.length hvs
      simp [visitLAndExp_each_eq, visitEqExp_each_eq, visitRelExp_each_eq, visitAddExp_each_eq,
        visitMulExp_each_eq, visitUnaryExp_each_eq] at this
      simp; omega
    exact visit_binary_level_some _ _ vs hl hvs
theorem visitLAndExp_each_total : ∀ (l : List LAndExpContext), well_formed_lAndExps l = true →
    ∃ vs : List ast_node, visitLAndExp_each l = vs.map some
  | [], _ => ⟨[], rfl⟩
  | c :: rest, h => by
    simp only [well_formed_lAndExps, Bool.and_eq_true] at h
    obtain ⟨v, hv⟩ := visitLAndExp_total c h.1
    obtain ⟨vs, hvs⟩ := visitLAndExp_each_total rest h.2
    exact ⟨v :: vs, by simp [visitLAndExp_each, hv, hvs]⟩
theorem visitLAndExp_total : ∀ (e : LAndExpContext), well_formed_lAndExp e = true →
    ∃ v, visitLAndExp e = some v
  | LAndExpContext.mk operands ops, h => by
    simp only [well_formed_lAndExp, Bool.and_eq_true, decide_eq_true_eq] at h
    obtain ⟨vs, hvs⟩ := visitEqExp_each_total operands h.2
    rw [visitLAndExp]
    have hl : vs.length = (ops.map visitLAndOp).length + 1 := by
      have := congrArg List.length hvs
      simp [visitLAndExp_each_eq, visitEqExp_each_eq, visitRelExp_each_eq, visitAddExp_each_eq,
        visitMulExp_each_eq, visitUnaryExp_each_eq] at this
      simp; omega
    exact visit_binary_level_some _ _ vs hl hvs
theorem visitEqExp_each_total : ∀ (l : List EqExpContext), well_formed_eqExps l = true →
    ∃ vs : List ast_node, visitEqExp_each l = vs.map some
  | [], _ => ⟨[], rfl⟩
  | c :: rest, h => by
    simp only [well_formed_eqExps, Bool.and_eq_true] at h
    obtain ⟨v, hv⟩ := visitEqExp_total c h.1
    obtain ⟨vs, hvs⟩ := visitEqExp_each_total rest h.2
    exact ⟨v :: vs, by simp [visitEqExp_each, hv, hvs]⟩
theorem visitEqExp_total : ∀ (e : EqExpContext), well_formed_eqExp e = true →
    ∃ v, visitEqExp e = some v
  | EqExpContext.mk operands ops, h => by
    simp only [well_formed_eqExp, Bool.and_eq_true, decide_eq_true_eq] at h
    obtain ⟨vs, hvs⟩ := visitRelExp_each_total operands h.2
    rw [visitEqExp]
    have hl : vs.length = (ops.map visitEqOp).length + 1 := by
      have := congrArg List.length hvs
      simp [visitLAndExp_each_eq, visitEqExp_each_eq, visitRelExp_each_eq, visitAddExp_each_eq,
        visitMulExp_each_eq, visitUnaryExp_each_eq] at this
      simp; omega
    exact visit_binary_level_some _ _ vs hl hvs
theorem visitRelExp_each_total : ∀ (l : List RelExpContext), well_formed_relExps l = true →
    ∃ vs : List ast_node, visitRelExp_each l = vs.map some
  | [], _ => ⟨[], rfl⟩
  | c :: rest, h => by
    simp only [well_formed_relExps, Bool.and_eq_true] at h
    obtain ⟨v, hv⟩ := visitRelExp_total c h.1
    obtain ⟨vs, hvs⟩ := visitRelExp_each_total rest h.2
    exact ⟨v :: vs, by simp [visitRelExp_each, hv, hvs]⟩
theorem visitRelExp_total : ∀ (e : RelExpContext), well_formed_relExp e = true →
    ∃ v, visitRelExp e = some v
  | RelExpContext.mk operands ops, h => by
    simp only [well_formed_relExp, Bool.and_eq_true, decide_eq_true_eq] at h
    obtain ⟨vs, hvs⟩ := visitAddExp_each_total operands h.2
    rw [visitRelExp]
    have hl : vs.length = (ops.map visitRelOp).length + 1 := by
      have := congrArg List.length hvs
      simp [visitLAndExp_each_eq, visitEqExp_each_eq, visitRelExp_each_eq, visitAddExp_each_eq,
        visitMulExp_each_eq, visitUnaryExp_each_eq] at this
      simp; omega
    exact visit_binary_level_some _ _ vs hl hvs
theorem visitAddExp_each_total : ∀ (l : List AddExpContext), well_formed_addExps l = true →
    ∃ vs : List ast_node, visitAddExp_each l = vs.map some
  | [], _ => ⟨[], rfl⟩
  | c :: rest, h => by
    simp only [well_formed_addExps, Bool.and_eq_true] at h
    obtain ⟨v, hv⟩ := visitAddExp_total c h.1
    obtain ⟨vs, hvs⟩ := visitAddExp_each_total rest h.2
    exact ⟨v :: vs, by simp [visitAddExp_each, hv, hvs]⟩
theorem visitAddExp_total : ∀ (e : AddExpContext), well_formed_addExp e = true →
    ∃ v, visitAddExp e = some v
  | AddExpContext.mk operands ops, h => by
    simp only [well_formed_addExp, Bool.and_eq_true, decide_eq_true_eq] at h
    obtain ⟨vs, hvs⟩ := visitMulExp_each_total operands h.2
    rw [visitAddExp]
    have hl : vs.length = (ops.map visitAddOp).length + 1 := by
      have := congrArg List.length hvs
      simp [visitLAndExp_each_eq, visitEqExp_each_eq, visitRelExp_each_eq, visitAddExp_each_eq,
        visitMulExp_each_eq, visitUnaryExp_each_eq] at this
      simp; omega
    exact visit_binary_level_some _ _ vs hl hvs
theorem visitMulExp_each_total : ∀ (l : List MulExpContext), well_formed_mulExps l = true →
    ∃ vs : List ast_node, visitMulExp_each l = vs.map some
  | [], _ => ⟨[], rfl⟩
  | c :: rest, h => by
    simp only [well_formed_mulExps, Bool.and_eq_true] at h
    obtain ⟨v, hv⟩ := visitMulExp_total c h.1
    obtain ⟨vs, hvs⟩ := visitMulExp_each_total rest h.2
    exact ⟨v :: vs, by simp [visitMulExp_each, hv, hvs]⟩
theorem visitMulExp_total : ∀ (e : MulExpContext), well_formed_mulExp e = true →
    ∃ v, visitMulExp e = some v
  | MulExpContext.mk operands ops, h => by
    simp only [well_formed_mulExp, Bool.and_eq_true, decide_eq_true_eq] at h
    obtain ⟨vs, hvs⟩ := visitUnaryExp_each_total operands h.2
    rw [visitMulExp]
    have hl : vs.length = (ops.map visitMulOp).length + 1 := by
      have := congrArg List.length hvs
      simp [visitLAndExp_each_eq, visitEqExp_each_eq, visitRelExp_each_eq, visitAddExp_each_eq,
        visitMulExp_each_eq, visitUnaryExp_each_eq] at this
      simp; omega
    exact visit_binary_level_some _ _ vs hl hvs
theorem visitUnaryExp_each_total : ∀ (l : List UnaryExpContext),
    well_formed_unaryExps l = true → ∃ vs : List ast_node, visitUnaryExp_each l = vs.map some
  | [], _ => ⟨[], rfl⟩
  | c :: rest, h => by
    simp only [well_formed_unaryExps, Bool.and_eq_true] at h
    obtain ⟨v, hv⟩ := visitUnaryExp_total c h.1
    obtain ⟨vs, hvs⟩ := visitUnaryExp_each_total rest h.2
    exact ⟨v :: vs, by simp [visitUnaryExp_each, hv, hvs]⟩
theorem visitUnaryExp_total : ∀ (e : UnaryExpContext), well_formed_unaryExp e = true →
    ∃ v, visitUnaryExp e = some v
  | UnaryExpContext.primary p, h => by
    rw [visitUnaryExp]
    exact visitPrimaryExp_total p (by simpa [well_formed_unaryExp] using h)
  | UnaryExpContext.call _ none, _ => by
    rw [visitUnaryExp]; exact ⟨_, rfl⟩
  | UnaryExpContext.call _ (some ps), h => by
    obtain ⟨v, hv⟩ := visitRealParamList_total ps (by simpa [well_formed_unaryExp] using h)
    rw [visitUnaryExp, hv]; exact ⟨_, rfl⟩
  | UnaryExpContext.unary _ u, h => by
    obtain ⟨v, hv⟩ := visitUnaryExp_total u (by simpa [well_formed_unaryExp] using h)
    rw [visitUnaryExp, hv]; exact ⟨_, rfl⟩
theorem visitPrimaryExp_total : ∀ (e : PrimaryExpContext), well_formed_primaryExp e = true →
    ∃ v, visitPrimaryExp e = some v
  | PrimaryExpContext.digit T_DIGIT, h => by
    have hlt : T_DIGIT.value < 18446744073709551616 := by
      simpa [well_formed_primaryExp] using h
    rw [visitPrimaryExp, stoull, if_pos hlt]; exact ⟨_, rfl⟩
  | PrimaryExpContext.lval l, h => by
    rw [visitPrimaryExp]
    exact visitLVal_total l (by simpa [well_formed_primaryExp] using h)
  | PrimaryExpContext.paren e, h => by
    rw [visitPrimaryExp]
    exact visitExpr_total e (by simpa [well_formed_primaryExp] using h)
theorem visitLVal_total : ∀ (e : LValContext), well_formed_lVal e = true →
    ∃ v, visitLVal e = some v
  | LValContext.mk _ exprs, h => by
    obtain ⟨vs, hvs⟩ := visitExpr_each_total exprs (by simpa [well_formed_lVal] using h)
    rw [visitLVal, hvs]
    exact visitLVal_loop_some _ vs _
theorem visitExpr_each_total : ∀ (l : List ExprContext), well_formed_exprs l = true →
    ∃ vs : List ast_node, visitExpr_each l = vs.map some
  | [], _ => ⟨[], rfl⟩
  | c :: rest, h => by
    simp only [well_formed_exprs, Bool.and_eq_true] at h
    obtain ⟨v, hv⟩ := visitExpr_total c h.1
    obtain ⟨vs, hvs⟩ := visitExpr_each_total rest h.2
    exact ⟨v :: vs, by simp [visitExpr_each, hv, hvs]⟩
theorem visitRealParamList_total : ∀ (e : RealParamListContext),
    well_formed_realParamList e = true → ∃ v, visitRealParamList e = some v
  | RealParamListContext.mk exprs, h => by
    obtain ⟨vs, hvs⟩ := visitExpr_each_total exprs (by simpa [well_formed_realParamList] using h)
    rw [visitRealParamList, hvs]
    exact insert_visited_some vs _
end

theorem visitExpr_map_total (l : List ExprContext) (h : well_formed_exprs l = true) :
    ∃ vs : List ast_node, l.map visitExpr = vs.map some := by
  obtain ⟨vs, hvs⟩ := visitExpr_each_total l h
  exact ⟨vs, by rw [← visitExpr_each_eq, hvs]⟩

mutual
theorem visitInitVal_total : ∀ (e : InitValContext), well_formed_initVal e = true →
    ∃ v, visitInitVal e = some v
  | InitValContext.expr e, h => by
    rw [visitInitVal]
    exact visitExpr_total e (by simpa [well_formed_initVal] using h)
  | InitValContext.braces vals, h => by
    obtain ⟨vs, hvs⟩ := visitInitVal_each_total vals (by simpa [well_formed_initVal] using h)
    rw [visitInitVal, hvs]
    exact insert_visited_some vs _
theorem visitInitVal_each_total : ∀ (l : List InitValContext), well_formed_initVals l = true →
    ∃ vs : List ast_node, visitInitVal_each l = vs.map some
  | [], _ => ⟨[], rfl⟩
  | c :: rest, h => by
    simp only [well_formed_initVals, Bool.and_eq_true] at h
    obtain ⟨v, hv⟩ := visitInitVal_total c h.1
    obtain ⟨vs, hvs⟩ := visitInitVal_each_total rest h.2
    exact ⟨v :: vs, by simp [visitInitVal_each, hv, hvs]⟩
end

theorem foldl_insert_son_node (ds : List ast_node) : ∀ (t : ast_operator_type) (l : Int)
    (ty : Option Ty) (v : Nat) (n : String) (s : List ast_node),
    ds.foldl (fun p d => p.insert_son_node (some d)) (ast_node.mk t l ty v n s) =
      ast_node.mk t l ty v n (s ++ ds) := by
  induction ds with
  | nil => intro t l ty v n s; simp
  | cons d ds ih =>
    intro t l ty v n s
    have hstep : (ast_node.mk t l ty v n s).insert_son_node (some d) =
        ast_node.mk t l ty v n (s ++ [d]) := rfl
    rw [List.foldl_cons, hstep, ih]
    simp

theorem insert_visited_map_some (vs : List ast_node) : ∀ (t : ast_operator_type) (l : Int)
    (ty : Option Ty) (v : Nat) (n : String) (s : List ast_node),
    insert_visited (ast_node.mk t l ty v n s) (vs.map some) =
      some (ast_node.mk t l ty v n (s ++ vs)) := by
  induction vs with
  | nil => intro t l ty v n s; simp [insert_visited]
  | cons d ds ih =>
    intro t l ty v n s
    simp [insert_visited, ast_node.insert_son_node, ih]

theorem visitVarDef_dims_map_some (vs : List ast_node) :
    visitVarDef_dims (vs.map some) = some (vs.map array_dim) := by
  induction vs with
  | nil => rfl
  | cons v vs ih =>
    simp [visitVarDef_dims, ih, array_dim, create_contain_node, ast_node.New,
      ast_node.insert_son_node]

theorem visitVarDecl_dims_eq (line_no : Int) (l : List ast_node) : ∀ (ty : Ty),
    visitVarDecl_dims line_no (l.map array_dim) ty =
      some (array_type_of ty (l.reverse.filterMap layer_size), l.map (folded_dim line_no)) := by
  induction l with
  | nil => intro ty; simp [visitVarDecl_dims, array_type_of]
  | cons v l ih =>
    intro ty
    cases hc : calculate_const_dim_size v with
    | none =>
      simp [visitVarDecl_dims, array_dim, ast_node.New, ast_node.sons, hc, ih, folded_dim,
        List.filterMap_append, layer_size]
    | some n =>
      by_cases hn : n = 0
      · simp [visitVarDecl_dims, array_dim, ast_node.New, ast_node.sons, hc, ih, folded_dim,
          List.filterMap_append, layer_size, hn, ast_node.set_son0]
      · simp [visitVarDecl_dims, array_dim, ast_node.New, ast_node.sons, hc, ih, folded_dim,
          List.filterMap_append, layer_size, hn, ast_node.set_son0, array_type_of,
          ArrayType.get, List.foldr_append]

theorem create_type_node_type (attr : type_attr) :
    (create_type_node attr).type = some (base_type attr) := by
  cases attr with
  | mk t l => cases t <;> rfl

theorem visitVarDecl_varDef_eq (attr : type_attr) (d : VarDefContext) (vs : List ast_node)
    (init_node : Option ast_node) (hvs : d.expr.map visitExpr = vs.map some)
    (hinit : d.initVal.map visitInitVal = init_node.map some) :
    visitVarDecl_varDef attr d = some (var_decl_node attr d.T_ID vs init_node) := by
  have hdef : visitVarDef d = some (VarDefInfo.mk
      (ast_node.New_id d.T_ID.text (d.T_ID.line : Int)) (vs.map array_dim) init_node) := by
    unfold visitVarDef
    rw [visitExpr_each_eq, hvs, visitVarDef_dims_map_some]
    cases hi : d.initVal with
    | none =>
      rw [hi] at hinit
      cases init_node with
      | none => rfl
      | some x => simp at hinit
    | some iv =>
      rw [hi] at hinit
      cases init_node with
      | none => simp at hinit
      | some x =>
        have : visitInitVal iv = some x := by simpa using hinit
        simp [this]
  unfold visitVarDecl_varDef
  rw [hdef, create_type_node_type]
  simp only [← List.map_reverse, visitVarDecl_dims_eq, List.reverse_reverse]
  have hbase : ∀ (ty : Ty) (a b : ast_node),
      (((create_contain_node AST_OP_VAR_DECL []).set_type ty).insert_son_node
        (some a)).insert_son_node (some b) =
      ast_node.mk AST_OP_VAR_DECL (-1) (some ty) 0 "" [a, b] := fun _ _ _ => rfl
  have hline : (ast_node.New_id d.T_ID.text (d.T_ID.line : Int)).line_no = (d.T_ID.line : Int) :=
    rfl
  simp only [hbase, foldl_insert_son_node, hline, List.map_reverse, List.reverse_reverse]
  cases init_node <;> simp [ast_node.insert_son_node, var_decl_node]

theorem visitVarDef_visits (d : VarDefContext) (h : well_formed_varDef d = true) :
    ∃ (vs : List ast_node) (init_node : Option ast_node),
      d.expr.map visitExpr = vs.map some ∧ d.initVal.map visitInitVal = init_node.map some := by
  simp only [well_formed_varDef, Bool.and_eq_true] at h
  obtain ⟨vs, hvs⟩ := visitExpr_map_total d.expr h.1
  refine ⟨vs, ?_⟩
  cases hi : d.initVal with
  | none => exact ⟨none, hvs, rfl⟩
  | some iv =>
    rw [hi] at h
    obtain ⟨x, hx⟩ := visitInitVal_total iv h.2
    exact ⟨some x, hvs, by simp [hx]⟩

/-- On a well-formed declaration `visitVarDecl` returns the `DeclStmt` node whose
children are, declarator by declarator, the nodes `var_decl_node`. -/
theorem visitVarDecl_structure (ctx : VarDeclContext) (h : well_formed_varDecl ctx = true) :
    ∃ decls : List ast_node,
      visitVarDecl ctx = some (ast_node.mk AST_OP_DECL_STMT (-1) none 0 "" decls) ∧
      List.Forall₂ (fun d decl => ∃ (vs : List ast_node) (init_node : Option ast_node),
        d.expr.map visitExpr = vs.map some ∧
        d.initVal.map visitInitVal = init_node.map some ∧
        decl = var_decl_node (visitBasicType ctx.basicType) d.T_ID vs init_node)
        ctx.varDef decls := by
  have key : ∀ defs : List VarDefContext, defs.all well_formed_varDef = true →
      ∃ decls : List ast_node,
        defs.map (visitVarDecl_varDef (visitBasicType ctx.basicType)) = decls.map some ∧
        List.Forall₂ (fun d decl => ∃ (vs : List ast_node) (init_node : Option ast_node),
          d.expr.map visitExpr = vs.map some ∧
          d.initVal.map visitInitVal = init_node.map some ∧
          decl = var_decl_node (visitBasicType ctx.basicType) d.T_ID vs init_node)
          defs decls := by
    intro defs
    induction defs with
    | nil => intro _; exact ⟨[], rfl, List.Forall₂.nil⟩
    | cons d defs ih =>
      intro hall
      simp only [List.all_cons, Bool.and_eq_true] at hall
      obtain ⟨decls, hmap, hall2⟩ := ih hall.2
      obtain ⟨vs, init_node, hvs, hinit⟩ := visitVarDef_visits d hall.1
      refine ⟨var_decl_node (visitBasicType ctx.basicType) d.T_ID vs init_node :: decls, ?_,
        List.Forall₂.cons ⟨vs, init_node, hvs, hinit, rfl⟩ hall2⟩
      simp [hmap, visitVarDecl_varDef_eq _ d vs init_node hvs hinit]
  obtain ⟨decls, hmap, hall⟩ := key ctx.varDef h
  refine ⟨decls, ?_, hall⟩
  unfold visitVarDecl
  rw [hmap]
  simp [create_contain_node, ast_node.New, insert_visited_map_some]

theorem literal_leaves_list_append (s : List ast_node) (c : ast_node) :
    literal_leaves_list (s ++ [c]) = (literal_leaves_list s && literal_leaves c) := by
  induction s with
  | nil => simp [literal_leaves_list]
  | cons a t ih => simp [literal_leaves_list, ih, Bool.and_assoc]

theorem literal_leaves_New (op : ast_operator_type) (sons : List ast_node)
    (hop : op ≠ AST_OP_LEAF_LITERAL_UINT) (hs : literal_leaves_list sons = true) :
    literal_leaves (ast_node.New op sons) = true := by
  simp [ast_node.New, literal_leaves, hop, hs]

theorem literal_leaves_insert (t : ast_operator_type) (l : Int) (ty : Option Ty) (v : Nat)
    (n : String) (s : List ast_node) (c : ast_node) (ht : t ≠ AST_OP_LEAF_LITERAL_UINT)
    (hp : literal_leaves (ast_node.mk t l ty v n s) = true) (hc : literal_leaves c = true) :
    literal_leaves (ast_node.mk t l ty v n (s ++ [c])) = true := by
  simp only [literal_leaves, Bool.and_eq_true, Bool.or_eq_true, decide_eq_true_eq] at hp ⊢
  exact ⟨Or.inl ht, by rw [literal_leaves_list_append, hp.2, hc]; rfl⟩

theorem operand_at_mem (operands : List (Option ast_node)) (k : Nat) (x : ast_node)
    (h : operand_at operands k = some x) : some x ∈ operands := by
  unfold operand_at at h
  cases hg : operands.get? k with
  | none => rw [hg] at h; cases h
  | some o =>
    rw [hg] at h
    have ho : o = some x := h
    subst ho
    exact List.get?_mem hg

theorem flatten_loop_literal_leaves (operands : List (Option ast_node))
    (hops : ∀ x, some x ∈ operands → literal_leaves x = true) :
    ∀ (ops : List ast_operator_type) (k : Nat) (left : Option ast_node) (v : ast_node),
      (∀ op ∈ ops, op ≠ AST_OP_LEAF_LITERAL_UINT) →
      (∀ l, left = some l → literal_leaves l = true) →
      flatten_loop operands ops k left = some v → literal_leaves v = true
  | [], _, left, v, _, hleft, h => hleft v (by simpa [flatten_loop] using h)
  | op :: ops, k, left, v, htags, hleft, h => by
    rw [flatten_loop] at h
    cases hl : (if k = 0 then operand_at operands k else left) with
    | none => simp [hl] at h
    | some l =>
      cases hr : operand_at operands (k + 1) with
      | none => simp [hl, hr] at h
      | some r =>
        simp only [hl, hr] at h
        have hll : literal_leaves l = true := by
          by_cases hk : k = 0
          · simp only [hk, if_true] at hl
            exact hops l (operand_at_mem _ _ _ hl)
          · simp only [hk, if_false] at hl
            exact hleft l hl
        have hlr : literal_leaves r = true := hops r (operand_at_mem _ _ _ hr)
        refine flatten_loop_literal_leaves operands hops ops (k + 1) _ v
          (fun o ho => htags o (List.mem_cons_of_mem _ ho)) ?_ h
        intro l2 hl2
        have : l2 = ast_node.New op [l, r] := by simpa using hl2.symm
        subst this
        exact literal_leaves_New op [l, r] (htags op (List.mem_cons_self _ _))
          (by simp [literal_leaves_list, hll, hlr])

theorem visit_binary_level_literal_leaves (operands : List (Option ast_node))
    (ops : List ast_operator_type)
    (hops : ∀ x, some x ∈ operands → literal_leaves x = true)
    (htags : ∀ op ∈ ops, op ≠ AST_OP_LEAF_LITERAL_UINT) (v : ast_node)
    (h : visit_binary_level operands ops = some v) : literal_leaves v = true := by
  unfold visit_binary_level at h
  by_cases he : ops.isEmpty = true
  · simp only [he, if_true] at h
    exact hops v (operand_at_mem _ _ _ h)
  · simp only [he] at h
    exact flatten_loop_literal_leaves operands hops ops 0 none v htags
      (fun l hl => by simp at hl) h

theorem visitLVal_loop_literal_leaves (id_node : ast_node)
    (hid : literal_leaves id_node = true) :
    ∀ (vs : List (Option ast_node)) (base v : ast_node),
      (∀ x, some x ∈ vs → literal_leaves x = true) → literal_leaves base = true →
      visitLVal_loop id_node vs base = some v → literal_leaves v = true
  | [], base, v, _, hb, h => by
    have : base = v := by simpa [visitLVal_loop] using h
    rw [← this]; exact hb
  | none :: _, _, _, _, _, h => by simp [visitLVal_loop] at h
  | some e :: rest, base, v, hvs, hb, h => by
    rw [visitLVal_loop] at h
    have he : literal_leaves e = true := hvs e (List.mem_cons_self _ _)
    refine visitLVal_loop_literal_leaves id_node hid rest _ v
      (fun x hx => hvs x (List.mem_cons_of_mem _ hx)) ?_ h
    split
    · exact literal_leaves_New AST_OP_ARRAY_INDEX [base, e] (by decide)
        (by simp [literal_leaves_list, hb, he])
    · exact literal_leaves_New AST_OP_ARRAY_INDEX [id_node, e] (by decide)
        (by simp [literal_leaves_list, hid, he])

theorem insert_visited_literal_leaves :
    ∀ (vs : List (Option ast_node)) (parent v : ast_node),
      parent.node_type ≠ AST_OP_LEAF_LITERAL_UINT →
      (∀ x, some x ∈ vs → literal_leaves x = true) → literal_leaves parent = true →
      insert_visited parent vs = some v → literal_leaves v = true
  | [], parent, v, _, _, hp, h => by
    have : parent = v := by simpa [insert_visited] using h
    rw [← this]; exact hp
  | none :: _, _, _, _, _, _, h => by simp [insert_visited] at h
  | some e :: rest, ast_node.mk t l ty iv n s, v, ht, hvs, hp, h => by
    rw [insert_visited] at h
    exact insert_visited_literal_leaves rest (ast_node.mk t l ty iv n (s ++ [e])) v ht
      (fun x hx => hvs x (List.mem_cons_of_mem _ hx))
      (literal_leaves_insert t l ty iv n s e ht hp (hvs e (List.mem_cons_self _ _))) h

mutual
theorem visitExpr_literal_leaves : ∀ (e : ExprContext) (v : ast_node),
    visitExpr e = some v → literal_leaves v = true
  | ExprContext.mk l, v, h => visitLOrExp_literal_leaves l v (by rwa [visitExpr] at h)
theorem visitLOrExp_literal_leaves : ∀ (e : LOrExpContext) (v : ast_node),
    visitLOrExp e = some v → literal_leaves v = true
  | LOrExpContext.mk operands ops, v, h => by
    rw [visitLOrExp] at h
    refine visit_binary_level_literal_leaves _ _ (visitLAndExp_each_literal_leaves operands)
      ?_ v h
    intro op hop
    obtain ⟨o, _, rfl⟩ := List.mem_map.mp hop
    cases o; decide
theorem visitLAndExp_each_literal_leaves : ∀ (l : List LAndExpContext) (x : ast_node),
    some x ∈ visitLAndExp_each l → literal_leaves x = true
  | [], x, h => by simp [visitLAndExp_each] at h
  | c :: rest, x, h => by
    rw [visitLAndExp_each, List.mem_cons] at h
    rcases h with h | h
    · exact visitLAndExp_literal_leaves c x h.symm
    · exact visitLAndExp_each_literal_leaves rest x h
theorem visitLAndExp_literal_leaves : ∀ (e : LAndExpContext) (v : ast_node),
    visitLAndExp e = some v → literal_leaves v = true
  | LAndExpContext.mk operands ops, v, h => by
    rw [visitLAndExp] at h
    refine visit_binary_level_literal_leaves _ _ (visitEqExp_each_literal_leaves operands)
      ?_ v h
    intro op hop
    obtain ⟨o, _, rfl⟩ := List.mem_map.mp hop
    cases o; decide
theorem visitEqExp_each_literal_leaves : ∀ (l : List EqExpContext) (x : ast_node),
    some x ∈ visitEqExp_each l → literal_leaves x = true
  | [], x, h => by simp [visitEqExp_each] at h
  | c :: rest, x, h => by
    rw [visitEqExp_each, List.mem_cons] at h
    rcases h with h | h
    · exact visitEqExp_literal_leaves c x h.symm
    · exact visitEqExp_each_literal_leaves rest x h
theorem visitEqExp_literal_leaves : ∀ (e : EqExpContext) (v : ast_node),
    visitEqExp e = some v → literal_leaves v = true
  | EqExpContext.mk operands ops, v, h => by
    rw [visitEqExp] at h
    refine visit_binary_level_literal_leaves _ _ (visitRelExp_each_literal_leaves operands)
      ?_ v h
    intro op hop
    obtain ⟨o, _, rfl⟩ := List.mem_map.mp hop
    cases o <;> decide
theorem visitRelExp_each_literal_leaves : ∀ (l : List RelExpContext) (x : ast_node),
    some x ∈ visitRelExp_each l → literal_leaves x = true
  | [], x, h => by simp [visitRelExp_each] at h
  | c :: rest, x, h => by
    rw [visitRelExp_each, List.mem_cons] at h
    rcases h with h | h
    · exact visitRelExp_literal_leaves c x h.symm
    · exact visitRelExp_each_literal_leaves rest x h
theorem visitRelExp_literal_leaves : ∀ (e : RelExpContext) (v : ast_node),
    visitRelExp e = some v → literal_leaves v = true
  | RelExpContext.mk operands ops, v, h => by
    rw [visitRelExp] at h
    refine visit_binary_level_literal_leaves _ _ (visitAddExp_each_literal_leaves operands)
      ?_ v h
    intro op hop
    obtain ⟨o, _, rfl⟩ := List.mem_map.mp hop
    cases o <;> decide
theorem visitAddExp_each_literal_leaves : ∀ (l : List AddExpContext) (x : ast_node),
    some x ∈ visitAddExp_each l → literal_leaves x = true
  | [], x, h => by simp [visitAddExp_each] at h
  | c :: rest, x, h => by
    rw [visitAddExp_each, List.mem_cons] at h
    rcases h with h | h
    · exact visitAddExp_literal_leaves c x h.symm
    · exact visitAddExp_each_literal_leaves rest x h
theorem visitAddExp_literal_leaves : ∀ (e : AddExpContext) (v : ast_node),
    visitAddExp e = some v → literal_leaves v = true
  | AddExpContext.mk operands ops, v, h => by
    rw [visitAddExp] at h
    refine visit_binary_level_literal_leaves _ _ (visitMulExp_each_literal_leaves operands)
      ?_ v h
    intro op hop
    obtain ⟨o, _, rfl⟩ := List.mem_map.mp hop
    cases o <;> decide
theorem visitMulExp_each_literal_leaves : ∀ (l : List MulExpContext) (x : ast_node),
    some x ∈ visitMulExp_each l → literal_leaves x = true
  | [], x, h => by simp [visitMulExp_each] at h
  | c :: rest, x, h => by
    rw [visitMulExp_each, List.mem_cons] at h
    rcases h with h | h
    · exact visitMulExp_literal_leaves c x h.symm
    · exact visitMulExp_each_literal_leaves rest x h
theorem visitMulExp_literal_leaves : ∀ (e : MulExpContext) (v : ast_node),
    visitMulExp e = some v → literal_leaves v = true
  | MulExpContext.mk operands ops, v, h => by
    rw [visitMulExp] at h
    refine visit_binary_level_literal_leaves _ _ (visitUnaryExp_each_literal_leaves operands)
      ?_ v h
    intro op hop
    obtain ⟨o, _, rfl⟩ := List.mem_map.mp hop
    cases o <;> decide
theorem visitUnaryExp_each_literal_leaves : ∀ (l : List UnaryExpContext) (x : ast_node),
    some x ∈ visitUnaryExp_each l → literal_leaves x = true
  | [], x, h => by simp [visitUnaryExp_each] at h
  | c :: rest, x, h => by
    rw [visitUnaryExp_each, List.mem_cons] at h
    rcases h with h | h
    · exact visitUnaryExp_literal_leaves c x h.symm
    · exact visitUnaryExp_each_literal_leaves rest x h
theorem visitUnaryExp_literal_leaves : ∀ (e : UnaryExpContext) (v : ast_node),
    visitUnaryExp e = some v → literal_leaves v = true
  | UnaryExpContext.primary p, v, h =>
    visitPrimaryExp_literal_leaves p v (by rwa [visitUnaryExp] at h)
  | UnaryExpContext.call _ none, v, h => by
    rw [visitUnaryExp] at h
    have : v = _ := (Option.some.inj h).symm
    rw [this]; rfl
  | UnaryExpContext.call T_ID (some ps), v, h => by
    rw [visitUnaryExp] at h
    cases hp : visitRealParamList ps with
    | none => simp [hp] at h
    | some pl =>
      have hpl := visitRealParamList_literal_leaves ps pl hp
      simp only [hp] at h
      have : v = _ := (Option.some.inj h).symm
      rw [this]
      simp [create_func_call, create_contain_node, ast_node.New, ast_node.insert_son_node,
        ast_node.New_id, literal_leaves, literal_leaves_list, hpl]
  | UnaryExpContext.unary op u, v, h => by
    rw [visitUnaryExp] at h
    cases hu : visitUnaryExp u with
    | none => simp [hu] at h
    | some x =>
      have hx := visitUnaryExp_literal_leaves u x hu
      simp only [hu] at h
      have : v = _ := (Option.some.inj h).symm
      rw [this]
      exact literal_leaves_New _ _ (by cases op <;> decide) (by simp [literal_leaves_list, hx])
theorem visitPrimaryExp_literal_leaves : ∀ (e : PrimaryExpContext) (v : ast_node),
    visitPrimaryExp e = some v → literal_leaves v = true
  | PrimaryExpContext.digit T_DIGIT, v, h => by
    rw [visitPrimaryExp] at h
    cases hs : stoull T_DIGIT with
    | none => simp [hs] at h
    | some val =>
      simp only [hs] at h
      have : v = _ := (Option.some.inj h).symm
      rw [this]; rfl
  | PrimaryExpContext.lval l, v, h => visitLVal_literal_leaves l v (by rwa [visitPrimaryExp] at h)
  | PrimaryExpContext.paren e, v, h => visitExpr_literal_leaves e v (by rwa [visitPrimaryExp] at h)
theorem visitLVal_literal_leaves : ∀ (e : LValContext) (v : ast_node),
    visitLVal e = some v → literal_leaves v = true
  | LValContext.mk T_ID exprs, v, h => by
    rw [visitLVal] at h
    have hid : literal_leaves (ast_node.New_id T_ID.text (T_ID.line : Int)) = true := rfl
    exact visitLVal_loop_literal_leaves _ hid _ _ v (visitExpr_each_literal_leaves exprs) hid h
theorem visitExpr_each_literal_leaves : ∀ (l : List ExprContext) (x : ast_node),
    some x ∈ visitExpr_each l → literal_leaves x = true
  | [], x, h => by simp [visitExpr_each] at h
  | c :: rest, x, h => by
    rw [visitExpr_each, List.mem_cons] at h
    rcases h with h | h
    · exact visitExpr_literal_leaves c x h.symm
    · exact visitExpr_each_literal_leaves rest x h
theorem visitRealParamList_literal_leaves : ∀ (e : RealParamListContext) (v : ast_node),
    visitRealParamList e = some v → literal_leaves v = true
  | RealParamListContext.mk exprs, v, h => by
    rw [visitRealParamList] at h
    have hp : literal_leaves (create_contain_node AST_OP_FUNC_REAL_PARAMS []) = true := rfl
    exact insert_visited_literal_leaves _ (create_contain_node AST_OP_FUNC_REAL_PARAMS []) v
      (by decide) (visitExpr_each_literal_leaves exprs) hp h
end

theorem map_folded_dim_of_foldable (line_no : Int) (vs : List ast_node)
    (h : ∀ v ∈ vs, arith_only v = true ∧ no_zero_divisor v = true) :
    vs.map (folded_dim line_no) =
      vs.map (fun v => array_dim (ast_node.New_digit (eval_u32 v) line_no)) := by
  apply List.map_congr_left
  intro v hv
  simp [folded_dim, calculate_of_arith_only v (h v hv).1 (h v hv).2]

theorem filterMap_layer_size_of_folds : ∀ (vs : List ast_node) (ns : List Nat),
    vs.map calculate_const_dim_size = ns.map some →
    vs.filterMap layer_size = ns.filter (fun n => decide (n ≠ 0))
  | [], [], _ => rfl
  | [], _ :: _, h => by simp at h
  | _ :: _, [], h => by simp at h
  | v :: vs, n :: ns, h => by
    simp only [List.map_cons, List.cons.injEq] at h
    have ih := filterMap_layer_size_of_folds vs ns h.2
    by_cases hn : n = 0
    · simp [List.filterMap_cons, layer_size, h.1, hn, ih]
    · simp [List.filterMap_cons, layer_size, h.1, hn, ih]

theorem arrayLayers_array_type_of (base : Ty) (ns : List Nat) :
    (array_type_of base ns).arrayLayers = ns.length + base.arrayLayers := by
  induction ns with
  | nil => simp [array_type_of]
  | cons n ns ih =>
    simp only [array_type_of, List.foldr_cons, Ty.arrayLayers, List.length_cons] at ih ⊢
    omega

theorem arrayLayers_base_type (attr : type_attr) : (base_type attr).arrayLayers = 0 := by
  cases attr with
  | mk t l => cases t <;> rfl

theorem length_filterMap_layer_size_le (vs : List ast_node) :
    (vs.filterMap layer_size).length ≤ vs.length :=
  List.length_filterMap_le _ _

theorem length_filterMap_layer_size_lt (vs : List ast_node)
    (h : ∃ v ∈ vs, calculate_const_dim_size v = none) :
    (vs.filterMap layer_size).length < vs.length := by
  induction vs with
  | nil => simp at h
  | cons a t ih =>
    obtain ⟨v, hv, hc⟩ := h
    rcases List.mem_cons.mp hv with hva | hvt
    · subst hva
      have hl : layer_size v = none := by simp [layer_size, hc]
      have := length_filterMap_layer_size_le t
      simp only [List.filterMap_cons, hl, List.length_cons]
      omega
    · have := ih ⟨v, hvt, hc⟩
      cases hl : layer_size a <;> simp only [List.filterMap_cons, hl, List.length_cons] <;> omega

theorem visitFuncFParam_dims_map_some (vs : List ast_node) :
    visitFuncFParam_dims (vs.map some) = some (vs.map array_dim) := by
  induction vs with
  | nil => rfl
  | cons v vs ih =>
    simp [visitFuncFParam_dims, ih, array_dim, create_contain_node, ast_node.New,
      ast_node.insert_son_node]

theorem visitFuncFParam_type_eq (l : List ast_node) : ∀ (ty : Ty),
    visitFuncFParam_type (l.map array_dim) ty =
      array_type_of ty (l.reverse.map (fun v => (calculate_const_dim_size v).getD 0)) := by
  induction l with
  | nil => intro ty; rfl
  | cons v l ih =>
    intro ty
    simp only [List.map_cons, visitFuncFParam_type, ih, List.reverse_cons, List.map_append,
      List.map_nil, array_type_of, List.foldr_append, List.foldr_cons, List.foldr_nil]
    rfl

theorem set_type_type (node : ast_node) (ty : Ty) : (node.set_type ty).type = some ty := by
  cases node; rfl

theorem visitLVal_loop_eq (id_node : ast_node) (hid : id_node.node_type ≠ AST_OP_ARRAY_INDEX)
    (vs : List ast_node) : ∀ (base : ast_node),
    (base = id_node ∨ base.node_type = AST_OP_ARRAY_INDEX) →
    visitLVal_loop id_node (vs.map some) base = some (index_chain base vs) := by
  induction vs with
  | nil => intro base _; rfl
  | cons v vs ih =>
    intro base hbase
    have hnew : (if base.node_type = AST_OP_ARRAY_INDEX then
          create_contain_node AST_OP_ARRAY_INDEX [some base, some v]
        else create_contain_node AST_OP_ARRAY_INDEX [some id_node, some v]) =
        ast_node.New AST_OP_ARRAY_INDEX [base, v] := by
      rcases hbase with hb | hb
      · subst hb; simp [hid]; rfl
      · simp [hb]; rfl
    simp only [List.map_cons, visitLVal_loop, hnew]
    rw [ih (ast_node.New AST_OP_ARRAY_INDEX [base, v]) (Or.inr rfl)]
    rfl

theorem index_depth_chain (vs : List ast_node) : ∀ (base : ast_node),
    index_depth (index_chain base vs) = index_depth base + vs.length := by
  induction vs with
  | nil => intro base; rfl
  | cons v vs ih =>
    intro base
    have : index_chain base (v :: vs) =
        index_chain (ast_node.New AST_OP_ARRAY_INDEX [base, v]) vs := rfl
    rw [this, ih]
    simp [index_depth, ast_node.New]
    omega

theorem leftmost_leaf_chain (vs : List ast_node) : ∀ (base : ast_node),
    leftmost_leaf (index_chain base vs) = leftmost_leaf base := by
  induction vs with
  | nil => intro base; rfl
  | cons v vs ih =>
    intro base
    have : index_chain base (v :: vs) =
        index_chain (ast_node.New AST_OP_ARRAY_INDEX [base, v]) vs := rfl
    rw [this, ih]
    simp [leftmost_leaf, ast_node.New]

/-! ## Lemmas on root tags and initializers -/

theorem flatten_loop_preserves (P : ast_node → Prop) (operands : List (Option ast_node))
    (hops : ∀ x, some x ∈ operands → P x) :
    ∀ (ops : List ast_operator_type) (k : Nat) (left : Option ast_node) (v : ast_node),
      (∀ op ∈ ops, ∀ l r, P (ast_node.New op [l, r])) →
      (∀ l, left = some l → P l) →
      flatten_loop operands ops k left = some v → P v
  | [], _, left, v, _, hleft, h => hleft v (by simpa [flatten_loop] using h)
  | op :: ops, k, left, v, hnew, _, h => by
    rw [flatten_loop] at h
    cases hl : (if k = 0 then operand_at operands k else left) with
    | none => simp [hl] at h
    | some l =>
      cases hr : operand_at operands (k + 1) with
      | none => simp [hl, hr] at h
      | some r =>
        simp only [hl, hr] at h
        refine flatten_loop_preserves P operands hops ops (k + 1) _ v
          (fun o ho => hnew o (List.mem_cons_of_mem _ ho)) ?_ h
        intro l2 hl2
        have : l2 = ast_node.New op [l, r] := by simpa using hl2.symm
        subst this
        exact hnew op (List.mem_cons_self _ _) l r

theorem visit_binary_level_preserves (P : ast_node → Prop) (operands : List (Option ast_node))
    (ops : List ast_operator_type) (hops : ∀ x, some x ∈ operands → P x)
    (hnew : ∀ op ∈ ops, ∀ l r, P (ast_node.New op [l, r])) (v : ast_node)
    (h : visit_binary_level operands ops = some v) : P v := by
  unfold visit_binary_level at h
  by_cases he : ops.isEmpty = true
  · simp only [he, if_true] at h
    exact hops v (operand_at_mem _ _ _ h)
  · simp only [he] at h
    exact flatten_loop_preserves P operands hops ops 0 none v hnew
      (fun l hl => by simp at hl) h

theorem visitLVal_loop_root (id_node : ast_node) :
    ∀ (vs : List (Option ast_node)) (base v : ast_node),
      is_expr_tag base.node_type = true →
      visitLVal_loop id_node vs base = some v → is_expr_tag v.node_type = true
  | [], base, v, hb, h => by
    have : base = v := by simpa [visitLVal_loop] using h
    rw [← this]; exact hb
  | none :: _, _, _, _, h => by simp [visitLVal_loop] at h
  | some e :: rest, base, v, _, h => by
    rw [visitLVal_loop] at h
    refine visitLVal_loop_root id_node rest _ v ?_ h
    split <;> rfl

theorem insert_visited_inv : ∀ (l : List (Option ast_node)) (t : ast_operator_type) (ln : Int)
    (ty : Option Ty) (iv : Nat) (n : String) (s : List ast_node) (v : ast_node),
    insert_visited (ast_node.mk t ln ty iv n s) l = some v →
    ∃ nodes : List ast_node, l = nodes.map some ∧ v = ast_node.mk t ln ty iv n (s ++ nodes)
  | [], t, ln, ty, iv, n, s, v, h => by
    refine ⟨[], rfl, ?_⟩
    have : ast_node.mk t ln ty iv n s = v := by simpa [insert_visited] using h
    simp [← this]
  | none :: _, _, _, _, _, _, _, _, h => by simp [insert_visited] at h
  | some e :: rest, t, ln, ty, iv, n, s, v, h => by
    rw [insert_visited] at h
    obtain ⟨nodes, hl, hv⟩ := insert_visited_inv rest t ln ty iv n (s ++ [e]) v h
    exact ⟨e :: nodes, by simp [hl], by simp [hv]⟩

mutual
theorem visitExpr_root : ∀ (e : ExprContext) (v : ast_node),
    visitExpr e = some v → is_expr_tag v.node_type = true
  | ExprContext.mk l, v, h => visitLOrExp_root l v (by rwa [visitExpr] at h)
theorem visitLOrExp_root : ∀ (e : LOrExpContext) (v : ast_node),
    visitLOrExp e = some v → is_expr_tag v.node_type = true
  | LOrExpContext.mk operands ops, v, h => by
    rw [visitLOrExp] at h
    refine visit_binary_level_preserves (fun x => is_expr_tag x.node_type = true) _ _
      (visitLAndExp_each_root operands) ?_ v h
    intro op hop l r
    obtain ⟨o, _, rfl⟩ := List.mem_map.mp hop
    cases o; rfl
theorem visitLAndExp_each_root : ∀ (l : List LAndExpContext) (x : ast_node),
    some x ∈ visitLAndExp_each l → is_expr_tag x.node_type = true
  | [], x, h => by simp [visitLAndExp_each] at h
  | c :: rest, x, h => by
    rw [visitLAndExp_each, List.mem_cons] at h
    rcases h with h | h
    · exact visitLAndExp_root c x h.symm
    · exact visitLAndExp_each_root rest x h
theorem visitLAndExp_root : ∀ (e : LAndExpContext) (v : ast_node),
    visitLAndExp e = some v → is_expr_tag v.node_type = true
  | LAndExpContext.mk operands ops, v, h => by
    rw [visitLAndExp] at h
    refine visit_binary_level_preserves (fun x => is_expr_tag x.node_type = true) _ _
      (visitEqExp_each_root operands) ?_ v h
    intro op hop l r
    obtain ⟨o, _, rfl⟩ := List.mem_map.mp hop
    cases o; rfl
theorem visitEqExp_each_root : ∀ (l : List EqExpContext) (x : ast_node),
    some x ∈ visitEqExp_each l → is_expr_tag x.node_type = true
  | [], x, h => by simp [visitEqExp_each] at h
  | c :: rest, x, h => by
    rw [visitEqExp_each, List.mem_cons] at h
    rcases h with h | h
    · exact visitEqExp_root c x h.symm
    · exact visitEqExp_each_root rest x h
theorem visitEqExp_root : ∀ (e : EqExpContext) (v : ast_node),
    visitEqExp e = some v → is_expr_tag v.node_type = true
  | EqExpContext.mk operands ops, v, h => by
    rw [visitEqExp] at h
    refine visit_binary_level_preserves (fun x => is_expr_tag x.node_type = true) _ _
      (visitRelExp_each_root operands) ?_ v h
    intro op hop l r
    obtain ⟨o, _, rfl⟩ := List.mem_map.mp hop
    cases o <;> rfl
theorem visitRelExp_each_root : ∀ (l : List RelExpContext) (x : ast_node),
    some x ∈ visitRelExp_each l → is_expr_tag x.node_type = true
  | [], x, h => by simp [visitRelExp_each] at h
  | c :: rest, x, h => by
    rw [visitRelExp_each, List.mem_cons] at h
    rcases h with h | h
    · exact visitRelExp_root c x h.symm
    · exact visitRelExp_each_root rest x h
theorem visitRelExp_root : ∀ (e : RelExpContext) (v : ast_node),
    visitRelExp e = some v → is_expr_tag v.node_type = true
  | RelExpContext.mk operands ops, v, h => by
    rw [visitRelExp] at h
    refine visit_binary_level_preserves (fun x => is_expr_tag x.node_type = true) _ _
      (visitAddExp_each_root operands) ?_ v h
    intro op hop l r
    obtain ⟨o, _, rfl⟩ := List.mem_map.mp hop
    cases o <;> rfl
theorem visitAddExp_each_root : ∀ (l : List AddExpContext) (x : ast_node),
    some x ∈ visitAddExp_each l → is_expr_tag x.node_type = true
  | [], x, h => by simp [visitAddExp_each] at h
  | c :: rest, x, h => by
    rw [visitAddExp_each, List.mem_cons] at h
    rcases h with h | h
    · exact visitAddExp_root c x h.symm
    · exact visitAddExp_each_root rest x h
theorem visitAddExp_root : ∀ (e : AddExpContext) (v : ast_node),
    visitAddExp e = some v → is_expr_tag v.node_type = true
  | AddExpContext.mk operands ops, v, h => by
    rw [visitAddExp] at h
    refine visit_binary_level_preserves (fun x => is_expr_tag x.node_type = true) _ _
      (visitMulExp_each_root operands) ?_ v h
    intro op hop l r
    obtain ⟨o, _, rfl⟩ := List.mem_map.mp hop
    cases o <;> rfl
theorem visitMulExp_each_root : ∀ (l : List MulExpContext) (x : ast_node),
    some x ∈ visitMulExp_each l → is_expr_tag x.node_type = true
  | [], x, h => by simp [visitMulExp_each] at h
  | c :: rest, x, h => by
    rw [visitMulExp_each, List.mem_cons] at h
    rcases h with h | h
    · exact visitMulExp_root c x h.symm
    · exact visitMulExp_each_root rest x h
theorem visitMulExp_root : ∀ (e : MulExpContext) (v : ast_node),
    visitMulExp e = some v → is_expr_tag v.node_type = true
  | MulExpContext.mk operands ops, v, h => by
    rw [visitMulExp] at h
    refine visit_binary_level_preserves (fun x => is_expr_tag x.node_type = true) _ _
      (visitUnaryExp_each_root operands) ?_ v h
    intro op hop l r
    obtain ⟨o, _, rfl⟩ := List.mem_map.mp hop
    cases o <;> rfl
theorem visitUnaryExp_each_root : ∀ (l : List UnaryExpContext) (x : ast_node),
    some x ∈ visitUnaryExp_each l → is_expr_tag x.node_type = true
  | [], x, h => by simp [visitUnaryExp_each] at h
  | c :: rest, x, h => by
    rw [visitUnaryExp_each, List.mem_cons] at h
    rcases h with h | h
    · exact visitUnaryExp_root c x h.symm
    · exact visitUnaryExp_each_root rest x h
theorem visitUnaryExp_root : ∀ (e : UnaryExpContext) (v : ast_node),
    visitUnaryExp e = some v → is_expr_tag v.node_type = true
  | UnaryExpContext.primary p, v, h =>
    visitPrimaryExp_root p v (by rwa [visitUnaryExp] at h)
  | UnaryExpContext.call _ none, v, h => by
    rw [visitUnaryExp] at h
    have : v = _ := (Option.some.inj h).symm
    rw [this]; rfl
  | UnaryExpContext.call T_ID (some ps), v, h => by
    rw [visitUnaryExp] at h
    cases hp : visitRealParamList ps with
    | none => simp [hp] at h
    | some pl =>
      simp only [hp] at h
      have : v = _ := (Option.some.inj h).symm
      rw [this]; rfl
  | UnaryExpContext.unary op u, v, h => by
    rw [visitUnaryExp] at h
    cases hu : visitUnaryExp u with
    | none => simp [hu] at h
    | some x =>
      simp only [hu] at h
      have : v = _ := (Option.some.inj h).symm
      rw [this]
      cases op <;> rfl
theorem visitPrimaryExp_root : ∀ (e : PrimaryExpContext) (v : ast_node),
    visitPrimaryExp e = some v → is_expr_tag v.node_type = true
  | PrimaryExpContext.digit T_DIGIT, v, h => by
    rw [visitPrimaryExp] at h
    cases hs : stoull T_DIGIT with
    | none => simp [hs] at h
    | some val =>
      simp only [hs] at h
      have : v = _ := (Option.some.inj h).symm
      rw [this]; rfl
  | PrimaryExpContext.lval l, v, h => visitLVal_root l v (by rwa [visitPrimaryExp] at h)
  | PrimaryExpContext.paren e, v, h => visitExpr_root e v (by rwa [visitPrimaryExp] at h)
theorem visitLVal_root : ∀ (e : LValContext) (v : ast_node),
    visitLVal e = some v → is_expr_tag v.node_type = true
  | LValContext.mk T_ID exprs, v, h => by
    rw [visitLVal] at h
    exact visitLVal_loop_root _ _ (ast_node.New_id T_ID.text (T_ID.line : Int)) v rfl h
end

theorem visitInitVal_braces_eq (vals : List InitValContext) (nodes : List ast_node)
    (h : vals.map visitInitVal = nodes.map some) :
    visitInitVal (InitValContext.braces vals) = some (ast_node.New AST_OP_ARRAY_INIT nodes) := by
  rw [visitInitVal, visitInitVal_each_eq, h]
  simp [create_contain_node, ast_node.New, insert_visited_map_some]

theorem visitInitVal_braces_inv (vals : List InitValContext) (v : ast_node)
    (h : visitInitVal (InitValContext.braces vals) = some v) :
    ∃ nodes : List ast_node, visitInitVal_each vals = nodes.map some ∧
      v = ast_node.New AST_OP_ARRAY_INIT nodes := by
  rw [visitInitVal] at h
  obtain ⟨nodes, hl, hv⟩ := insert_visited_inv _ _ _ _ _ _ _ v h
  exact ⟨nodes, hl, by simpa [ast_node.New] using hv⟩

theorem array_init_depth_of_expr_tag (v : ast_node) (h : is_expr_tag v.node_type = true) :
    array_init_depth v = 0 := by
  cases v with
  | mk op ln ty iv n sons =>
    have hop : op ≠ AST_OP_ARRAY_INIT := by
      intro he; subst he; simp [ast_node.node_type, is_expr_tag] at h
    simp [array_init_depth, hop]

mutual
theorem visitInitVal_depth : ∀ (iv : InitValContext) (v : ast_node),
    visitInitVal iv = some v → array_init_depth v = brace_depth iv
  | InitValContext.expr e, v, h => by
    rw [visitInitVal] at h
    rw [array_init_depth_of_expr_tag v (visitExpr_root e v h), brace_depth]
  | InitValContext.braces vals, v, h => by
    obtain ⟨nodes, hl, hv⟩ := visitInitVal_braces_inv vals v h
    have := visitInitVal_each_depth vals nodes hl
    rw [hv, brace_depth]
    simp [ast_node.New, array_init_depth, this]
theorem visitInitVal_each_depth : ∀ (vals : List InitValContext) (nodes : List ast_node),
    visitInitVal_each vals = nodes.map some →
    array_init_depth_max nodes = brace_depth_max vals
  | [], [], _ => rfl
  | [], _ :: _, h => by simp [visitInitVal_each] at h
  | _ :: _, [], h => by simp [visitInitVal_each] at h
  | c :: rest, x :: nodes, h => by
    simp only [visitInitVal_each, List.map_cons, List.cons.injEq] at h
    rw [array_init_depth_max, brace_depth_max, visitInitVal_depth c x h.1,
      visitInitVal_each_depth rest nodes h.2]
end

/-! ## Lemmas on the IR values -/

theorem setInitVal_inBSSSection (g : GlobalVariable) (c : ConstInt) :
    (g.setInitVal c).inBSSSection = (if c.val ≠ 0 then false else g.inBSSSection) := by
  unfold GlobalVariable.setInitVal
  by_cases h : c.val = 0 <;> simp [h]

theorem setInitVal_initVal (g : GlobalVariable) (c : ConstInt) :
    (g.setInitVal c).initVal = (if c.val ≠ 0 then some c else g.initVal) := by
  unfold GlobalVariable.setInitVal
  by_cases h : c.val = 0 <;> simp [h]

theorem call_keeps_outside_bss (g : GlobalVariable) (c : GlobalVariableCall)
    (h : g.inBSSSection = false) : (g.call c).inBSSSection = false := by
  cases c with
  | setInitVal init =>
    simp only [GlobalVariable.call, setInitVal_inBSSSection]
    by_cases hz : init.val = 0 <;> simp [hz, h]
  | setLoadRegId regId => simpa [GlobalVariable.call, GlobalVariable.setLoadRegId] using h

theorem call_keeps_bss_rule (g : GlobalVariable) (c : GlobalVariableCall)
    (h : g.inBSSSection = g.bss_rule) : (g.call c).inBSSSection = (g.call c).bss_rule := by
  cases c with
  | setInitVal init =>
    simp only [GlobalVariable.call, GlobalVariable.bss_rule, setInitVal_inBSSSection,
      setInitVal_initVal]
    by_cases hz : init.val = 0
    · simpa [hz, GlobalVariable.bss_rule] using h
    · simp [hz]
  | setLoadRegId regId =>
    simpa [GlobalVariable.call, GlobalVariable.setLoadRegId, GlobalVariable.bss_rule] using h

/-- The BSS rule holds in every state reached from a construction without
initializer or with an initializer of value 0. -/
theorem bss_rule_of_sound_construction (_type : Ty) (_name : String) (_init : Option ConstInt)
    (hinit : ∀ c, _init = some c → c.val = 0) (cs : List GlobalVariableCall) :
    ((GlobalVariable.ctor _type _name _init).calls cs).isInBSSSection =
      ((GlobalVariable.ctor _type _name _init).calls cs).bss_rule := by
  have key : ∀ (cs : List GlobalVariableCall) (g : GlobalVariable),
      g.inBSSSection = g.bss_rule → (g.calls cs).inBSSSection = (g.calls cs).bss_rule := by
    intro cs
    induction cs with
    | nil => intro g hg; exact hg
    | cons c cs ih =>
      intro g hg
      exact ih (g.call c) (call_keeps_bss_rule g c hg)
  apply key
  cases _init with
  | none => rfl
  | some c =>
    have := hinit c rfl
    simp [GlobalVariable.ctor, GlobalVariable.bss_rule, this]

/-! ## Lemmas on formal parameters, statements and compile units -/

theorem set_type_sons (node : ast_node) (ty : Ty) : (node.set_type ty).sons = node.sons := by
  cases node; rfl

theorem set_type_node_type (node : ast_node) (ty : Ty) :
    (node.set_type ty).node_type = node.node_type := by
  cases node; rfl

theorem visitFuncFParam_sons (ctx : FuncFParamContext) (vs : List ast_node)
    (hvs : ctx.dims.map visitExpr = vs.map some) :
    ∃ param : ast_node, visitFuncFParam ctx = some param ∧
      param.node_type = AST_OP_FUNC_FORMAL_PARAM ∧
      param.sons = formal_param_sons (visitBasicType ctx.basicType) ctx.T_ID
        ctx.T_L_BRACKET vs := by
  unfold visitFuncFParam
  by_cases hb : ctx.T_L_BRACKET = true
  · simp only [create_type_node_type, hb, if_true, visitExpr_each_eq, hvs,
      visitFuncFParam_dims_map_some]
    refine ⟨_, rfl, ?_, ?_⟩
    · rw [set_type_node_type]
      have hstep : (ast_node.New AST_OP_FUNC_FORMAL_PARAM
          [create_type_node (visitBasicType ctx.basicType),
            ast_node.New_id ctx.T_ID.text (ctx.T_ID.line : Int)]).insert_son_node
          (some (create_contain_node AST_OP_ARRAY_DIM
            [some (ast_node.New_digit 0 (ctx.T_ID.line : Int))])) =
          ast_node.mk AST_OP_FUNC_FORMAL_PARAM (-1) none 0 ""
            ([create_type_node (visitBasicType ctx.basicType),
              ast_node.New_id ctx.T_ID.text (ctx.T_ID.line : Int)] ++
              [array_dim (ast_node.New_digit 0 (ctx.T_ID.line : Int))]) := rfl
      rw [hstep, foldl_insert_son_node]
      rfl
    · rw [set_type_sons]
      have hstep : (ast_node.New AST_OP_FUNC_FORMAL_PARAM
          [create_type_node (visitBasicType ctx.basicType),
            ast_node.New_id ctx.T_ID.text (ctx.T_ID.line : Int)]).insert_son_node
          (some (create_contain_node AST_OP_ARRAY_DIM
            [some (ast_node.New_digit 0 (ctx.T_ID.line : Int))])) =
          ast_node.mk AST_OP_FUNC_FORMAL_PARAM (-1) none 0 ""
            ([create_type_node (visitBasicType ctx.basicType),
              ast_node.New_id ctx.T_ID.text (ctx.T_ID.line : Int)] ++
              [array_dim (ast_node.New_digit 0 (ctx.T_ID.line : Int))]) := rfl
      rw [hstep, foldl_insert_son_node]
      simp [formal_param_sons, ast_node.sons]
  · simp only [create_type_node_type, hb]
    refine ⟨_, rfl, ?_, ?_⟩
    · rw [set_type_node_type]; rfl
    · rw [set_type_sons]
      simp [formal_param_sons, hb, ast_node.sons, ast_node.New]

theorem visitStmt_each_length : ∀ (l : List StmtContext),
    (visitStmt_each l).length = l.length
  | [] => rfl
  | _ :: rest => by rw [visitStmt_each, List.length_cons, visitStmt_each_length rest,
      List.length_cons]

theorem insert_visited_ptr_map_some (rs : List (Option ast_node)) :
    ∀ (t : ast_operator_type) (l : Int) (ty : Option Ty) (v : Nat) (n : String)
      (s : List ast_node),
    insert_visited_ptr (ast_node.mk t l ty v n s) (rs.map some) =
      some (ast_node.mk t l ty v n (s ++ rs.reduceOption)) := by
  induction rs with
  | nil => intro t l ty v n s; simp [insert_visited_ptr]
  | cons r rest ih =>
    intro t l ty v n s
    cases r with
    | none =>
      have hstep : (ast_node.mk t l ty v n s).insert_son_node none = ast_node.mk t l ty v n s :=
        rfl
      rw [List.map_cons, insert_visited_ptr, hstep, ih]
      simp [List.reduceOption_cons_of_none]
    | some x =>
      have hstep : (ast_node.mk t l ty v n s).insert_son_node (some x) =
          ast_node.mk t l ty v n (s ++ [x]) := rfl
      rw [List.map_cons, insert_visited_ptr, hstep, ih]
      simp [List.reduceOption_cons_of_some]

theorem visitCond_total (c : CondContext) (h : well_formed_cond c = true) :
    ∃ v, visitCond c = some v :=
  visitLOrExp_total c.lOrExp h

theorem visitVarDecl_total (ctx : VarDeclContext) (h : well_formed_varDecl ctx = true) :
    ∃ v, visitVarDecl ctx = some v := by
  obtain ⟨decls, hstmt, _⟩ := visitVarDecl_structure ctx h
  exact ⟨_, hstmt⟩

mutual
theorem visitStmt_total : ∀ (s : StmtContext), well_formed_stmt s = true →
    ∃ r, visitStmt s = some r
  | StmtContext.assignStatement lVal expr, h => by
    simp only [well_formed_stmt, Bool.and_eq_true] at h
    obtain ⟨l, hl⟩ := visitLVal_total lVal h.1
    obtain ⟨e, he⟩ := visitExpr_total expr h.2
    simp [visitStmt, visitAssignStatement, hl, he]
  | StmtContext.returnStatement none, _ => ⟨_, rfl⟩
  | StmtContext.returnStatement (some e), h => by
    obtain ⟨v, hv⟩ := visitExpr_total e (by simpa [well_formed_stmt, well_formed_expr_opt] using h)
    simp [visitStmt, visitReturnStatement, hv]
  | StmtContext.blockStatement block, h => by
    obtain ⟨v, hv⟩ := visitBlock_total block (by simpa [well_formed_stmt] using h)
    exact ⟨_, by rw [visitStmt, hv]⟩
  | StmtContext.expressionStatement none, _ => ⟨_, rfl⟩
  | StmtContext.expressionStatement (some e), h => by
    obtain ⟨v, hv⟩ := visitExpr_total e (by simpa [well_formed_stmt, well_formed_expr_opt] using h)
    simp [visitStmt, visitExpressionStatement, hv]
  | StmtContext.ifStatement ifStmt, h => by
    obtain ⟨v, hv⟩ := visitIfStmt_total ifStmt (by simpa [well_formed_stmt] using h)
    exact ⟨_, by rw [visitStmt, hv]⟩
  | StmtContext.whileStatement whileStmt, h => by
    obtain ⟨v, hv⟩ := visitWhileStmt_total whileStmt (by simpa [well_formed_stmt] using h)
    exact ⟨_, by rw [visitStmt, hv]⟩
  | StmtContext.breakStatement, _ => ⟨_, rfl⟩
  | StmtContext.continueStatement, _ => ⟨_, rfl⟩
theorem visitStmt_each_total : ∀ (l : List StmtContext), well_formed_stmts l = true →
    ∃ rs : List (Option ast_node), visitStmt_each l = rs.map some
  | [], _ => ⟨[], rfl⟩
  | c :: rest, h => by
    simp only [well_formed_stmts, Bool.and_eq_true] at h
    obtain ⟨r, hr⟩ := visitStmt_total c h.1
    obtain ⟨rs, hrs⟩ := visitStmt_each_total rest h.2
    exact ⟨r :: rs, by simp [visitStmt_each, hr, hrs]⟩
theorem visitBlock_total : ∀ (b : BlockContext), well_formed_block b = true →
    ∃ v : ast_node, visitBlock b = some (some v)
  | BlockContext.mk none, _ => ⟨_, rfl⟩
  | BlockContext.mk (some l), h => by
    obtain ⟨v, hv⟩ := visitBlockItemList_total l (by simpa [well_formed_block] using h)
    exact ⟨v, by rw [visitBlock, hv]⟩
theorem visitBlockItemList_total : ∀ (l : BlockItemListContext),
    well_formed_blockItemList l = true → ∃ v : ast_node, visitBlockItemList l = some (some v)
  | BlockItemListContext.mk items, h => by
    simp only [well_formed_blockItemList, Bool.and_eq_true] at h
    obtain ⟨rs, hrs⟩ := visitBlockItem_each_total items h.2
    have hbase : create_contain_node AST_OP_BLOCK [] =
        ast_node.mk AST_OP_BLOCK (-1) none 0 "" [] := rfl
    exact ⟨_, by rw [visitBlockItemList, hrs, hbase, insert_visited_ptr_map_some]⟩
theorem visitBlockItem_each_total : ∀ (l : List BlockItemContext),
    well_formed_blockItems l = true →
    ∃ rs : List (Option ast_node), visitBlockItem_each l = rs.map some
  | [], _ => ⟨[], rfl⟩
  | c :: rest, h => by
    simp only [well_formed_blockItems, Bool.and_eq_true] at h
    obtain ⟨r, hr⟩ := visitBlockItem_total c h.1
    obtain ⟨rs, hrs⟩ := visitBlockItem_each_total rest h.2
    exact ⟨r :: rs, by simp [visitBlockItem_each, hr, hrs]⟩
theorem visitBlockItem_total : ∀ (i : BlockItemContext), well_formed_blockItem i = true →
    ∃ r, visitBlockItem i = some r
  | BlockItemContext.stmt s, h => by
    obtain ⟨r, hr⟩ := visitStmt_total s (by simpa [well_formed_blockItem] using h)
    exact ⟨r, by rw [visitBlockItem, hr]⟩
  | BlockItemContext.varDecl v, h => by
    obtain ⟨r, hr⟩ := visitVarDecl_total v (by simpa [well_formed_blockItem] using h)
    simp [visitBlockItem, hr]
theorem visitIfStmt_total : ∀ (i : IfStmtContext), well_formed_ifStmt i = true →
    ∃ v : ast_node, visitIfStmt i = some (some v)
  | IfStmtContext.mk cond stmt T_ELSE, h => by
    simp only [well_formed_ifStmt, Bool.and_eq_true, decide_eq_true_eq] at h
    obtain ⟨⟨hc, hlen⟩, hs⟩ := h
    obtain ⟨c, hcv⟩ := visitCond_total cond hc
    obtain ⟨rs, hrs⟩ := visitStmt_each_total stmt hs
    have hl : rs.length = stmt.length := by
      have := congrArg List.length hrs
      simp [visitStmt_each_length] at this
      exact this.symm
    rw [visitIfStmt, hrs, hcv]
    cases T_ELSE with
    | false =>
      match rs, hl with
      | [r], _ => exact ⟨_, rfl⟩
      | [], hl => simp [hlen] at hl
      | _ :: _ :: _, hl => simp [hlen] at hl
    | true =>
      match rs, hl with
      | [r, e], _ => exact ⟨_, rfl⟩
      | [], hl => simp [hlen] at hl
      | [_], hl => simp [hlen] at hl
      | _ :: _ :: _ :: _, hl => simp [hlen] at hl
theorem visitWhileStmt_total : ∀ (w : WhileStmtContext), well_formed_whileStmt w = true →
    ∃ v : ast_node, visitWhileStmt w = some (some v)
  | WhileStmtContext.mk cond stmt, h => by
    simp only [well_formed_whileStmt, Bool.and_eq_true] at h
    obtain ⟨c, hc⟩ := visitCond_total cond h.1
    obtain ⟨r, hr⟩ := visitStmt_total stmt h.2
    simp [visitWhileStmt, hc, hr]
end

theorem visitStmt_not_null (s : StmtContext) (h : well_formed_stmt s = true)
    (he : is_empty_statement s = false) : ∃ node : ast_node, visitStmt s = some (some node) := by
  cases s with
  | assignStatement lVal expr =>
    simp only [well_formed_stmt, Bool.and_eq_true] at h
    obtain ⟨l, hl⟩ := visitLVal_total lVal h.1
    obtain ⟨e, hx⟩ := visitExpr_total expr h.2
    simp [visitStmt, visitAssignStatement, hl, hx]
  | returnStatement expr =>
    cases expr with
    | none => exact ⟨_, rfl⟩
    | some e =>
      obtain ⟨v, hv⟩ := visitExpr_total e
        (by simpa [well_formed_stmt, well_formed_expr_opt] using h)
      simp [visitStmt, visitReturnStatement, hv]
  | blockStatement block =>
    obtain ⟨v, hv⟩ := visitBlock_total block (by simpa [well_formed_stmt] using h)
    exact ⟨v, by rw [visitStmt, hv]⟩
  | expressionStatement expr =>
    cases expr with
    | none => simp [is_empty_statement] at he
    | some e =>
      obtain ⟨v, hv⟩ := visitExpr_total e
        (by simpa [well_formed_stmt, well_formed_expr_opt] using h)
      simp [visitStmt, visitExpressionStatement, hv]
  | ifStatement ifStmt =>
    obtain ⟨v, hv⟩ := visitIfStmt_total ifStmt (by simpa [well_formed_stmt] using h)
    exact ⟨v, by rw [visitStmt, hv]⟩
  | whileStatement whileStmt =>
    obtain ⟨v, hv⟩ := visitWhileStmt_total whileStmt (by simpa [well_formed_stmt] using h)
    exact ⟨v, by rw [visitStmt, hv]⟩
  | breakStatement => exact ⟨_, rfl⟩
  | continueStatement => exact ⟨_, rfl⟩

theorem map_some_of_total {α : Type} (f : α → Option ast_node) : ∀ (l : List α),
    (∀ x ∈ l, ∃ v, f x = some v) → ∃ vs : List ast_node, l.map f = vs.map some
  | [], _ => ⟨[], rfl⟩
  | x :: rest, h => by
    obtain ⟨v, hv⟩ := h x (List.mem_cons_self x rest)
    obtain ⟨vs, hvs⟩ := map_some_of_total f rest
      (fun y hy => h y (List.mem_cons_of_mem x hy))
    exact ⟨v :: vs, by simp [hv, hvs]⟩

theorem visitFuncFParam_total (ctx : FuncFParamContext)
    (h : well_formed_funcFParam ctx = true) : ∃ v, visitFuncFParam ctx = some v := by
  obtain ⟨vs, hvs⟩ := visitExpr_map_total ctx.dims h
  obtain ⟨param, hp, _⟩ := visitFuncFParam_sons ctx vs hvs
  exact ⟨param, hp⟩

theorem visitFuncFParams_total (ctx : FuncFParamsContext)
    (h : ctx.funcFParam.all well_formed_funcFParam = true) :
    ∃ v, visitFuncFParams ctx = some v := by
  obtain ⟨ps, hps⟩ := map_some_of_total visitFuncFParam ctx.funcFParam
    (fun p hp => visitFuncFParam_total p (List.all_eq_true.mp h p hp))
  rw [visitFuncFParams, hps]
  exact insert_visited_some ps _

theorem visitFuncDef_total
    (create_func_def : type_attr → var_id_attr → ast_node → Option ast_node → ast_node)
    (ctx : FuncDefContext) (h : well_formed_funcDef ctx = true) :
    ∃ v, visitFuncDef create_func_def ctx = some v := by
  simp only [well_formed_funcDef, Bool.and_eq_true] at h
  obtain ⟨hp, hb⟩ := h
  obtain ⟨blockNode, hblock⟩ := visitBlock_total ctx.block hb
  unfold visitFuncDef
  cases hparams : ctx.funcFParams with
  | none => simp [hblock]
  | some funcFParams =>
    rw [hparams] at hp
    simp only [Bool.and_eq_true] at hp
    obtain ⟨formalParamsNode, hf⟩ := visitFuncFParams_total funcFParams hp.2
    simp [hblock, hf]

theorem visitCompileUnit_eq
    (create_func_def : type_attr → var_id_attr → ast_node → Option ast_node → ast_node)
    (ctx : CompileUnitContext) (decls funcs : List ast_node)
    (hd : ctx.varDecl.map visitVarDecl = decls.map some)
    (hf : ctx.funcDef.map (visitFuncDef create_func_def) = funcs.map some) :
    visitCompileUnit create_func_def ctx =
      some (ast_node.mk AST_OP_COMPILE_UNIT (-1) none 0 "" (decls ++ funcs)) := by
  have hbase : create_contain_node AST_OP_COMPILE_UNIT [] =
      ast_node.mk AST_OP_COMPILE_UNIT (-1) none 0 "" [] := rfl
  rw [visitCompileUnit, hd, hbase, insert_visited_map_some]
  simp only [hf, insert_visited_map_some, List.nil_append]

theorem length_varDecl_add_length_funcDef (ctx : CompileUnitContext) :
    ctx.varDecl.length + ctx.funcDef.length = ctx.items.length := by
  unfold CompileUnitContext.varDecl CompileUnitContext.funcDef
  induction ctx.items with
  | nil => rfl
  | cons item rest ih =>
    cases item with
    | funcDef f =>
      simp only [List.filterMap_cons, List.length_cons]
      omega
    | varDecl v =>
      simp only [List.filterMap_cons, List.length_cons]
      omega

theorem fold_binary_checked_eq (op : ast_operator_type) (a b : Nat)
    (h : is_arith_op op = true) :
    fold_binary_checked op a b = some (fold_binary op a b) := by
  cases op <;> simp [is_arith_op] at h
  all_goals simp only [fold_binary_checked, fold_binary, machine_binary, Option.map]
  all_goals split <;> rfl

theorem calculate_const_dim_size_checked_eq : ∀ (t : ast_node),
    calculate_const_dim_size_checked t = some (calculate_const_dim_size t)
  | ast_node.mk op line ty iv n sons => by
    match sons with
    | [] =>
      cases op <;> simp [calculate_const_dim_size_checked, calculate_const_dim_size]
    | [_] =>
      cases op <;> simp [calculate_const_dim_size_checked, calculate_const_dim_size]
    | _ :: _ :: _ :: _ =>
      cases op <;> simp [calculate_const_dim_size_checked, calculate_const_dim_size]
    | [l, r] =>
      have hl := calculate_const_dim_size_checked_eq l
      have hr := calculate_const_dim_size_checked_eq r
      by_cases hop : is_arith_op op = true
      · have hc : calculate_const_dim_size_checked (ast_node.mk op line ty iv n [l, r]) =
            match calculate_const_dim_size l, calculate_const_dim_size r with
            | some left_val, some right_val => fold_binary_checked op left_val right_val
            | _, _ => some none := by
          cases op <;> simp [is_arith_op] at hop
          all_goals simp [calculate_const_dim_size_checked,
            calculate_const_dim_size_checked_sons, vector_at, hl, hr]
        have hu : calculate_const_dim_size (ast_node.mk op line ty iv n [l, r]) =
            match calculate_const_dim_size l, calculate_const_dim_size r with
            | some left_val, some right_val => fold_binary op left_val right_val
            | _, _ => none := by
          cases op <;> simp [is_arith_op] at hop
          all_goals simp [calculate_const_dim_size]
        rw [hc, hu]
        cases calculate_const_dim_size l with
        | none => rfl
        | some a =>
          cases calculate_const_dim_size r with
          | none => rfl
          | some b => exact fold_binary_checked_eq op a b hop
      · cases op <;> simp [is_arith_op] at hop
        all_goals simp [calculate_const_dim_size_checked, calculate_const_dim_size]

theorem calculate_one_son (op : ast_operator_type) (line : Int) (ty : Option Ty) (iv : Nat)
    (n : String) (e : ast_node) (h : op ≠ AST_OP_LEAF_LITERAL_UINT) :
    calculate_const_dim_size (ast_node.mk op line ty iv n [e]) = none := by
  cases op <;> simp [calculate_const_dim_size] at h ⊢

theorem arith_only_subtrees : ∀ (t : ast_node), arith_only t = true →
    ∀ s ∈ subtrees t, s.sons.length ≠ 1
  | ast_node.mk op line ty iv n sons => by
    intro ha s hs
    match sons, ha, hs with
    | [], _, hs =>
      simp only [subtrees, subtrees_list, List.mem_singleton] at hs
      subst hs
      simp [ast_node.sons]
    | [l, r], ha, hs =>
      have ha2 : is_arith_op op = true ∧ arith_only l = true ∧ arith_only r = true := by
        cases op <;> simp_all [arith_only, is_arith_op]
      simp only [subtrees, subtrees_list, List.mem_cons, List.mem_append, List.append_nil] at hs
      rcases hs with hs | hs | hs
      · subst hs
        simp [ast_node.sons]
      · exact arith_only_subtrees l ha2.2.1 s hs
      · exact arith_only_subtrees r ha2.2.2 s hs
    | [_], ha, _ => cases op <;> simp [arith_only] at ha
    | _ :: _ :: _ :: _, ha, _ => cases op <;> simp [arith_only] at ha

theorem calculate_none_of_one_son (t s : ast_node) (hl : literal_leaves t = true)
    (hs : s ∈ subtrees t) (h1 : s.sons.length = 1) : calculate_const_dim_size t = none := by
  cases hc : calculate_const_dim_size t with
  | none => rfl
  | some v =>
    exact absurd h1 (arith_only_subtrees t (arith_only_of_calculate t v hl hc).1 s hs)

theorem layer_size_of_zero (v : ast_node) (h : calculate_const_dim_size v = some 0) :
    layer_size v = none := by
  simp [layer_size, h]

theorem folded_dim_of_zero (line : Int) (v : ast_node)
    (h : calculate_const_dim_size v = some 0) :
    folded_dim line v = array_dim (ast_node.New_digit 0 line) := by
  simp [folded_dim, h]

theorem filterMap_layer_size_eraseIdx : ∀ (vs : List ast_node) (i : Nat) (v : ast_node),
    vs.get? i = some v → layer_size v = none →
    (vs.eraseIdx i).filterMap layer_size = vs.filterMap layer_size
  | [], _, _, h, _ => by simp at h
  | x :: rest, 0, v, h, hn => by
    have hx : x = v := by simpa using h
    subst hx
    simp [List.filterMap_cons, hn]
  | x :: rest, i + 1, v, h, hn => by
    have hr : rest.get? i = some v := by simpa using h
    have ih := filterMap_layer_size_eraseIdx rest i v hr hn
    simp only [List.eraseIdx_cons_succ, List.filterMap_cons, ih]

theorem length_filterMap_layer_size_eq : ∀ (vs : List ast_node),
    (vs.filterMap layer_size).length = vs.countP folds_to_nonzero
  | [] => rfl
  | x :: rest => by
    have ih := length_filterMap_layer_size_eq rest
    cases hc : calculate_const_dim_size x with
    | none => simp [List.filterMap_cons, layer_size, folds_to_nonzero, hc, ih, List.countP_cons]
    | some n =>
      by_cases hn : n = 0
      · simp [List.filterMap_cons, layer_size, folds_to_nonzero, hc, hn, ih, List.countP_cons]
      · simp [List.filterMap_cons, layer_size, folds_to_nonzero, hc, hn, ih, List.countP_cons]

/-! ## Lemmas on printed instructions -/

theorem string_append_left_cancel (a b c : String) (h : a ++ b = a ++ c) : b = c := by
  have hd := congrArg String.data h
  rw [String.data_append, String.data_append] at hd
  exact String.ext (List.append_cancel_left hd)

theorem string_append_right_cancel (a b c : String) (h : a ++ c = b ++ c) : a = b := by
  have hd := congrArg String.data h
  rw [String.data_append, String.data_append] at hd
  exact String.ext (List.append_cancel_right hd)

theorem toString_of_binary_mnemonic
    (Instruction_toString : BinaryInstruction → String → String) (inst : BinaryInstruction)
    (str m : String) (a b : Value) (hm : binary_mnemonic inst.op = some m)
    (ha : inst.getOperand 0 = some a) (hb : inst.getOperand 1 = some b) :
    inst.toString Instruction_toString str =
      some (inst.IRName ++ ((" = " ++ m ++ " ") ++ (a.IRName ++ (", " ++ b.IRName)))) := by
  unfold BinaryInstruction.toString
  rw [ha, hb]
  cases hop : inst.op <;> rw [hop] at hm <;> simp [binary_mnemonic] at hm <;> subst hm <;>
    simp [String.append_assoc]

theorem binary_mnemonic_recovers (op : IRInstOperator) (m : String)
    (hm : binary_mnemonic op = some m) : operator_of_mnemonic m = some op := by
  cases op <;> simp [binary_mnemonic] at hm <;> subst hm <;> decide

/-- Child order of the statement nodes on parse trees of the grammar of the
specification: `Assign` has the children `[lvalue, expression]`; for a body and
branches that are not the empty statement, `While` has `[cond, body]` and `If`
has `[cond, then]` without `else` and `[cond, then, else]` with it. -/
theorem visit_statement_sons :
    (∀ (lVal : LValContext) (expr : ExprContext),
      well_formed_lVal lVal = true → well_formed_expr expr = true →
      ∃ l e : ast_node, visitLVal lVal = some l ∧ visitExpr expr = some e ∧
        visitAssignStatement lVal expr =
          some (ast_node.mk AST_OP_ASSIGN (-1) none 0 "" [l, e])) ∧
    (∀ (cond : CondContext) (stmt : StmtContext),
      well_formed_whileStmt (WhileStmtContext.mk cond stmt) = true →
      is_empty_statement stmt = false →
      ∃ c body : ast_node, visitCond cond = some c ∧ visitStmt stmt = some (some body) ∧
        visitWhileStmt (WhileStmtContext.mk cond stmt) =
          some (some (ast_node.mk AST_OP_WHILE (-1) none 0 "" [c, body]))) ∧
    (∀ (cond : CondContext) (then_stmt : StmtContext),
      well_formed_ifStmt (IfStmtContext.mk cond [then_stmt] false) = true →
      is_empty_statement then_stmt = false →
      ∃ c t : ast_node, visitCond cond = some c ∧ visitStmt then_stmt = some (some t) ∧
        visitIfStmt (IfStmtContext.mk cond [then_stmt] false) =
          some (some (ast_node.mk AST_OP_IF (-1) none 0 "" [c, t]))) ∧
    (∀ (cond : CondContext) (then_stmt else_stmt : StmtContext),
      well_formed_ifStmt (IfStmtContext.mk cond [then_stmt, else_stmt] true) = true →
      is_empty_statement then_stmt = false → is_empty_statement else_stmt = false →
      ∃ c t e : ast_node, visitCond cond = some c ∧ visitStmt then_stmt = some (some t) ∧
        visitStmt else_stmt = some (some e) ∧
        visitIfStmt (IfStmtContext.mk cond [then_stmt, else_stmt] true) =
          some (some (ast_node.mk AST_OP_IF (-1) none 0 "" [c, t, e]))) := by
  refine ⟨?_, ?_, ?_, ?_⟩
  · intro lVal expr hl he
    obtain ⟨l, hlv⟩ := visitLVal_total lVal hl
    obtain ⟨e, hev⟩ := visitExpr_total expr he
    exact ⟨l, e, hlv, hev, by rw [visitAssignStatement, hlv, hev]; rfl⟩
  · intro cond stmt h hne
    simp only [well_formed_whileStmt, Bool.and_eq_true] at h
    obtain ⟨c, hc⟩ := visitCond_total cond h.1
    obtain ⟨body, hb⟩ := visitStmt_not_null stmt h.2 hne
    exact ⟨c, body, hc, hb, by rw [visitWhileStmt, hc, hb]; rfl⟩
  · intro cond then_stmt h hne
    simp only [well_formed_ifStmt, well_formed_stmts, Bool.and_eq_true, Bool.and_true] at h
    obtain ⟨c, hc⟩ := visitCond_total cond h.1.1
    obtain ⟨t, ht⟩ := visitStmt_not_null then_stmt h.2 hne
    exact ⟨c, t, hc, ht, by rw [visitIfStmt, visitStmt_each, visitStmt_each, hc, ht]; rfl⟩
  · intro cond then_stmt else_stmt h hne1 hne2
    simp only [well_formed_ifStmt, well_formed_stmts, Bool.and_eq_true, Bool.and_true] at h
    obtain ⟨c, hc⟩ := visitCond_total cond h.1.1
    obtain ⟨t, ht⟩ := visitStmt_not_null then_stmt h.2.1 hne1
    obtain ⟨e, he⟩ := visitStmt_not_null else_stmt h.2.2 hne2
    exact ⟨c, t, e, hc, ht, he, by
      rw [visitIfStmt, visitStmt_each, visitStmt_each, visitStmt_each, hc, ht, he]; rfl⟩

/-! ## The claims -/

/-- C2: on every parse tree of the grammar whose integer literals are in the
range of `stoull`, `visitExpr` returns an AST (for a literal of `2^64` the
conversion throws and there is no AST to speak of), and the visitor respects
precedence. At every binary level the right child
of the node it creates is the visit of the next-tighter level and the left
child is the visit, at the same level, of what precedes, the levels being
chained `||`, `&&`, equality, relational, `+ -`, `* / %` from loosest to
tightest; a parenthesised expression contributes the AST of its inner
expression and nothing else. So `a + b * c` yields `Add(a, Mul(b, c))`,
`a * b + c` yields `Add(Mul(a, b), c)` and `(a + b) * c` yields
`Mul(Add(a, b), c)`. -/
theorem visitExpr_respects_precedence :
    (∀ e : ExprContext, well_formed_expr e = true → ∃ t, visitExpr e = some t) ∧
    (∀ l : LOrExpContext, visitExpr (ExprContext.mk l) = visitLOrExp l) ∧
    precedence_level (fun operands ops => visitLOrExp (LOrExpContext.mk operands ops))
      visitLAndExp visitLOrOp [AST_OP_OR] ∧
    precedence_level (fun operands ops => visitLAndExp (LAndExpContext.mk operands ops))
      visitEqExp visitLAndOp [AST_OP_AND] ∧
    precedence_level (fun operands ops => visitEqExp (EqExpContext.mk operands ops))
      visitRelExp visitEqOp [AST_OP_EQ, AST_OP_NE] ∧
    precedence_level (fun operands ops => visitRelExp (RelExpContext.mk operands ops))
      visitAddExp visitRelOp [AST_OP_LT, AST_OP_GT, AST_OP_LE, AST_OP_GE] ∧
    precedence_level (fun operands ops => visitAddExp (AddExpContext.mk operands ops))
      visitMulExp visitAddOp [AST_OP_ADD, AST_OP_SUB] ∧
    precedence_level (fun operands ops => visitMulExp (MulExpContext.mk operands ops))
      visitUnaryExp visitMulOp [AST_OP_MUL, AST_OP_DIV, AST_OP_MOD] ∧
    (∀ p : PrimaryExpContext, visitUnaryExp (UnaryExpContext.primary p) = visitPrimaryExp p) ∧
    (∀ e : ExprContext, visitPrimaryExp (PrimaryExpContext.paren e) = visitExpr e) ∧
    visitExpr (cst_expr (AddExpContext.mk [cst_mul1 (cst_id "a"),
        MulExpContext.mk [cst_id "b", cst_id "c"] [MulOpContext.T_MUL]] [AddOpContext.T_ADD])) =
      some (ast_node.New AST_OP_ADD
        [ast_id "a", ast_node.New AST_OP_MUL [ast_id "b", ast_id "c"]]) ∧
    visitExpr (cst_expr (AddExpContext.mk [MulExpContext.mk [cst_id "a", cst_id "b"]
        [MulOpContext.T_MUL], cst_mul1 (cst_id "c")] [AddOpContext.T_ADD])) =
      some (ast_node.New AST_OP_ADD
        [ast_node.New AST_OP_MUL [ast_id "a", ast_id "b"], ast_id "c"]) ∧
    visitExpr (cst_expr (cst_add1 (MulExpContext.mk
        [cst_paren (cst_expr (AddExpContext.mk [cst_mul1 (cst_id "a"), cst_mul1 (cst_id "b")]
          [AddOpContext.T_ADD])), cst_id "c"] [MulOpContext.T_MUL]))) =
      some (ast_node.New AST_OP_MUL
        [ast_node.New AST_OP_ADD [ast_id "a", ast_id "b"], ast_id "c"]) ∧
    visitExpr (cst_expr_of_unary (cst_digit 18446744073709551616)) = none := by
  refine ⟨visitExpr_total, fun l => by rw [visitExpr], ?_, ?_, ?_, ?_, ?_, ?_,
    fun p => by rw [visitUnaryExp],
    fun e => by rw [visitPrimaryExp], rfl, rfl, rfl, rfl⟩
  · exact precedence_level_of_eq _ _ _ _
      (fun o p => by rw [visitLOrExp, visitLAndExp_each_eq])
      (fun op => by cases op; simp [visitLOrOp])
  · exact precedence_level_of_eq _ _ _ _
      (fun o p => by rw [visitLAndExp, visitEqExp_each_eq])
      (fun op => by cases op; simp [visitLAndOp])
  · exact precedence_level_of_eq _ _ _ _
      (fun o p => by rw [visitEqExp, visitRelExp_each_eq])
      (fun op => by cases op <;> simp [visitEqOp])
  · exact precedence_level_of_eq _ _ _ _
      (fun o p => by rw [visitRelExp, visitAddExp_each_eq])
      (fun op => by cases op <;> simp [visitRelOp])
  · exact precedence_level_of_eq _ _ _ _
      (fun o p => by rw [visitAddExp, visitMulExp_each_eq])
      (fun op => by cases op <;> simp [visitAddOp])
  · exact precedence_level_of_eq _ _ _ _
      (fun o p => by rw [visitMulExp, visitUnaryExp_each_eq])
      (fun op => by cases op <;> simp [visitMulOp])

/-- Witness of C2: in `a + b * c` the node created at the additive level has
as right child the visit of the multiplicative operand `b * c`. -/
theorem visitExpr_respects_precedence_witness :
    visitAddExp (AddExpContext.mk ([cst_mul1 (cst_id "a")] ++
        [MulExpContext.mk [cst_id "b", cst_id "c"] [MulOpContext.T_MUL]])
        ([] ++ [AddOpContext.T_ADD])) =
      wrap_left (visitAddExp (AddExpContext.mk [cst_mul1 (cst_id "a")] []))
        (visitAddOp AddOpContext.T_ADD,
          visitMulExp (MulExpContext.mk [cst_id "b", cst_id "c"] [MulOpContext.T_MUL])) :=
  visitExpr_respects_precedence.2.2.2.2.2.2.1.2.1 [cst_mul1 (cst_id "a")] []
    (MulExpContext.mk [cst_id "b", cst_id "c"] [MulOpContext.T_MUL]) AddOpContext.T_ADD rfl
/-- C3: on an AST built only from unsigned-integer literal leaves and
two-child `+ - * / %` nodes in which no division or modulus has a right
operand evaluating to 0, `calculate_const_dim_size` returns a value, and the
value is the expression evaluated in unsigned 32-bit arithmetic. -/
theorem calculate_const_dim_size_evaluates (t : ast_node) (h_arith : arith_only t = true)
    (h_div : no_zero_divisor t = true) :
    calculate_const_dim_size t = some (eval_u32 t) :=
  calculate_of_arith_only t h_arith h_div

/-- Witness of C3: `0 - 1` folds to 4294967295. -/
theorem calculate_const_dim_size_evaluates_witness :
    arith_only (ast_node.New AST_OP_SUB [ast_node.New_digit 0 1, ast_node.New_digit 1 1]) = true ∧
    no_zero_divisor
      (ast_node.New AST_OP_SUB [ast_node.New_digit 0 1, ast_node.New_digit 1 1]) = true ∧
    calculate_const_dim_size
      (ast_node.New AST_OP_SUB [ast_node.New_digit 0 1, ast_node.New_digit 1 1]) =
      some 4294967295 :=
  ⟨rfl, rfl, calculate_const_dim_size_evaluates
    (ast_node.New AST_OP_SUB [ast_node.New_digit 0 1, ast_node.New_digit 1 1]) rfl rfl⟩

/-- C4: every AST the visitor builds for an expression has its literal nodes
as leaves, and on such an AST `calculate_const_dim_size` returns a value if
and only if the tree is built only from literal leaves and two-child
`+ - * / %` nodes with no division or modulus whose right operand folds to 0;
a node with any other tag (identifier, function call, comparison, logical
operator, array index, ...) or a division or modulus by zero anywhere in the
tree, also in the left operand of an enclosing operator, makes the whole
expression return no value. -/
theorem calculate_const_dim_size_foldable_iff :
    (∀ (e : ExprContext) (t : ast_node), visitExpr e = some t → literal_leaves t = true) ∧
    (∀ op ∈ [AST_OP_LEAF_VAR_ID, AST_OP_FUNC_CALL, AST_OP_LT, AST_OP_GT, AST_OP_LE, AST_OP_GE,
        AST_OP_EQ, AST_OP_NE, AST_OP_AND, AST_OP_OR, AST_OP_NOT, AST_OP_ARRAY_INDEX],
      unfoldable_tag op = true) ∧
    (∀ t : ast_node, literal_leaves t = true →
      ((calculate_const_dim_size t).isSome = true ↔
        (arith_only t = true ∧ no_zero_divisor t = true)) ∧
      (∀ s ∈ subtrees t, unfoldable_tag s.node_type = true ∨ divides_by_zero s = true →
        calculate_const_dim_size t = none)) := by
  refine ⟨visitExpr_literal_leaves, by decide, fun t h => ⟨⟨?_, ?_⟩, ?_⟩⟩
  · intro hs
    obtain ⟨v, hv⟩ := Option.isSome_iff_exists.mp hs
    exact arith_only_of_calculate t v h hv
  · intro ⟨ha, hz⟩
    rw [calculate_of_arith_only t ha hz]; rfl
  · intro s hs hbad
    cases hc : calculate_const_dim_size t with
    | none => rfl
    | some v =>
      have := subtrees_of_calculate t v h hc s hs
      rcases hbad with hb | hb <;> simp [this.1, this.2] at hb

/-- Witness of C4: `(1 / 0) + n` has a division by zero in the left operand of
`+`; it folds to no value. -/
theorem calculate_const_dim_size_foldable_iff_witness :
    literal_leaves (ast_node.New AST_OP_ADD
      [ast_node.New AST_OP_DIV [ast_node.New_digit 1 1, ast_node.New_digit 0 1],
        ast_id "n"]) = true ∧
    calculate_const_dim_size (ast_node.New AST_OP_ADD
      [ast_node.New AST_OP_DIV [ast_node.New_digit 1 1, ast_node.New_digit 0 1],
        ast_id "n"]) = none :=
  ⟨rfl, (calculate_const_dim_size_foldable_iff.2.2 (ast_node.New AST_OP_ADD
      [ast_node.New AST_OP_DIV [ast_node.New_digit 1 1, ast_node.New_digit 0 1],
        ast_id "n"]) rfl).2
    (ast_node.New AST_OP_DIV [ast_node.New_digit 1 1, ast_node.New_digit 0 1])
    (by simp [subtrees, subtrees_list, ast_node.New]) (Or.inr rfl)⟩
/-- C5: for every declarator of a declaration, when all its dimension
expressions are foldable, the children of its `VarDecl` node are the type
node, the identifier and then one `ArrayDim` node per dimension whose only
child is the integer-literal leaf of the dimension expression evaluated in
unsigned 32-bit arithmetic (followed by the initializer, if any). -/
theorem visitVarDecl_folds_dimensions (ctx : VarDeclContext)
    (h : well_formed_varDecl ctx = true) :
    ∃ stmt : ast_node, visitVarDecl ctx = some stmt ∧
      List.Forall₂ (fun d decl => ∃ (vs : List ast_node) (init_node : Option ast_node),
        d.expr.map visitExpr = vs.map some ∧
        d.initVal.map visitInitVal = init_node.map some ∧
        ((∀ v ∈ vs, arith_only v = true ∧ no_zero_divisor v = true) →
          decl.sons = create_type_node (visitBasicType ctx.basicType) ::
            ast_node.New_id d.T_ID.text (d.T_ID.line : Int) ::
            (vs.map (fun v => array_dim (ast_node.New_digit (eval_u32 v) (d.T_ID.line : Int)))
              ++ init_node.toList)))
        ctx.varDef stmt.sons := by
  obtain ⟨decls, hstmt, hall⟩ := visitVarDecl_structure ctx h
  refine ⟨_, hstmt, ?_⟩
  refine List.Forall₂.imp ?_ hall
  rintro d decl ⟨vs, init_node, hvs, hinit, rfl⟩
  refine ⟨vs, init_node, hvs, hinit, fun hf => ?_⟩
  simp only [var_decl_node, ast_node.sons, map_folded_dim_of_foldable _ vs hf]

/-- Witness of C5: in `int a[2+3][4];` the dimension nodes become
`ArrayDim(5)` and `ArrayDim(4)`. -/
theorem visitVarDecl_folds_dimensions_witness :
    well_formed_varDecl decl_a_2_plus_3_4 = true ∧
    (visitVarDecl decl_a_2_plus_3_4).map (fun stmt => stmt.sons.map ast_node.sons) =
      some [[create_type_node (visitBasicType cst_int), ast_node.New_id "a" 1,
        array_dim (ast_node.New_digit 5 1), array_dim (ast_node.New_digit 4 1)]] ∧
    ∃ stmt : ast_node, visitVarDecl decl_a_2_plus_3_4 = some stmt ∧
      List.Forall₂ (fun d decl => ∃ (vs : List ast_node) (init_node : Option ast_node),
        d.expr.map visitExpr = vs.map some ∧
        d.initVal.map visitInitVal = init_node.map some ∧
        ((∀ v ∈ vs, arith_only v = true ∧ no_zero_divisor v = true) →
          decl.sons = create_type_node (visitBasicType decl_a_2_plus_3_4.basicType) ::
            ast_node.New_id d.T_ID.text (d.T_ID.line : Int) ::
            (vs.map (fun v => array_dim (ast_node.New_digit (eval_u32 v) (d.T_ID.line : Int)))
              ++ init_node.toList)))
        decl_a_2_plus_3_4.varDef stmt.sons :=
  ⟨rfl, rfl, visitVarDecl_folds_dimensions decl_a_2_plus_3_4 rfl⟩

/-- C6, as amended: for every declarator whose dimension expressions fold to
`n0..n(k-1)`, the type attached to its `VarDecl` node wraps the base type, for
each dimension in reverse order whose size is not 0, as `Array(current, n)`; a
dimension folding to 0 adds no layer. When no size is 0 this is
`Array(...Array(Array(base, n(k-1)), n(k-2))..., n0)`, and with no dimension
it is the base type. -/
theorem visitVarDecl_type_of_folded_dims (ctx : VarDeclContext)
    (h : well_formed_varDecl ctx = true) :
    ∃ stmt : ast_node, visitVarDecl ctx = some stmt ∧
      List.Forall₂ (fun d decl => ∃ vs : List ast_node,
        d.expr.map visitExpr = vs.map some ∧
        ∀ ns : List Nat, vs.map calculate_const_dim_size = ns.map some →
          decl.type = some (array_type_of (base_type (visitBasicType ctx.basicType))
            (ns.filter (fun n => decide (n ≠ 0)))) ∧
          ((∀ n ∈ ns, n ≠ 0) →
            decl.type = some (array_type_of (base_type (visitBasicType ctx.basicType)) ns)))
        ctx.varDef stmt.sons := by
  obtain ⟨decls, hstmt, hall⟩ := visitVarDecl_structure ctx h
  refine ⟨_, hstmt, ?_⟩
  refine List.Forall₂.imp ?_ hall
  rintro d decl ⟨vs, init_node, hvs, hinit, rfl⟩
  refine ⟨vs, hvs, fun ns hns => ?_⟩
  have hty : (var_decl_node (visitBasicType ctx.basicType) d.T_ID vs init_node).type =
      some (array_type_of (base_type (visitBasicType ctx.basicType))
        (ns.filter (fun n => decide (n ≠ 0)))) := by
    simp only [var_decl_node, ast_node.type, filterMap_layer_size_of_folds vs ns hns]
  refine ⟨hty, fun hnz => ?_⟩
  rw [hty]
  have : ns.filter (fun n => decide (n ≠ 0)) = ns := by
    apply List.filter_eq_self.mpr
    intro n hn
    simpa using hnz n hn
  rw [this]

/-- Witness of C6: `int a[2+3][4];` gets the type `Array(Array(i32,4),5)`. -/
theorem visitVarDecl_type_of_folded_dims_witness :
    well_formed_varDecl decl_a_2_plus_3_4 = true ∧
    (visitVarDecl decl_a_2_plus_3_4).map (fun stmt => stmt.sons.map ast_node.type) =
      some [some (Ty.Array (Ty.Array Ty.Int32 4) 5)] ∧
    ∃ stmt : ast_node, visitVarDecl decl_a_2_plus_3_4 = some stmt ∧
      List.Forall₂ (fun d decl => ∃ vs : List ast_node,
        d.expr.map visitExpr = vs.map some ∧
        ∀ ns : List Nat, vs.map calculate_const_dim_size = ns.map some →
          decl.type = some (array_type_of
            (base_type (visitBasicType decl_a_2_plus_3_4.basicType))
            (ns.filter (fun n => decide (n ≠ 0)))) ∧
          ((∀ n ∈ ns, n ≠ 0) →
            decl.type = some (array_type_of
              (base_type (visitBasicType decl_a_2_plus_3_4.basicType)) ns)))
        decl_a_2_plus_3_4.varDef stmt.sons :=
  ⟨rfl, rfl, visitVarDecl_type_of_folded_dims decl_a_2_plus_3_4 rfl⟩

/-- Counterexample to C6 as stated: the only dimension of `int a[0];` folds to
0, and the attached type is `i32`, not `Array(i32, 0)`. -/
theorem visitVarDecl_type_zero_dim_counterexample :
    ∃ (stmt decl v : ast_node),
      visitVarDecl decl_a_0 = some stmt ∧ stmt.sons = [decl] ∧
      decl_a_0.varDef.map (fun d => d.expr.map visitExpr) = [[some v]] ∧
      [v].map calculate_const_dim_size = [0].map some ∧
      decl.type = some Ty.Int32 ∧
      decl.type ≠ some (array_type_of (base_type (visitBasicType decl_a_0.basicType)) [0]) :=
  ⟨_, _, _, rfl, rfl, rfl, rfl, rfl, by decide⟩

/-- C7, as amended: an unfoldable dimension adds no `Array` layer. For every
declarator the attached type is built from the dimensions that fold to a
non-zero size only, so the number of `Array` layers is the number of those
dimensions, and it is smaller than the number of declared dimensions as soon
as one dimension is unfoldable. -/
theorem visitVarDecl_type_skips_unfoldable (ctx : VarDeclContext)
    (h : well_formed_varDecl ctx = true) :
    ∃ stmt : ast_node, visitVarDecl ctx = some stmt ∧
      List.Forall₂ (fun d decl => ∃ (vs : List ast_node) (ty : Ty),
        d.expr.map visitExpr = vs.map some ∧
        decl.type = some ty ∧
        ty = array_type_of (base_type (visitBasicType ctx.basicType))
          (vs.filterMap layer_size) ∧
        ty.arrayLayers = (vs.filterMap layer_size).length ∧
        ((∃ v ∈ vs, calculate_const_dim_size v = none) → ty.arrayLayers < vs.length))
        ctx.varDef stmt.sons := by
  obtain ⟨decls, hstmt, hall⟩ := visitVarDecl_structure ctx h
  refine ⟨_, hstmt, ?_⟩
  refine List.Forall₂.imp ?_ hall
  rintro d decl ⟨vs, init_node, hvs, hinit, rfl⟩
  have hl : (array_type_of (base_type (visitBasicType ctx.basicType))
      (vs.filterMap layer_size)).arrayLayers = (vs.filterMap layer_size).length := by
    rw [arrayLayers_array_type_of, arrayLayers_base_type]; rfl
  refine ⟨vs, _, hvs, rfl, rfl, hl, fun hex => ?_⟩
  rw [hl]
  exact length_filterMap_layer_size_lt vs hex

/-- Witness of C7: in `int a[n][2*3];` the unfoldable first dimension adds no
layer: the type is `Array(i32, 6)`. -/
theorem visitVarDecl_type_skips_unfoldable_witness :
    well_formed_varDecl decl_a_n_2_times_3 = true ∧
    (visitVarDecl decl_a_n_2_times_3).map (fun stmt => stmt.sons.map ast_node.type) =
      some [some (Ty.Array Ty.Int32 6)] ∧
    ∃ stmt : ast_node, visitVarDecl decl_a_n_2_times_3 = some stmt ∧
      List.Forall₂ (fun d decl => ∃ (vs : List ast_node) (ty : Ty),
        d.expr.map visitExpr = vs.map some ∧
        decl.type = some ty ∧
        ty = array_type_of (base_type (visitBasicType decl_a_n_2_times_3.basicType))
          (vs.filterMap layer_size) ∧
        ty.arrayLayers = (vs.filterMap layer_size).length ∧
        ((∃ v ∈ vs, calculate_const_dim_size v = none) → ty.arrayLayers < vs.length))
        decl_a_n_2_times_3.varDef stmt.sons :=
  ⟨rfl, rfl, visitVarDecl_type_skips_unfoldable decl_a_n_2_times_3 rfl⟩

/-- Counterexample to C7 as stated: the only dimension of `int a[n];` is
unfoldable, and the attached type is `i32`: it has no `Array` layer, where the
claim wants one layer of count 0. -/
theorem visitVarDecl_type_unfoldable_counterexample :
    ∃ (stmt decl v : ast_node) (ty : Ty),
      visitVarDecl decl_a_n = some stmt ∧ stmt.sons = [decl] ∧
      decl_a_n.varDef.map (fun d => d.expr.map visitExpr) = [[some v]] ∧
      calculate_const_dim_size v = none ∧
      decl.type = some ty ∧ ty = Ty.Int32 ∧ ty ≠ Ty.Array Ty.Int32 0 ∧
      ty.arrayLayers ≠ [v].length :=
  ⟨_, _, _, _, rfl, rfl, rfl, rfl, rfl, rfl, by decide, by decide⟩

/-- C8: for every declarator, the `ArrayDim` node of an unfoldable dimension
keeps as its child the subtree the visitor built, while the `ArrayDim` node of
every foldable dimension of the same declarator has the literal of the folded
value as its child. -/
theorem visitVarDecl_keeps_unfoldable_dimension (ctx : VarDeclContext)
    (h : well_formed_varDecl ctx = true) :
    ∃ stmt : ast_node, visitVarDecl ctx = some stmt ∧
      List.Forall₂ (fun d decl => ∃ (vs : List ast_node) (init_node : Option ast_node),
        d.expr.map visitExpr = vs.map some ∧
        d.initVal.map visitInitVal = init_node.map some ∧
        decl.sons = create_type_node (visitBasicType ctx.basicType) ::
          ast_node.New_id d.T_ID.text (d.T_ID.line : Int) ::
          (vs.map (fun v =>
            match calculate_const_dim_size v with
            | none => ast_node.New AST_OP_ARRAY_DIM [v]
            | some n => ast_node.New AST_OP_ARRAY_DIM [ast_node.New_digit n (d.T_ID.line : Int)])
            ++ init_node.toList))
        ctx.varDef stmt.sons := by
  obtain ⟨decls, hstmt, hall⟩ := visitVarDecl_structure ctx h
  refine ⟨_, hstmt, ?_⟩
  refine List.Forall₂.imp ?_ hall
  rintro d decl ⟨vs, init_node, hvs, hinit, rfl⟩
  refine ⟨vs, init_node, hvs, hinit, ?_⟩
  simp only [var_decl_node, ast_node.sons, List.cons.injEq, true_and,
    List.append_cancel_right_eq]
  apply List.map_congr_left
  intro v _
  cases hc : calculate_const_dim_size v <;> simp [folded_dim, hc, array_dim]

/-- Witness of C8: in `int a[n][2*3];` the first `ArrayDim` keeps the
identifier `n` and the second holds the literal 6. -/
theorem visitVarDecl_keeps_unfoldable_dimension_witness :
    well_formed_varDecl decl_a_n_2_times_3 = true ∧
    (visitVarDecl decl_a_n_2_times_3).map (fun stmt => stmt.sons.map ast_node.sons) =
      some [[create_type_node (visitBasicType cst_int), ast_node.New_id "a" 1,
        ast_node.New AST_OP_ARRAY_DIM [ast_id "n"],
        ast_node.New AST_OP_ARRAY_DIM [ast_node.New_digit 6 1]]] ∧
    ∃ stmt : ast_node, visitVarDecl decl_a_n_2_times_3 = some stmt ∧
      List.Forall₂ (fun d decl => ∃ (vs : List ast_node) (init_node : Option ast_node),
        d.expr.map visitExpr = vs.map some ∧
        d.initVal.map visitInitVal = init_node.map some ∧
        decl.sons = create_type_node (visitBasicType decl_a_n_2_times_3.basicType) ::
          ast_node.New_id d.T_ID.text (d.T_ID.line : Int) ::
          (vs.map (fun v =>
            match calculate_const_dim_size v with
            | none => ast_node.New AST_OP_ARRAY_DIM [v]
            | some n => ast_node.New AST_OP_ARRAY_DIM [ast_node.New_digit n (d.T_ID.line : Int)])
            ++ init_node.toList))
        decl_a_n_2_times_3.varDef stmt.sons :=
  ⟨rfl, rfl, visitVarDecl_keeps_unfoldable_dimension decl_a_n_2_times_3 rfl⟩
/-- C9: a formal parameter declared with a first bracket pair and further
dimension expressions whose visits are `v1..vk` gets the type
`Pointer(Array(Array(...Array(base, nk)..., n1), 0))`, where `ni` is the folded
value of `vi`, or 0 when `vi` is unfoldable; a parameter without brackets gets
the plain base type; `int a[][3]` gets `Pointer(Array(Array(i32,3),0))`. -/
theorem visitFuncFParam_attaches_type :
    (∀ ctx : FuncFParamContext, well_formed_funcFParam ctx = true →
      ∃ (vs : List ast_node) (param : ast_node),
        ctx.dims.map visitExpr = vs.map some ∧
        visitFuncFParam ctx = some param ∧
        param.type = some
          (if ctx.T_L_BRACKET = true then
            Ty.Pointer (Ty.Array
              (array_type_of (base_type (visitBasicType ctx.basicType))
                (vs.map (fun v => (calculate_const_dim_size v).getD 0))) 0)
          else base_type (visitBasicType ctx.basicType))) ∧
    (visitFuncFParam param_a_3).map ast_node.type =
      some (some (Ty.Pointer (Ty.Array (Ty.Array Ty.Int32 3) 0))) := by
  refine ⟨fun ctx h => ?_, rfl⟩
  obtain ⟨vs, hvs⟩ := visitExpr_map_total ctx.dims h
  refine ⟨vs, ?_⟩
  suffices hs : ∃ param : ast_node, visitFuncFParam ctx = some param ∧
      param.type = some
        (if ctx.T_L_BRACKET = true then
          Ty.Pointer (Ty.Array
            (array_type_of (base_type (visitBasicType ctx.basicType))
              (vs.map (fun v => (calculate_const_dim_size v).getD 0))) 0)
        else base_type (visitBasicType ctx.basicType)) by
    obtain ⟨param, hp, ht⟩ := hs
    exact ⟨param, hvs, hp, ht⟩
  unfold visitFuncFParam
  by_cases hb : ctx.T_L_BRACKET = true
  · simp only [create_type_node_type, hb, if_true, visitExpr_each_eq, hvs,
      visitFuncFParam_dims_map_some]
    refine ⟨_, rfl, ?_⟩
    rw [set_type_type]
    simp only [← List.map_reverse, visitFuncFParam_type_eq,
      List.reverse_reverse, PointerType.get, ArrayType.get]
  · simp only [create_type_node_type, hb]
    refine ⟨_, rfl, ?_⟩
    rw [set_type_type]
    simp

/-- Witness of C9: the general statement at `int a[][3]`. -/
theorem visitFuncFParam_attaches_type_witness :
    well_formed_funcFParam param_a_3 = true ∧
    ∃ (vs : List ast_node) (param : ast_node),
      param_a_3.dims.map visitExpr = vs.map some ∧
      visitFuncFParam param_a_3 = some param ∧
      param.type = some
        (if param_a_3.T_L_BRACKET = true then
          Ty.Pointer (Ty.Array
            (array_type_of (base_type (visitBasicType param_a_3.basicType))
              (vs.map (fun v => (calculate_const_dim_size v).getD 0))) 0)
        else base_type (visitBasicType param_a_3.basicType)) :=
  ⟨rfl, visitFuncFParam_attaches_type.1 param_a_3 rfl⟩

/-- C10: for the lvalue `id[e1]...[en]` whose index expressions visit to
`v1..vn`, `visitLVal` returns the left-deep chain
`ArrayIndex(...ArrayIndex(ArrayIndex(id, v1), v2)..., vn)`: `n` nested
`ArrayIndex` nodes of two children `[accumulator, index]` each, indices in
source order, the identifier leaf leftmost-deepest; for `n = 0` it is the
identifier leaf itself. -/
theorem visitLVal_builds_index_chain (T_ID : Token) (exprs : List ExprContext)
    (h : well_formed_exprs exprs = true) :
    ∃ vs : List ast_node,
      exprs.map visitExpr = vs.map some ∧
      visitLVal (LValContext.mk T_ID exprs) =
        some (index_chain (ast_node.New_id T_ID.text (T_ID.line : Int)) vs) ∧
      index_depth (index_chain (ast_node.New_id T_ID.text (T_ID.line : Int)) vs) =
        exprs.length ∧
      leftmost_leaf (index_chain (ast_node.New_id T_ID.text (T_ID.line : Int)) vs) =
        ast_node.New_id T_ID.text (T_ID.line : Int) ∧
      (exprs = [] → visitLVal (LValContext.mk T_ID exprs) =
        some (ast_node.New_id T_ID.text (T_ID.line : Int))) := by
  obtain ⟨vs, hvs⟩ := visitExpr_map_total exprs h
  have hlen : vs.length = exprs.length := by
    have := congrArg List.length hvs
    simpa using this.symm
  have hvisit : visitLVal (LValContext.mk T_ID exprs) =
      some (index_chain (ast_node.New_id T_ID.text (T_ID.line : Int)) vs) := by
    rw [visitLVal, visitExpr_each_eq, hvs]
    exact visitLVal_loop_eq _ (by simp [ast_node.New_id, ast_node.node_type]) vs _ (Or.inl rfl)
  refine ⟨vs, hvs, hvisit, ?_, ?_, ?_⟩
  · rw [index_depth_chain, hlen]
    simp [index_depth, ast_node.New_id]
  · rw [leftmost_leaf_chain]
    simp [leftmost_leaf, ast_node.New_id]
  · intro he
    subst he
    have : vs = [] := by simpa using hlen
    rw [hvisit, this]
    rfl

/-- Witness of C10: `a[i][j][k]` gives
`ArrayIndex(ArrayIndex(ArrayIndex(a, i), j), k)`. -/
theorem visitLVal_builds_index_chain_witness :
    visitLVal lval_a_i_j_k =
      some (ast_node.New AST_OP_ARRAY_INDEX
        [ast_node.New AST_OP_ARRAY_INDEX
          [ast_node.New AST_OP_ARRAY_INDEX [ast_id "a", ast_id "i"], ast_id "j"],
          ast_id "k"]) ∧
    ∃ vs : List ast_node,
      [cst_expr_of_unary (cst_id "i"), cst_expr_of_unary (cst_id "j"),
        cst_expr_of_unary (cst_id "k")].map visitExpr = vs.map some ∧
      visitLVal lval_a_i_j_k = some (index_chain (ast_node.New_id "a" 1) vs) ∧
      index_depth (index_chain (ast_node.New_id "a" 1) vs) = 3 ∧
      leftmost_leaf (index_chain (ast_node.New_id "a" 1) vs) = ast_node.New_id "a" 1 ∧
      ([cst_expr_of_unary (cst_id "i"), cst_expr_of_unary (cst_id "j"),
        cst_expr_of_unary (cst_id "k")] = [] →
        visitLVal lval_a_i_j_k = some (ast_node.New_id "a" 1)) :=
  ⟨rfl, visitLVal_builds_index_chain { text := "a", line := 1 }
    [cst_expr_of_unary (cst_id "i"), cst_expr_of_unary (cst_id "j"),
      cst_expr_of_unary (cst_id "k")] rfl⟩

/-- C11, the code at the failing input: a global constructed with the
initializer 3 has the initializer 3 and still reports to be in BSS, against
the rule "no initializer or initializer 0"; the calls `setLoadRegId(5)` and
`setInitVal(0)` leave that state of affairs. -/
theorem GlobalVariable_ctor_nonzero_init_in_bss :
    (GlobalVariable.ctor Ty.Int32 "x" (some { val := 3 })).isInBSSSection = true ∧
    (GlobalVariable.ctor Ty.Int32 "x" (some { val := 3 })).getInitVal = some { val := 3 } ∧
    (GlobalVariable.ctor Ty.Int32 "x" (some { val := 3 })).bss_rule = false ∧
    ((GlobalVariable.ctor Ty.Int32 "x" (some { val := 3 })).calls
      [GlobalVariableCall.setLoadRegId 5, GlobalVariableCall.setInitVal { val := 0 }]).isInBSSSection
      = true ∧
    ((GlobalVariable.ctor Ty.Int32 "x" (some { val := 3 })).calls
      [GlobalVariableCall.setLoadRegId 5, GlobalVariableCall.setInitVal { val := 0 }]).bss_rule
      = false := by
  decide

/-- C12: for a global that is in BSS and every constant `c`, after
`setInitVal(c)` the global is outside BSS if and only if the value of `c` is
not zero; and when it is not zero, `getInitVal()` returns `c` and
`hasInitVal()` is true. -/
theorem setInitVal_leaves_bss_iff_nonzero (g : GlobalVariable) (c : ConstInt)
    (h : g.isInBSSSection = true) :
    ((g.setInitVal c).isInBSSSection = false ↔ c.val ≠ 0) ∧
    (c.val ≠ 0 → (g.setInitVal c).getInitVal = some c ∧ (g.setInitVal c).hasInitVal = true) := by
  have hb : g.inBSSSection = true := h
  constructor
  · simp only [GlobalVariable.isInBSSSection, setInitVal_inBSSSection]
    by_cases hz : c.val = 0 <;> simp [hz, hb]
  · intro hz
    simp [GlobalVariable.getInitVal, GlobalVariable.hasInitVal, setInitVal_initVal, hz]

/-- Witness of C12: `int x = 3;` leaves BSS with the initializer 3. -/
theorem setInitVal_leaves_bss_iff_nonzero_witness :
    (GlobalVariable.ctor Ty.Int32 "x" none).isInBSSSection = true ∧
    ((((GlobalVariable.ctor Ty.Int32 "x" none).setInitVal { val := 3 }).isInBSSSection = false ↔
      (3 : Int) ≠ 0) ∧
    ((3 : Int) ≠ 0 →
      ((GlobalVariable.ctor Ty.Int32 "x" none).setInitVal { val := 3 }).getInitVal =
        some { val := 3 } ∧
      ((GlobalVariable.ctor Ty.Int32 "x" none).setInitVal { val := 3 }).hasInitVal = true)) :=
  ⟨rfl, setInitVal_leaves_bss_iff_nonzero (GlobalVariable.ctor Ty.Int32 "x" none) { val := 3 } rfl⟩

/-- C13: leaving BSS is one-way: a global for which `isInBSSSection()` is false
keeps it false after every sequence of `setInitVal` calls, with any value, and
`setLoadRegId` calls. -/
theorem outside_bss_is_one_way (g : GlobalVariable) (cs : List GlobalVariableCall)
    (h : g.isInBSSSection = false) : (g.calls cs).isInBSSSection = false := by
  have key : ∀ (cs : List GlobalVariableCall) (g : GlobalVariable),
      g.inBSSSection = false → (g.calls cs).inBSSSection = false := by
    intro cs
    induction cs with
    | nil => intro g hg; exact hg
    | cons c cs ih =>
      intro g hg
      exact ih (g.call c) (call_keeps_outside_bss g c hg)
  exact key cs g h

/-- Witness of C13: after `int x = 3;` the calls `setInitVal(0)` and
`setLoadRegId(5)` leave the global outside BSS. -/
theorem outside_bss_is_one_way_witness :
    ((GlobalVariable.ctor Ty.Int32 "x" none).setInitVal { val := 3 }).isInBSSSection = false ∧
    (((GlobalVariable.ctor Ty.Int32 "x" none).setInitVal { val := 3 }).calls
      [GlobalVariableCall.setInitVal { val := 0 },
        GlobalVariableCall.setLoadRegId 5]).isInBSSSection = false :=
  ⟨rfl, outside_bss_is_one_way
    ((GlobalVariable.ctor Ty.Int32 "x" none).setInitVal { val := 3 })
    [GlobalVariableCall.setInitVal { val := 0 }, GlobalVariableCall.setLoadRegId 5] rfl⟩

/-- C15, as amended: at each of the six binary levels a context without
operator yields exactly the AST of its first operand, with no wrapping node; so
`visitExpr` of a bare identifier returns the leaf itself, and `visitExpr` of a
bare literal below `2^64` returns the literal leaf, which carries the value
modulo `2^32`. -/
theorem zero_operator_passes_through :
    (∀ (e : LAndExpContext) (rest : List LAndExpContext),
      visitLOrExp (LOrExpContext.mk (e :: rest) []) = visitLAndExp e) ∧
    (∀ (e : EqExpContext) (rest : List EqExpContext),
      visitLAndExp (LAndExpContext.mk (e :: rest) []) = visitEqExp e) ∧
    (∀ (e : RelExpContext) (rest : List RelExpContext),
      visitEqExp (EqExpContext.mk (e :: rest) []) = visitRelExp e) ∧
    (∀ (e : AddExpContext) (rest : List AddExpContext),
      visitRelExp (RelExpContext.mk (e :: rest) []) = visitAddExp e) ∧
    (∀ (e : MulExpContext) (rest : List MulExpContext),
      visitAddExp (AddExpContext.mk (e :: rest) []) = visitMulExp e) ∧
    (∀ (e : UnaryExpContext) (rest : List UnaryExpContext),
      visitMulExp (MulExpContext.mk (e :: rest) []) = visitUnaryExp e) ∧
    (∀ T_DIGIT : DigitToken, T_DIGIT.value < 18446744073709551616 →
      visitExpr (cst_expr_of_unary
        (UnaryExpContext.primary (PrimaryExpContext.digit T_DIGIT))) =
        some (ast_node.New_digit (T_DIGIT.value % 4294967296) (T_DIGIT.line : Int))) ∧
    (∀ T_ID : Token,
      visitExpr (cst_expr_of_unary
        (UnaryExpContext.primary (PrimaryExpContext.lval (LValContext.mk T_ID [])))) =
        some (ast_node.New_id T_ID.text (T_ID.line : Int))) := by
  have h0 : ∀ (x : Option ast_node) (t : List (Option ast_node)),
      visit_binary_level (x :: t) [] = x := by
    intro x t; simp [visit_binary_level, operand_at]
  have hor : ∀ (e : LAndExpContext) (rest : List LAndExpContext),
      visitLOrExp (LOrExpContext.mk (e :: rest) []) = visitLAndExp e := by
    intro e rest; rw [visitLOrExp, visitLAndExp_each]; exact h0 _ _
  have hand : ∀ (e : EqExpContext) (rest : List EqExpContext),
      visitLAndExp (LAndExpContext.mk (e :: rest) []) = visitEqExp e := by
    intro e rest; rw [visitLAndExp, visitEqExp_each]; exact h0 _ _
  have heq : ∀ (e : RelExpContext) (rest : List RelExpContext),
      visitEqExp (EqExpContext.mk (e :: rest) []) = visitRelExp e := by
    intro e rest; rw [visitEqExp, visitRelExp_each]; exact h0 _ _
  have hrel : ∀ (e : AddExpContext) (rest : List AddExpContext),
      visitRelExp (RelExpContext.mk (e :: rest) []) = visitAddExp e := by
    intro e rest; rw [visitRelExp, visitAddExp_each]; exact h0 _ _
  have hadd : ∀ (e : MulExpContext) (rest : List MulExpContext),
      visitAddExp (AddExpContext.mk (e :: rest) []) = visitMulExp e := by
    intro e rest; rw [visitAddExp, visitMulExp_each]; exact h0 _ _
  have hmul : ∀ (e : UnaryExpContext) (rest : List UnaryExpContext),
      visitMulExp (MulExpContext.mk (e :: rest) []) = visitUnaryExp e := by
    intro e rest; rw [visitMulExp, visitUnaryExp_each]; exact h0 _ _
  have hexpr : ∀ u : UnaryExpContext, visitExpr (cst_expr_of_unary u) = visitUnaryExp u := by
    intro u
    rw [cst_expr_of_unary, cst_expr, cst_add1, cst_mul1, visitExpr, hor, hand, heq, hrel, hadd,
      hmul]
  refine ⟨hor, hand, heq, hrel, hadd, hmul, ?_, ?_⟩
  · intro T_DIGIT hlt
    rw [hexpr, visitUnaryExp, visitPrimaryExp, stoull, if_pos hlt]
  · intro T_ID
    rw [hexpr, visitUnaryExp, visitPrimaryExp, visitLVal, visitExpr_each]
    rfl

/-- Witness of C15 as amended: the bare literal `7` visits to the leaf `7`. -/
theorem zero_operator_passes_through_witness :
    visitExpr (cst_expr_of_unary
      (UnaryExpContext.primary (PrimaryExpContext.digit { value := 7, line := 1 }))) =
      some (ast_node.New_digit 7 1) :=
  zero_operator_passes_through.2.2.2.2.2.2.1 { value := 7, line := 1 } (by decide)

/-- Counterexample to C15 as stated: for the bare literal
`18446744073709551616` (`2^64`) `stoull` throws, so `visitExpr` returns no
leaf, at every level of the chain of zero-operator contexts. -/
theorem visitExpr_literal_out_of_range_counterexample :
    stoull { value := 18446744073709551616, line := 1 } = none ∧
    visitPrimaryExp (PrimaryExpContext.digit { value := 18446744073709551616, line := 1 }) =
      none ∧
    visitExpr (cst_expr_of_unary (UnaryExpContext.primary
      (PrimaryExpContext.digit { value := 18446744073709551616, line := 1 }))) = none ∧
    visitExpr (cst_expr_of_unary (UnaryExpContext.primary
      (PrimaryExpContext.digit { value := 18446744073709551616, line := 1 }))) ≠
      some (ast_node.New_digit (18446744073709551616 % 4294967296) 1) :=
  ⟨rfl, rfl, rfl, by
    have h : visitExpr (cst_expr_of_unary (UnaryExpContext.primary
        (PrimaryExpContext.digit { value := 18446744073709551616, line := 1 }))) = none := rfl
    rw [h]
    exact fun hne => Option.noConfusion hne⟩

/-- C16, as amended: for `unaryOp unaryExp` whose operand visits to an AST,
`visitUnaryExp` returns a node with exactly one child, the AST of the operand;
its tag is the logical-not tag for `!` and the subtraction tag `AST_OP_SUB` for
`-`, which is the tag `visitAddOp` produces for the binary subtraction. -/
theorem visitUnaryExp_unary_node (unaryOp : UnaryOpContext) (unaryExp : UnaryExpContext)
    (operandNode : ast_node) (h : visitUnaryExp unaryExp = some operandNode) :
    visitUnaryExp (UnaryExpContext.unary unaryOp unaryExp) =
      some (ast_node.New (visitUnaryOp unaryOp) [operandNode]) ∧
    visitUnaryOp UnaryOpContext.T_NOT = AST_OP_NOT ∧
    visitUnaryOp UnaryOpContext.T_SUB = AST_OP_SUB ∧
    visitUnaryOp UnaryOpContext.T_SUB = visitAddOp AddOpContext.T_SUB := by
  refine ⟨?_, rfl, rfl, rfl⟩
  rw [visitUnaryExp, h]

/-- Witness of C16: `!x` gives the one-child node `Not(x)`. -/
theorem visitUnaryExp_unary_node_witness :
    visitUnaryExp (cst_id "x") = some (ast_id "x") ∧
    visitUnaryExp (UnaryExpContext.unary UnaryOpContext.T_NOT (cst_id "x")) =
      some (ast_node.New AST_OP_NOT [ast_id "x"]) :=
  ⟨rfl, (visitUnaryExp_unary_node UnaryOpContext.T_NOT (cst_id "x") (ast_id "x") rfl).1⟩

/-- Counterexample to C16 as stated: `-x` gives a node tagged `AST_OP_SUB`, the
tag of the binary subtraction and not the negation tag. -/
theorem visitUnaryExp_minus_counterexample :
    visitUnaryExp (UnaryExpContext.unary UnaryOpContext.T_SUB (cst_id "x")) =
      some (ast_node.New AST_OP_SUB [ast_id "x"]) ∧
    (ast_node.New AST_OP_SUB [ast_id "x"]).node_type = visitAddOp AddOpContext.T_SUB ∧
    (ast_node.New AST_OP_SUB [ast_id "x"]).node_type ≠ AST_OP_NEG :=
  ⟨rfl, rfl, by decide⟩

/-- C17: `visitInitVal` returns the AST of the expression for an initializer
that is an expression, and for a brace list `{v1, ..., vn}` the `ArrayInit`
node whose children are `visitInitVal(v1)`, ..., `visitInitVal(vn)` in source
order; on every well-formed initializer it returns a tree whose nesting depth
of `ArrayInit` nodes is the nesting depth of the braces. -/
theorem visitInitVal_builds_array_init :
    (∀ e : ExprContext, visitInitVal (InitValContext.expr e) = visitExpr e) ∧
    (∀ (vals : List InitValContext) (nodes : List ast_node),
      vals.map visitInitVal = nodes.map some →
      visitInitVal (InitValContext.braces vals) =
        some (ast_node.New AST_OP_ARRAY_INIT nodes)) ∧
    (∀ iv : InitValContext, well_formed_initVal iv = true →
      ∃ node : ast_node, visitInitVal iv = some node ∧
        array_init_depth node = brace_depth iv) := by
  refine ⟨fun e => by rw [visitInitVal], visitInitVal_braces_eq, fun iv hiv => ?_⟩
  obtain ⟨node, hnode⟩ := visitInitVal_total iv hiv
  exact ⟨node, hnode, visitInitVal_depth iv node hnode⟩

/-- Witness of C17: `{ {1, 2}, 3 }` gives `ArrayInit(ArrayInit(1, 2), 3)`, of
depth 2. -/
theorem visitInitVal_builds_array_init_witness :
    visitInitVal init_1_2_3 =
      some (ast_node.New AST_OP_ARRAY_INIT
        [ast_node.New AST_OP_ARRAY_INIT [ast_node.New_digit 1 1, ast_node.New_digit 2 1],
          ast_node.New_digit 3 1]) ∧
    brace_depth init_1_2_3 = 2 ∧
    ∃ node : ast_node, visitInitVal init_1_2_3 = some node ∧
      array_init_depth node = brace_depth init_1_2_3 :=
  ⟨rfl, rfl, visitInitVal_builds_array_init.2.2 init_1_2_3 rfl⟩

/-- C18: for a binary instruction constructed with operator `op` and sources
`a`, `b` and named `r`, `toString` yields `<r> = <m> <a>, <b>`, where `a` and
`b` are the IR names of operand 0 and of operand 1 and `m` is the mnemonic of
`op`: `add`, `sub`, `mul`, `div`, `mod`, `icmp lt`, `icmp gt`, `icmp le`,
`icmp ge`, `icmp eq`, `icmp ne`; whatever `str` held before. -/
theorem BinaryInstruction_toString_format
    (Instruction_toString : BinaryInstruction → String → String) (f : Function)
    (op : IRInstOperator) (a b : Value) (ty : Ty) (r str m : String)
    (hm : binary_mnemonic op = some m) :
    ((BinaryInstruction.ctor f op a b ty).setIRName r).getOperand 0 = some a ∧
    ((BinaryInstruction.ctor f op a b ty).setIRName r).getOperand 1 = some b ∧
    BinaryInstruction.toString Instruction_toString
        ((BinaryInstruction.ctor f op a b ty).setIRName r) str =
      some (r ++ " = " ++ m ++ " " ++ a.IRName ++ ", " ++ b.IRName) := by
  refine ⟨rfl, rfl, ?_⟩
  cases op <;> simp [binary_mnemonic] at hm <;> subst hm <;>
    simp [BinaryInstruction.toString, BinaryInstruction.ctor, BinaryInstruction.setIRName,
      BinaryInstruction.addOperand, BinaryInstruction.getOperand, Instruction.ctor,
      String.append_assoc]

/-- Witness of C18: `%t3 = icmp lt %l1, 10`, and `%t3 = sub %l1, 10` with the
operands in the order given. -/
theorem BinaryInstruction_toString_format_witness :
    binary_mnemonic IRINST_OP_LT_I = some "icmp lt" ∧
    BinaryInstruction.toString (fun _ s => s)
      ((BinaryInstruction.ctor { name := "main" } IRINST_OP_LT_I
        { type := Ty.Int32, IRName := "%l1" } { type := Ty.Int32, IRName := "10" }
        Ty.Int32).setIRName "%t3") "" = some "%t3 = icmp lt %l1, 10" ∧
    BinaryInstruction.toString (fun _ s => s)
      ((BinaryInstruction.ctor { name := "main" } IRINST_OP_SUB_I
        { type := Ty.Int32, IRName := "%l1" } { type := Ty.Int32, IRName := "10" }
        Ty.Int32).setIRName "%t3") "" = some "%t3 = sub %l1, 10" :=
  ⟨rfl,
    (BinaryInstruction_toString_format (fun _ s => s) { name := "main" } IRINST_OP_LT_I
      { type := Ty.Int32, IRName := "%l1" } { type := Ty.Int32, IRName := "10" } Ty.Int32
      "%t3" "" "icmp lt" rfl).2.2,
    (BinaryInstruction_toString_format (fun _ s => s) { name := "main" } IRINST_OP_SUB_I
      { type := Ty.Int32, IRName := "%l1" } { type := Ty.Int32, IRName := "10" } Ty.Int32
      "%t3" "" "sub" rfl).2.2⟩

/-- C19, as amended: the constructor checks nothing. For every operator,
operands `a`, `b` and result type `t`, whatever their types, it returns the
instruction of the given function with that operator, the operands `[a, b]` in
that order and the result type `t`. -/
theorem BinaryInstruction_ctor_unchecked (f : Function) (op : IRInstOperator) (a b : Value)
    (t : Ty) :
    (BinaryInstruction.ctor f op a b t).func = f ∧
    (BinaryInstruction.ctor f op a b t).op = op ∧
    (BinaryInstruction.ctor f op a b t).operands = [a, b] ∧
    (BinaryInstruction.ctor f op a b t).type = t :=
  ⟨rfl, rfl, rfl, rfl⟩

/-- Counterexample to C19 as stated: an addition is constructed from an `i32`
operand and a pointer operand with the result type `void`; nothing is
rejected. -/
theorem BinaryInstruction_ctor_mismatch_counterexample :
    ∃ inst : BinaryInstruction,
      BinaryInstruction.ctor { name := "main" } IRINST_OP_ADD_I
        { type := Ty.Int32, IRName := "%l1" } { type := Ty.Pointer Ty.Int32, IRName := "%l2" }
        Ty.Void = inst ∧
      is_arith_inst inst.op = true ∧
      inst.operands.map Value.type = [Ty.Int32, Ty.Pointer Ty.Int32] ∧
      Ty.Int32 ≠ Ty.Pointer Ty.Int32 ∧
      inst.type = Ty.Void ∧ inst.type ≠ Ty.Int32 :=
  ⟨_, rfl, rfl, rfl, by decide, rfl, by decide⟩

/-- C20: for a global whose type is not a pointer type, `toDeclareString` sets
the string, whatever it held, to `declare <type> <irname> = <v>` when the
global has an initializer, `v` being the decimal rendering of its value, and to
`declare <type> <irname>` when it has none. -/
theorem toDeclareString_scalar (Type_toString Type_getDimString : Ty → String)
    (g : GlobalVariable) (str : String) (h : g.type.isPointerType = false) :
    (∀ c : ConstInt, g.getInitVal = some c →
      g.toDeclareString Type_toString Type_getDimString str =
        some ("declare " ++ Type_toString g.type ++ " " ++ g.IRName ++ " = "
          ++ std_to_string c.val)) ∧
    (g.hasInitVal = false →
      g.toDeclareString Type_toString Type_getDimString str =
        some ("declare " ++ Type_toString g.type ++ " " ++ g.IRName)) := by
  constructor
  · intro c hc
    have hi : g.initVal = some c := hc
    simp [GlobalVariable.toDeclareString, h, GlobalVariable.hasInitVal, hi]
  · intro hn
    simp [GlobalVariable.toDeclareString, h, hn]

/-- Witness of C20: `int x = 3;` prints `declare i32 @x = 3` and `int x;` prints
`declare i32 @x`. -/
theorem toDeclareString_scalar_witness :
    ((GlobalVariable.ctor Ty.Int32 "x" none).setInitVal { val := 3 }).toDeclareString
        scalar_type_name (fun _ => "") "junk" = some "declare i32 @x = 3" ∧
    (GlobalVariable.ctor Ty.Int32 "x" none).toDeclareString
        scalar_type_name (fun _ => "") "junk" = some "declare i32 @x" :=
  ⟨(toDeclareString_scalar scalar_type_name (fun _ => "")
      ((GlobalVariable.ctor Ty.Int32 "x" none).setInitVal { val := 3 }) "junk" rfl).1
      { val := 3 } rfl,
    (toDeclareString_scalar scalar_type_name (fun _ => "")
      (GlobalVariable.ctor Ty.Int32 "x" none) "junk" rfl).2 rfl⟩

/-- C21, evaluated at a pointer-typed global and the prior string `junk`: the
pointer branch of `toDeclareString` appends to the string where the scalar
branch assigns it, so the result is `junkdeclare i32 @p` and not
`declare i32 @p`; an attached initializer is not printed. -/
theorem toDeclareString_pointer_appends :
    (GlobalVariable.ctor (Ty.Pointer Ty.Int32) "p" none).toDeclareString
        scalar_type_name (fun _ => "") "junk" = some "junkdeclare i32 @p" ∧
    (GlobalVariable.ctor (Ty.Pointer Ty.Int32) "p" none).toDeclareString
        scalar_type_name (fun _ => "") "junk" ≠ some "declare i32 @p" ∧
    (GlobalVariable.ctor (Ty.Pointer Ty.Int32) "p" (some { val := 3 })).toDeclareString
        scalar_type_name (fun _ => "") "" = some "declare i32 @p" ∧
    (GlobalVariable.ctor Ty.Int32 "x" none).toDeclareString
        scalar_type_name (fun _ => "") "junk" = some "declare i32 @x" := by
  refine ⟨by decide, by decide, by decide, by decide⟩

/-- C22: a newly constructed global variable has load register `-1`; after
`setLoadRegId(r)` the load register is `r`; `setLoadRegId` changes neither the
BSS flag, the initializer, the type nor the names, so `toDeclareString` and
`isInBSSSection` give the same results before and after. -/
theorem setLoadRegId_touches_only_loadRegNo
    (Type_toString Type_getDimString : Ty → String) (_type : Ty) (_name : String)
    (_init : Option ConstInt) (g : GlobalVariable) (r : Int) (str : String) :
    (GlobalVariable.ctor _type _name _init).getLoadRegId = -1 ∧
    (g.setLoadRegId r).getLoadRegId = r ∧
    (g.setLoadRegId r).inBSSSection = g.inBSSSection ∧
    (g.setLoadRegId r).initVal = g.initVal ∧
    (g.setLoadRegId r).type = g.type ∧
    (g.setLoadRegId r).name = g.name ∧
    (g.setLoadRegId r).IRName = g.IRName ∧
    (g.setLoadRegId r).toDeclareString Type_toString Type_getDimString str =
      g.toDeclareString Type_toString Type_getDimString str ∧
    (g.setLoadRegId r).isInBSSSection = g.isInBSSSection ∧
    (g.setLoadRegId r).hasInitVal = g.hasInitVal :=
  ⟨rfl, rfl, rfl, rfl, rfl, rfl, rfl, rfl, rfl, rfl⟩

/-- C23, as amended: `visitFuncFParam` folds the dimension expressions of a
formal parameter for the type only. Every `ArrayDim` child of the parameter
node keeps the visited expression as its only child, also when it folds: the
`ArrayDim` children are the one of the literal 0 followed by `ArrayDim(vi)`
for the visits `vi` of the further dimension expressions, and such a child is
a literal only where the expression itself is one. -/
theorem visitFuncFParam_keeps_dimension_exprs (ctx : FuncFParamContext)
    (h : well_formed_funcFParam ctx = true) (hb : ctx.T_L_BRACKET = true) :
    ∃ (vs : List ast_node) (param : ast_node),
      ctx.dims.map visitExpr = vs.map some ∧
      visitFuncFParam ctx = some param ∧
      param.sons.filter (fun d => decide (d.node_type = AST_OP_ARRAY_DIM)) =
        array_dim (ast_node.New_digit 0 (ctx.T_ID.line : Int)) :: vs.map array_dim ∧
      param.type = some (Ty.Pointer (Ty.Array
        (array_type_of (base_type (visitBasicType ctx.basicType))
          (vs.map (fun v => (calculate_const_dim_size v).getD 0))) 0)) := by
  obtain ⟨vs, hvs⟩ := visitExpr_map_total ctx.dims h
  obtain ⟨param, hp, _, hsons⟩ := visitFuncFParam_sons ctx vs hvs
  refine ⟨vs, param, hvs, hp, ?_, ?_⟩
  · rw [hsons, formal_param_sons, hb]
    have hfilter : ∀ l : List ast_node,
        (l.map array_dim).filter (fun d => decide (d.node_type = AST_OP_ARRAY_DIM)) =
          l.map array_dim := by
      intro l
      refine List.filter_eq_self.mpr ?_
      intro d hd
      obtain ⟨x, _, rfl⟩ := List.mem_map.mp hd
      rfl
    have htype : decide ((create_type_node (visitBasicType ctx.basicType)).node_type =
        AST_OP_ARRAY_DIM) = false := rfl
    have hid : decide ((ast_node.New_id ctx.T_ID.text (ctx.T_ID.line : Int)).node_type =
        AST_OP_ARRAY_DIM) = false := rfl
    have hdim : decide ((array_dim (ast_node.New_digit 0 (ctx.T_ID.line : Int))).node_type =
        AST_OP_ARRAY_DIM) = true := rfl
    simp only [if_true]
    rw [List.filter_cons_of_neg (by simp [htype]), List.filter_cons_of_neg (by simp [hid]),
      List.filter_cons_of_pos (by simp [hdim]), hfilter]
  · revert hp
    unfold visitFuncFParam
    simp only [create_type_node_type, hb, if_true, visitExpr_each_eq, hvs,
      visitFuncFParam_dims_map_some]
    intro hp
    have hparam := Option.some.inj hp
    rw [← hparam, set_type_type]
    simp only [← List.map_reverse, visitFuncFParam_type_eq,
      List.reverse_reverse, PointerType.get, ArrayType.get]

/-- Witness of C23 as amended: the general statement at `int a[][2+1]`. -/
theorem visitFuncFParam_keeps_dimension_exprs_witness :
    well_formed_funcFParam param_a_2_plus_1 = true ∧
    param_a_2_plus_1.T_L_BRACKET = true ∧
    ∃ (vs : List ast_node) (param : ast_node),
      param_a_2_plus_1.dims.map visitExpr = vs.map some ∧
      visitFuncFParam param_a_2_plus_1 = some param ∧
      param.sons.filter (fun d => decide (d.node_type = AST_OP_ARRAY_DIM)) =
        array_dim (ast_node.New_digit 0 (param_a_2_plus_1.T_ID.line : Int)) ::
          vs.map array_dim ∧
      param.type = some (Ty.Pointer (Ty.Array
        (array_type_of (base_type (visitBasicType param_a_2_plus_1.basicType))
          (vs.map (fun v => (calculate_const_dim_size v).getD 0))) 0)) :=
  ⟨rfl, rfl, visitFuncFParam_keeps_dimension_exprs param_a_2_plus_1 rfl rfl⟩

/-- Counterexample to C23 as stated: the dimension `2+1` of `int a[][2+1]`
folds to 3, and its `ArrayDim` child still holds the node `Add(2, 1)`, which is
not an integer-literal leaf. -/
theorem visitFuncFParam_literal_dims_counterexample :
    ∃ (v param : ast_node),
      param_a_2_plus_1.dims.map visitExpr = [some v] ∧
      calculate_const_dim_size v = some 3 ∧
      visitFuncFParam param_a_2_plus_1 = some param ∧
      param.sons.get? 3 = some (array_dim v) ∧
      v = ast_node.New AST_OP_ADD [ast_node.New_digit 2 1, ast_node.New_digit 1 1] ∧
      v.node_type ≠ AST_OP_LEAF_LITERAL_UINT ∧
      (array_dim v).sons ≠ [ast_node.New_digit 3 1] :=
  ⟨_, _, rfl, rfl, rfl, rfl, rfl, by decide, by
    intro hne
    have := congrArg (List.map ast_node.node_type) hne
    exact absurd this (by decide)⟩

/-- C24: the node returned by `visitFuncFParam` has children
`[type node, identifier leaf]` when no bracket is present, and
`[type node, identifier leaf, ArrayDim(literal 0), ArrayDim(V(e1)), ...,
ArrayDim(V(ek))]` when the first bracket pair is present, `e1..ek` being the
further dimension expressions in source order: the synthetic first dimension
is the literal 0 and precedes all declared dimensions. -/
theorem visitFuncFParam_children (ctx : FuncFParamContext)
    (h : well_formed_funcFParam ctx = true) :
    ∃ (vs : List ast_node) (param : ast_node),
      ctx.dims.map visitExpr = vs.map some ∧
      visitFuncFParam ctx = some param ∧
      param.node_type = AST_OP_FUNC_FORMAL_PARAM ∧
      (ctx.T_L_BRACKET = false →
        param.sons = [create_type_node (visitBasicType ctx.basicType),
          ast_node.New_id ctx.T_ID.text (ctx.T_ID.line : Int)]) ∧
      (ctx.T_L_BRACKET = true →
        param.sons = [create_type_node (visitBasicType ctx.basicType),
          ast_node.New_id ctx.T_ID.text (ctx.T_ID.line : Int),
          ast_node.New AST_OP_ARRAY_DIM [ast_node.New_digit 0 (ctx.T_ID.line : Int)]] ++
          vs.map (fun v => ast_node.New AST_OP_ARRAY_DIM [v]) ∧
        param.sons.get? 2 =
          some (ast_node.New AST_OP_ARRAY_DIM [ast_node.New_digit 0 (ctx.T_ID.line : Int)]) ∧
        ∀ i v, vs.get? i = some v →
          param.sons.get? (i + 3) = some (ast_node.New AST_OP_ARRAY_DIM [v])) := by
  obtain ⟨vs, hvs⟩ := visitExpr_map_total ctx.dims h
  obtain ⟨param, hp, htag, hsons⟩ := visitFuncFParam_sons ctx vs hvs
  refine ⟨vs, param, hvs, hp, htag, ?_, ?_⟩
  · intro hb
    rw [hsons, formal_param_sons, hb]
    rfl
  · intro hb
    have hall : param.sons = [create_type_node (visitBasicType ctx.basicType),
        ast_node.New_id ctx.T_ID.text (ctx.T_ID.line : Int),
        ast_node.New AST_OP_ARRAY_DIM [ast_node.New_digit 0 (ctx.T_ID.line : Int)]] ++
        vs.map (fun v => ast_node.New AST_OP_ARRAY_DIM [v]) := by
      rw [hsons, formal_param_sons, hb]
      rfl
    refine ⟨hall, ?_, ?_⟩
    · rw [hall]
      rfl
    · intro i v hv
      rw [hall]
      have hlen : ([create_type_node (visitBasicType ctx.basicType),
          ast_node.New_id ctx.T_ID.text (ctx.T_ID.line : Int),
          ast_node.New AST_OP_ARRAY_DIM
            [ast_node.New_digit 0 (ctx.T_ID.line : Int)]] : List ast_node).length = 3 := rfl
      rw [List.get?_eq_getElem?, List.getElem?_append_right (by rw [hlen]; omega), hlen]
      simp only [Nat.add_sub_cancel, List.getElem?_map]
      rw [← List.get?_eq_getElem?, hv]
      rfl

/-- Witness of C24: the general statement at `int a[][3]`, and the children of
`int a` and of `int a[][3]`. -/
theorem visitFuncFParam_children_witness :
    well_formed_funcFParam param_a_3 = true ∧
    (visitFuncFParam param_a).map ast_node.sons =
      some [create_type_node (visitBasicType cst_int), ast_id "a"] ∧
    (visitFuncFParam param_a_3).map ast_node.sons =
      some [create_type_node (visitBasicType cst_int), ast_id "a",
        array_dim (ast_node.New_digit 0 1), array_dim (ast_node.New_digit 3 1)] ∧
    ∃ (vs : List ast_node) (param : ast_node),
      param_a_3.dims.map visitExpr = vs.map some ∧
      visitFuncFParam param_a_3 = some param ∧
      param.node_type = AST_OP_FUNC_FORMAL_PARAM ∧
      (param_a_3.T_L_BRACKET = false →
        param.sons = [create_type_node (visitBasicType param_a_3.basicType),
          ast_node.New_id param_a_3.T_ID.text (param_a_3.T_ID.line : Int)]) ∧
      (param_a_3.T_L_BRACKET = true →
        param.sons = [create_type_node (visitBasicType param_a_3.basicType),
          ast_node.New_id param_a_3.T_ID.text (param_a_3.T_ID.line : Int),
          ast_node.New AST_OP_ARRAY_DIM
            [ast_node.New_digit 0 (param_a_3.T_ID.line : Int)]] ++
          vs.map (fun v => ast_node.New AST_OP_ARRAY_DIM [v]) ∧
        param.sons.get? 2 =
          some (ast_node.New AST_OP_ARRAY_DIM
            [ast_node.New_digit 0 (param_a_3.T_ID.line : Int)]) ∧
        ∀ i v, vs.get? i = some v →
          param.sons.get? (i + 3) = some (ast_node.New AST_OP_ARRAY_DIM [v])) :=
  ⟨rfl, rfl, rfl, visitFuncFParam_children param_a_3 rfl⟩

/-- C25, evaluated at `if (c) else y = 2;`, a parse tree with `else` and one
statement, which the production named at line 728 (`stmt?`) admits and for
which the test of line 742 is written. `visitIfStmt` takes `stmt(0)`, here the
statement after `else`, for the then-branch: the `If` node has the children
`[c, y = 2]` and is the node of `if (c) y = 2;`, so child 1 is the else-branch
and there is no child 2. With both branches present the children are
`[cond, then, else]`. -/
theorem visitIfStmt_else_without_then :
    visitStmt_each [stmt_assign "y" 2] =
      [some (some (ast_node.New AST_OP_ASSIGN [ast_id "y", ast_node.New_digit 2 1]))] ∧
    visitIfStmt if_c_else =
      some (some (ast_node.New AST_OP_IF [ast_id "c",
        ast_node.New AST_OP_ASSIGN [ast_id "y", ast_node.New_digit 2 1]])) ∧
    visitIfStmt if_c_else = visitIfStmt (IfStmtContext.mk cond_c [stmt_assign "y" 2] false) ∧
    (visitIfStmt if_c_else).map (fun node => node.map (fun n => n.sons.get? 2)) =
      some (some none) ∧
    visitIfStmt if_c_then_else =
      some (some (ast_node.New AST_OP_IF [ast_id "c",
        ast_node.New AST_OP_ASSIGN [ast_id "x", ast_node.New_digit 1 1],
        ast_node.New AST_OP_ASSIGN [ast_id "y", ast_node.New_digit 2 1]])) :=
  ⟨rfl, rfl, rfl, rfl, rfl⟩

/-- C26: for every compile unit, the children of the `CompileUnit` node
returned by `visitCompileUnit` are the `DeclStmt` nodes of all global variable
declarations in source order followed by the function-definition nodes of all
functions in source order, however declarations and functions are interleaved
in the source; the number of children is the number of declarations plus the
number of functions. -/
theorem visitCompileUnit_children
    (create_func_def : type_attr → var_id_attr → ast_node → Option ast_node → ast_node)
    (ctx : CompileUnitContext) (h : well_formed_compileUnit ctx = true) :
    ∃ (decls funcs : List ast_node) (unit : ast_node),
      ctx.varDecl.map visitVarDecl = decls.map some ∧
      ctx.funcDef.map (visitFuncDef create_func_def) = funcs.map some ∧
      visitCompileUnit create_func_def ctx = some unit ∧
      unit.node_type = AST_OP_COMPILE_UNIT ∧
      unit.sons = decls ++ funcs ∧
      (∀ d ∈ decls, d.node_type = AST_OP_DECL_STMT) ∧
      unit.sons.length = ctx.varDecl.length + ctx.funcDef.length ∧
      unit.sons.length = ctx.items.length := by
  have hitems := List.all_eq_true.mp h
  obtain ⟨decls, hd⟩ := map_some_of_total visitVarDecl ctx.varDecl (by
    intro v hv
    unfold CompileUnitContext.varDecl at hv
    obtain ⟨item, hitem, hsome⟩ := List.mem_filterMap.mp hv
    cases item with
    | funcDef f => simp at hsome
    | varDecl w =>
      have hw : w = v := by simpa using hsome
      subst hw
      exact visitVarDecl_total w (hitems _ hitem))
  obtain ⟨funcs, hf⟩ := map_some_of_total (visitFuncDef create_func_def) ctx.funcDef (by
    intro f hfm
    unfold CompileUnitContext.funcDef at hfm
    obtain ⟨item, hitem, hsome⟩ := List.mem_filterMap.mp hfm
    cases item with
    | varDecl w => simp at hsome
    | funcDef g =>
      have hg : g = f := by simpa using hsome
      subst hg
      exact visitFuncDef_total create_func_def g (hitems _ hitem))
  have hdl : decls.length = ctx.varDecl.length := by
    have := congrArg List.length hd
    simpa using this.symm
  have hfl : funcs.length = ctx.funcDef.length := by
    have := congrArg List.length hf
    simpa using this.symm
  have hlen : (decls ++ funcs).length = ctx.varDecl.length + ctx.funcDef.length := by
    rw [List.length_append, hdl, hfl]
  refine ⟨decls, funcs, _, hd, hf, visitCompileUnit_eq create_func_def ctx decls funcs hd hf,
    rfl, rfl, ?_, hlen, ?_⟩
  · intro d hdm
    have hmem : some d ∈ ctx.varDecl.map visitVarDecl := by
      rw [hd]
      exact List.mem_map.mpr ⟨d, hdm, rfl⟩
    obtain ⟨v, hvm, hvd⟩ := List.mem_map.mp hmem
    unfold CompileUnitContext.varDecl at hvm
    obtain ⟨item, hitem, hsome⟩ := List.mem_filterMap.mp hvm
    cases item with
    | funcDef f => simp at hsome
    | varDecl w =>
      have hw : w = v := by simpa using hsome
      subst hw
      obtain ⟨ds, hstmt, _⟩ := visitVarDecl_structure w (hitems _ hitem)
      rw [hstmt] at hvd
      rw [← Option.some.inj hvd]
      rfl
  · show (decls ++ funcs).length = ctx.items.length
    rw [hlen]
    exact length_varDecl_add_length_funcDef ctx

/-- Witness of C26: in `int f() { return 0; } int x; void g(int a[][3]) { }
int y;` the children are the declarations of `x` and `y` followed by the
functions `f` and `g`. -/
theorem visitCompileUnit_children_witness :
    well_formed_compileUnit unit_f_x_g_y = true ∧
    (visitCompileUnit func_def_node unit_f_x_g_y).map
        (fun unit => unit.sons.map (fun s => (s.node_type, s.name))) =
      some [(AST_OP_DECL_STMT, ""), (AST_OP_DECL_STMT, ""),
        (AST_OP_FUNC_DEF, "f"), (AST_OP_FUNC_DEF, "g")] ∧
    ∃ (decls funcs : List ast_node) (unit : ast_node),
      unit_f_x_g_y.varDecl.map visitVarDecl = decls.map some ∧
      unit_f_x_g_y.funcDef.map (visitFuncDef func_def_node) = funcs.map some ∧
      visitCompileUnit func_def_node unit_f_x_g_y = some unit ∧
      unit.node_type = AST_OP_COMPILE_UNIT ∧
      unit.sons = decls ++ funcs ∧
      (∀ d ∈ decls, d.node_type = AST_OP_DECL_STMT) ∧
      unit.sons.length = unit_f_x_g_y.varDecl.length + unit_f_x_g_y.funcDef.length ∧
      unit.sons.length = unit_f_x_g_y.items.length :=
  ⟨rfl, by decide, visitCompileUnit_children func_def_node unit_f_x_g_y rfl⟩

/-- C27: in `visitVarDecl` a dimension that folds to 0 adds no `Array` layer to
the attached type (the type is the one of the declarator without that
dimension), yet its `ArrayDim` child holds the integer literal 0; the number
of `Array` layers of the attached type is the number of dimensions that fold
to a non-zero value, and when every dimension folds to 0 the type is the
scalar base type. -/
theorem visitVarDecl_zero_dimension (ctx : VarDeclContext)
    (h : well_formed_varDecl ctx = true) :
    ∃ stmt : ast_node, visitVarDecl ctx = some stmt ∧
      List.Forall₂ (fun d decl => ∃ (vs : List ast_node) (ty : Ty),
        d.expr.map visitExpr = vs.map some ∧
        decl.type = some ty ∧
        ty.arrayLayers = vs.countP folds_to_nonzero ∧
        (∀ i v, vs.get? i = some v → calculate_const_dim_size v = some 0 →
          decl.sons.get? (i + 2) =
            some (ast_node.New AST_OP_ARRAY_DIM [ast_node.New_digit 0 (d.T_ID.line : Int)]) ∧
          ty = array_type_of (base_type (visitBasicType ctx.basicType))
            ((vs.eraseIdx i).filterMap layer_size)) ∧
        ((∀ v ∈ vs, calculate_const_dim_size v = some 0) →
          ty = base_type (visitBasicType ctx.basicType)))
        ctx.varDef stmt.sons := by
  obtain ⟨decls, hstmt, hall⟩ := visitVarDecl_structure ctx h
  refine ⟨_, hstmt, ?_⟩
  refine List.Forall₂.imp ?_ hall
  rintro d decl ⟨vs, init_node, hvs, hinit, rfl⟩
  refine ⟨vs, _, hvs, rfl, ?_, ?_, ?_⟩
  · rw [arrayLayers_array_type_of, arrayLayers_base_type, length_filterMap_layer_size_eq]
    simp
  · intro i v hv hz
    constructor
    · have hi : i < (vs.map (folded_dim (d.T_ID.line : Int))).length := by
        rw [List.length_map]
        exact (List.get?_eq_some.mp hv).1
      show (create_type_node (visitBasicType ctx.basicType) ::
        ast_node.New_id d.T_ID.text (d.T_ID.line : Int) ::
          (vs.map (folded_dim (d.T_ID.line : Int)) ++ init_node.toList)).get? (i + 2) = _
      rw [List.get?_cons_succ, List.get?_cons_succ, List.get?_eq_getElem?,
        List.getElem?_append_left hi, List.getElem?_map, ← List.get?_eq_getElem?, hv]
      rw [Option.map, folded_dim_of_zero _ v hz]
      rfl
    · rw [filterMap_layer_size_eraseIdx vs i v hv (layer_size_of_zero v hz)]
  · intro hzero
    have hnil : vs.filterMap layer_size = [] := by
      refine List.filterMap_eq_nil_iff.mpr ?_
      intro v hv
      exact layer_size_of_zero v (hzero v hv)
    rw [hnil]
    rfl

/-- Witness of C27: `int a[0];` gets the type `i32` and `int a[3-3][4];` the
type `Array(i32, 4)`, the `ArrayDim` of the zero dimension holding the literal
0. -/
theorem visitVarDecl_zero_dimension_witness :
    well_formed_varDecl decl_a_3_minus_3_4 = true ∧
    (visitVarDecl decl_a_0).map (fun stmt => stmt.sons.map ast_node.type) =
      some [some Ty.Int32] ∧
    (visitVarDecl decl_a_3_minus_3_4).map (fun stmt => stmt.sons.map ast_node.type) =
      some [some (Ty.Array Ty.Int32 4)] ∧
    (visitVarDecl decl_a_3_minus_3_4).map (fun stmt => stmt.sons.map ast_node.sons) =
      some [[create_type_node (visitBasicType cst_int), ast_id "a",
        array_dim (ast_node.New_digit 0 1), array_dim (ast_node.New_digit 4 1)]] ∧
    ∃ stmt : ast_node, visitVarDecl decl_a_3_minus_3_4 = some stmt ∧
      List.Forall₂ (fun d decl => ∃ (vs : List ast_node) (ty : Ty),
        d.expr.map visitExpr = vs.map some ∧
        decl.type = some ty ∧
        ty.arrayLayers = vs.countP folds_to_nonzero ∧
        (∀ i v, vs.get? i = some v → calculate_const_dim_size v = some 0 →
          decl.sons.get? (i + 2) =
            some (ast_node.New AST_OP_ARRAY_DIM [ast_node.New_digit 0 (d.T_ID.line : Int)]) ∧
          ty = array_type_of (base_type (visitBasicType decl_a_3_minus_3_4.basicType))
            ((vs.eraseIdx i).filterMap layer_size)) ∧
        ((∀ v ∈ vs, calculate_const_dim_size v = some 0) →
          ty = base_type (visitBasicType decl_a_3_minus_3_4.basicType)))
        decl_a_3_minus_3_4.varDef stmt.sons :=
  ⟨rfl, rfl, rfl, rfl, visitVarDecl_zero_dimension decl_a_3_minus_3_4 rfl⟩

/-- C28: `setInitVal` with a constant of value 0 leaves the global variable
unchanged: initializer, `hasInitVal()`, BSS flag and load register are as
before. A global without initializer still has none and prints without
`= 0`, and a non-zero initializer attached before is not overwritten. -/
theorem setInitVal_zero_changes_nothing (Type_toString Type_getDimString : Ty → String)
    (g : GlobalVariable) (c : ConstInt) (str : String) (h : c.val = 0) :
    g.setInitVal c = g ∧
    (g.setInitVal c).getInitVal = g.getInitVal ∧
    (g.setInitVal c).hasInitVal = g.hasInitVal ∧
    (g.setInitVal c).isInBSSSection = g.isInBSSSection ∧
    (g.setInitVal c).getLoadRegId = g.getLoadRegId ∧
    (g.hasInitVal = false → (g.setInitVal c).hasInitVal = false) ∧
    (g.hasInitVal = false → g.type.isPointerType = false →
      (g.setInitVal c).toDeclareString Type_toString Type_getDimString str =
        some ("declare " ++ Type_toString g.type ++ " " ++ g.IRName)) ∧
    (∀ d : ConstInt, d.val ≠ 0 →
      ((g.setInitVal d).setInitVal c).getInitVal = some d) := by
  have hid : ∀ g0 : GlobalVariable, g0.setInitVal c = g0 := by
    intro g0
    simp [GlobalVariable.setInitVal, h]
  refine ⟨hid g, by rw [hid], by rw [hid], by rw [hid], by rw [hid], ?_, ?_, ?_⟩
  · intro hn
    rw [hid]
    exact hn
  · intro hn hp
    rw [hid]
    simp [GlobalVariable.toDeclareString, hp, hn]
  · intro d hd
    rw [hid]
    simp [GlobalVariable.setInitVal, hd, GlobalVariable.getInitVal]

/-- Witness of C28: `int x;` after `setInitVal(0)` has no initializer and
prints `declare i32 @x`; `int x = 3;` after `setInitVal(0)` still has the
initializer 3. -/
theorem setInitVal_zero_changes_nothing_witness :
    ((GlobalVariable.ctor Ty.Int32 "x" none).setInitVal { val := 0 }).hasInitVal = false ∧
    ((GlobalVariable.ctor Ty.Int32 "x" none).setInitVal { val := 0 }).toDeclareString
      scalar_type_name (fun _ => "") "" = some "declare i32 @x" ∧
    (((GlobalVariable.ctor Ty.Int32 "x" none).setInitVal { val := 3 }).setInitVal
      { val := 0 }).getInitVal = some { val := 3 } :=
  ⟨(setInitVal_zero_changes_nothing scalar_type_name (fun _ => "")
      (GlobalVariable.ctor Ty.Int32 "x" none) { val := 0 } "" rfl).2.2.2.2.2.1 rfl,
    (setInitVal_zero_changes_nothing scalar_type_name (fun _ => "")
      (GlobalVariable.ctor Ty.Int32 "x" none) { val := 0 } "" rfl).2.2.2.2.2.2.1 rfl rfl,
    (setInitVal_zero_changes_nothing scalar_type_name (fun _ => "")
      (GlobalVariable.ctor Ty.Int32 "x" none) { val := 0 } "" rfl).2.2.2.2.2.2.2
      { val := 3 } (by decide)⟩

/-- C29: `calculate_const_dim_size` is total and safe on every AST, a null node
and operator nodes with any number of children included. It is defined by
structural recursion; run with reads of `sons` that have no value past the end
and with a division and a remainder that have no value for a zero divisor, it
never performs such an operation and returns the same result; a null node, an
operator node with other than two children and a division or remainder by
zero give no value. -/
theorem calculate_const_dim_size_total_and_safe :
    (∀ t : ast_node,
      calculate_const_dim_size_checked t = some (calculate_const_dim_size t)) ∧
    (∀ node : Option ast_node,
      calculate_const_dim_size_checked_ptr node = some (calculate_const_dim_size_ptr node)) ∧
    calculate_const_dim_size_ptr none = none ∧
    (∀ (op : ast_operator_type) (line : Int) (ty : Option Ty) (iv : Nat) (n : String)
      (sons : List ast_node),
      op ≠ AST_OP_LEAF_LITERAL_UINT → sons.length ≠ 2 →
      calculate_const_dim_size (ast_node.mk op line ty iv n sons) = none) ∧
    (∀ (l r : ast_node) (a : Nat),
      calculate_const_dim_size (ast_node.New AST_OP_DIV [l, r]) = some a ∨
        calculate_const_dim_size (ast_node.New AST_OP_MOD [l, r]) = some a →
      ∃ b, calculate_const_dim_size r = some b ∧ b ≠ 0) ∧
    vector_at ([] : List (Option (Option Nat))) 0 = none ∧
    machine_binary AST_OP_DIV 1 0 = none ∧ machine_binary AST_OP_MOD 1 0 = none := by
  refine ⟨calculate_const_dim_size_checked_eq, ?_, rfl, ?_, ?_, rfl, rfl, rfl⟩
  · intro node
    cases node with
    | none => rfl
    | some t => exact calculate_const_dim_size_checked_eq t
  · intro op line ty iv n sons hlit hlen
    match sons, hlen with
    | [], _ => cases op <;> simp [calculate_const_dim_size] at hlit ⊢
    | [_], _ => cases op <;> simp [calculate_const_dim_size] at hlit ⊢
    | _ :: _ :: _ :: _, _ => cases op <;> simp [calculate_const_dim_size] at hlit ⊢
    | [_, _], hlen => exact absurd rfl hlen
  · intro l r a hor
    rcases hor with hc | hc
    · obtain ⟨_, x, y, _, hy, hf⟩ := calculate_binary_inv AST_OP_DIV (-1) none 0 "" l r a
        (by decide) hc
      refine ⟨y, hy, ?_⟩
      intro hy0
      simp [fold_binary, hy0] at hf
    · obtain ⟨_, x, y, _, hy, hf⟩ := calculate_binary_inv AST_OP_MOD (-1) none 0 "" l r a
        (by decide) hc
      refine ⟨y, hy, ?_⟩
      intro hy0
      simp [fold_binary, hy0] at hf

/-- Witness of C29: `6 / 2` folds to 3 and its right operand folds to the
non-zero value 2. -/
theorem calculate_const_dim_size_total_and_safe_witness :
    calculate_const_dim_size
      (ast_node.New AST_OP_DIV [ast_node.New_digit 6 1, ast_node.New_digit 2 1]) = some 3 ∧
    ∃ b, calculate_const_dim_size (ast_node.New_digit 2 1) = some b ∧ b ≠ 0 :=
  ⟨rfl, calculate_const_dim_size_total_and_safe.2.2.2.2.1
    (ast_node.New_digit 6 1) (ast_node.New_digit 2 1) 3 (Or.inl rfl)⟩

/-- C30: a dimension expression containing a unary operator is never folded.
`visitUnaryOp` tags unary minus with the subtraction operator and `!` with the
logical-not operator on a one-child node, so `calculate_const_dim_size` returns
no value for `-e` and `!e` for every operand `e`, and for every expression
whose AST contains such a node; `4 + -1` and `-(-4)` are not folded. -/
theorem unary_operator_never_folds :
    (∀ (op : UnaryOpContext) (e : ast_node),
      calculate_const_dim_size (ast_node.New (visitUnaryOp op) [e]) = none) ∧
    (∀ (op : UnaryOpContext) (u : UnaryExpContext) (v : ast_node),
      visitUnaryExp (UnaryExpContext.unary op u) = some v →
      v.sons.length = 1 ∧ calculate_const_dim_size v = none) ∧
    (∀ (e : ExprContext) (v : ast_node), visitExpr e = some v →
      (∃ (op : UnaryOpContext) (operand : ast_node),
        ast_node.New (visitUnaryOp op) [operand] ∈ subtrees v) →
      calculate_const_dim_size v = none) ∧
    (visitExpr expr_4_plus_neg_1).map calculate_const_dim_size = some none ∧
    (visitExpr expr_neg_neg_4).map calculate_const_dim_size = some none := by
  have hone : ∀ (op : UnaryOpContext) (e : ast_node),
      calculate_const_dim_size (ast_node.New (visitUnaryOp op) [e]) = none := by
    intro op e
    cases op <;> rfl
  refine ⟨hone, ?_, ?_, by decide, by decide⟩
  · intro op u v hv
    rw [visitUnaryExp] at hv
    cases hu : visitUnaryExp u with
    | none => simp [hu] at hv
    | some operandNode =>
      rw [hu] at hv
      have hveq : ast_node.New (visitUnaryOp op) [operandNode] = v := by simpa using hv
      rw [← hveq]
      exact ⟨rfl, hone op operandNode⟩
  · rintro e v hv ⟨op, operand, hmem⟩
    exact calculate_none_of_one_son v _ (visitExpr_literal_leaves e v hv) hmem rfl

/-- Witness of C30: the AST of `4 + -1` contains the one-child node `Sub(1)`,
so it is not folded. -/
theorem unary_operator_never_folds_witness :
    visitExpr expr_4_plus_neg_1 =
      some (ast_node.New AST_OP_ADD [ast_node.New_digit 4 1,
        ast_node.New AST_OP_SUB [ast_node.New_digit 1 1]]) ∧
    calculate_const_dim_size (ast_node.New AST_OP_ADD [ast_node.New_digit 4 1,
      ast_node.New AST_OP_SUB [ast_node.New_digit 1 1]]) = none :=
  ⟨rfl, unary_operator_never_folds.2.2.1 expr_4_plus_neg_1 _ rfl
    ⟨UnaryOpContext.T_SUB, ast_node.New_digit 1 1, by
      simp [subtrees, subtrees_list, ast_node.New, ast_node.New_digit, visitUnaryOp]⟩⟩

/-- C31: `BinaryInstruction::toString` is injective in the operator. Two
instructions with operators among the eleven binary kinds, the same IR name of
the result and the same IR names of operand 0 and of operand 1 that print the
same string have the same operator; the printed string is
`<r> = <m> <a>, <b>` with the mnemonic `m` of the operator, and the operator
is recovered from `m`. -/
theorem BinaryInstruction_toString_injective
    (Instruction_toString : BinaryInstruction → String → String)
    (inst1 inst2 : BinaryInstruction) (a1 b1 a2 b2 : Value) (m1 m2 str1 str2 : String)
    (hm1 : binary_mnemonic inst1.op = some m1) (hm2 : binary_mnemonic inst2.op = some m2)
    (hr : inst1.IRName = inst2.IRName)
    (ha1 : inst1.getOperand 0 = some a1) (hb1 : inst1.getOperand 1 = some b1)
    (ha2 : inst2.getOperand 0 = some a2) (hb2 : inst2.getOperand 1 = some b2)
    (ha : a1.IRName = a2.IRName) (hb : b1.IRName = b2.IRName) :
    inst1.toString Instruction_toString str1 =
      some (inst1.IRName ++ " = " ++ m1 ++ " " ++ a1.IRName ++ ", " ++ b1.IRName) ∧
    operator_of_mnemonic m1 = some inst1.op ∧
    (inst1.toString Instruction_toString str1 = inst2.toString Instruction_toString str2 →
      inst1.op = inst2.op) ∧
    (inst1.op ≠ inst2.op →
      inst1.toString Instruction_toString str1 ≠
        inst2.toString Instruction_toString str2) := by
  have h1 := toString_of_binary_mnemonic Instruction_toString inst1 str1 m1 a1 b1 hm1 ha1 hb1
  have h2 := toString_of_binary_mnemonic Instruction_toString inst2 str2 m2 a2 b2 hm2 ha2 hb2
  have hinj : inst1.toString Instruction_toString str1 =
      inst2.toString Instruction_toString str2 → inst1.op = inst2.op := by
    intro heq
    rw [h1, h2, hr, ha, hb] at heq
    have hsep : " = " ++ m1 ++ " " = " = " ++ m2 ++ " " :=
      string_append_right_cancel _ _ _ (string_append_left_cancel _ _ _ (Option.some.inj heq))
    have hm : m1 = m2 :=
      string_append_left_cancel _ _ _ (string_append_right_cancel _ _ _ hsep)
    have hop := binary_mnemonic_recovers inst1.op m1 hm1
    rw [hm, binary_mnemonic_recovers inst2.op m2 hm2] at hop
    exact (Option.some.inj hop).symm
  refine ⟨?_, binary_mnemonic_recovers inst1.op m1 hm1, hinj, fun hne heq => hne (hinj heq)⟩
  rw [h1]
  simp [String.append_assoc]

/-- Witness of C31: `%t3 = add %l1, 10` and `%t3 = sub %l1, 10` differ, as do
the prints of `<` and `<=`; the general statement at these instructions. -/
theorem BinaryInstruction_toString_injective_witness :
    (inst_t3 IRINST_OP_ADD_I).toString (fun _ s => s) "" = some "%t3 = add %l1, 10" ∧
    (inst_t3 IRINST_OP_SUB_I).toString (fun _ s => s) "" = some "%t3 = sub %l1, 10" ∧
    (inst_t3 IRINST_OP_ADD_I).toString (fun _ s => s) "" ≠
      (inst_t3 IRINST_OP_SUB_I).toString (fun _ s => s) "" ∧
    (inst_t3 IRINST_OP_LT_I).toString (fun _ s => s) "" ≠
      (inst_t3 IRINST_OP_LE_I).toString (fun _ s => s) "" :=
  ⟨rfl, rfl,
    (BinaryInstruction_toString_injective (fun _ s => s) (inst_t3 IRINST_OP_ADD_I)
      (inst_t3 IRINST_OP_SUB_I) { type := Ty.Int32, IRName := "%l1" }
      { type := Ty.Int32, IRName := "10" } { type := Ty.Int32, IRName := "%l1" }
      { type := Ty.Int32, IRName := "10" } "add" "sub" "" "" rfl rfl rfl rfl rfl rfl rfl
      rfl rfl).2.2.2 (by decide),
    (BinaryInstruction_toString_injective (fun _ s => s) (inst_t3 IRINST_OP_LT_I)
      (inst_t3 IRINST_OP_LE_I) { type := Ty.Int32, IRName := "%l1" }
      { type := Ty.Int32, IRName := "10" } { type := Ty.Int32, IRName := "%l1" }
      { type := Ty.Int32, IRName := "10" } "icmp lt" "icmp le" "" "" rfl rfl rfl rfl rfl rfl
      rfl rfl rfl).2.2.2 (by decide)⟩

end MiniC
